import Mathlib

/-!
# pepr3d: semi-automatic segmentation tool

A shallow embedding of `src/tools/SemiautomaticSegmentation.cpp`, of `src/tools/Brush.cpp` and
of `src/geometry/Geometry.h`, and theorems about them.

Modelling conventions.

* `std::unordered_map<size_t, V>` is an association list `List (Nat × V)` with pairwise distinct
  keys.  The list order stands for the (unspecified) iteration order of the container; `insert`
  of a new key appends.  Statements that must not depend on the iteration order quantify over
  every permutation of the map they read.
* `double` values are rationals.  The result of a `double` subtraction is rounded to the nearest
  double (`roundDouble`); `abs` (taken as the `double` overload) and the comparisons are exact.
  The `float` colours and the spread are exact rationals: the tool does no arithmetic on them.
* `size_t` values are natural numbers; `std::numeric_limits<size_t>::max()` is `2 ^ 64 - 1`.
* Undefined behaviour (dereferencing `end()`, `back()` of an empty vector, an out-of-range
  `operator[]`) makes the embedded function return `none`.  An `assert` that is followed by
  well-defined code is transparent (the behaviour with `NDEBUG`).
* The collaborators that are not part of the translated file (the geometry with its palette,
  its SDF values and its bucket fill) are fields of the structure `Geometry`.
-/

namespace pepr3d

/-! ## Containers -/

/-- The iteration-ordered contents of a `std::unordered_map<size_t, V>`. -/
abbrev UMap (V : Type) := List (Nat × V)

/-- Source: `m.find(k)`: the mapped value, `none` for `end()`. -/
def UMap.find {V : Type} : UMap V → Nat → Option V
  | [], _ => none
  | (k', v) :: rest, k => if k' = k then some v else UMap.find rest k

/-- Source: `m.insert({k, v})`: no effect when the key is present. -/
def UMap.insert {V : Type} (m : UMap V) (k : Nat) (v : V) : UMap V :=
  match UMap.find m k with
  | some _ => m
  | none => m ++ [(k, v)]

/-- Overwrite through an iterator: `it->second = f (it->second)` for the entry with key `k`. -/
def UMap.modify {V : Type} (m : UMap V) (k : Nat) (f : V → V) : UMap V :=
  m.map (fun p => if p.1 = k then (p.1, f p.2) else p)

/-- Source: `v[i] = x` on a `std::vector`; out of range is undefined behaviour. -/
def vecSet {α : Type} (v : List α) (i : Nat) (x : α) : Option (List α) :=
  if i < v.length then some (v.set i x) else none

/-! ## Collaborators -/

/-- A `glm::vec4` colour. -/
structure Vec4 where
  r : ℚ
  g : ℚ
  b : ℚ
  a : ℚ
deriving DecidableEq

/-- The part of `Geometry` (with its `ColorManager`) that the tool reads. -/
structure Geometry where
  /-- Source: `getColorManager().size()` -/
  paletteSize : Nat
  /-- Source: `getColorManager().getColor(i)` -/
  getColor : Nat → Vec4
  /-- Source: `getColorManager().getActiveColorIndex()` -/
  activeColorIndex : Nat
  /-- Source: `getTriangleCount()` -/
  triangleCount : Nat
  /-- Source: `getTriangleColor(i)` -/
  getTriangleColor : Nat → Nat
  /-- Source: `isSdfComputed()` -/
  sdfComputed : Bool
  /-- Source: `getSdfValue(i)` -/
  getSdfValue : Nat → ℚ
  /-- Source: `bucket(startingTriangles, SDFStopping(this, initialValues, spread))` -/
  bucket : List Nat → List ℚ → ℚ → List Nat

/-- Source: `std::numeric_limits<size_t>::max()`. -/
def sizeMax : Nat := 2 ^ 64 - 1

/-! ## Double arithmetic -/

/-- The integer nearest to `x`, the even one of the two when `x` lies half-way. -/
def roundHalfEven (x : ℚ) : ℤ :=
  let f := ⌊x⌋
  if x - f < 1 / 2 then f
  else if 1 / 2 < x - f then f + 1
  else if f % 2 = 0 then f else f + 1

/-- Halving loop of `floorLog2`; the first argument bounds the number of steps. -/
def floorLog2Loop : Nat → Nat → Nat
  | 0, _ => 0
  | fuel + 1, n => if n < 2 then 0 else floorLog2Loop fuel (n / 2) + 1

/-- The position of the leading bit of a positive natural number: `2 ^ k ≤ n < 2 ^ (k + 1)`. -/
def floorLog2 (n : Nat) : Nat := floorLog2Loop n n

/-- The binary exponent of a positive rational `q`: the integer `e` with
`2 ^ e ≤ q < 2 ^ (e + 1)`, found from the bit lengths of the numerator and the denominator. -/
def binaryExponent (q : ℚ) : ℤ :=
  let e : ℤ := (floorLog2 q.num.natAbs : ℤ) - (floorLog2 q.den : ℤ)
  if (2 : ℚ) ^ e ≤ q then e else e - 1

/-- The `double` nearest to the positive rational `q`: with `2 ^ e ≤ q < 2 ^ (e + 1)` the
doubles around `q` are the multiples of `2 ^ (e - 52)` (53 significant bits), and `q` is rounded
to the nearest of them, ties to the even significand. -/
def roundPositive (q : ℚ) : ℚ :=
  let ulp : ℚ := 2 ^ (binaryExponent q - 52)
  roundHalfEven (q / ulp) * ulp

/-- The result that a `double` operation delivers when its exact result is `q`: IEEE 754 binary64
round-to-nearest, ties-to-even, which is symmetric in the sign.  The exponent range is not
bounded: no overflow (the SDF values are far from `1.8e308`), and a difference of two doubles in
the subnormal range is exact in the format as well as here. -/
def roundDouble (q : ℚ) : ℚ :=
  if 0 < q then roundPositive q
  else if q < 0 then -roundPositive (-q)
  else 0

/-! ## Conflict resolution -/

/-- The loop of `std::lower_bound` over indices: `first` and `len` as in the library. -/
def lowerBoundLoop (values : List ℚ) (target : ℚ) : Nat → Nat → Nat → Nat
  | 0, first, _ => first
  | fuel + 1, first, len =>
    if len = 0 then first
    else
      let half := len / 2
      let middle := first + half
      if values.getD middle 0 < target then
        lowerBoundLoop values target fuel (middle + 1) (len - half - 1)
      else
        lowerBoundLoop values target fuel first half

/-- Source: `std::lower_bound(values.begin(), values.end(), target) - values.begin()`. -/
def lowerBound (values : List ℚ) (target : ℚ) : Nat :=
  lowerBoundLoop values target values.length 0 values.length

/-- The lambda `findClosestSDFValue` of `findClosestColorFromSDF`. -/
def findClosestSDFValue (target : ℚ) (values : List ℚ) : Option ℚ :=
  match values with
  | [] => none
  | front :: rest =>
    let initialSdfValue := lowerBound (front :: rest) target
    let closest : ℚ × ℚ :=
      if initialSdfValue = (front :: rest).length then
        ((front :: rest).getLastD 0, (front :: rest).getLastD 0)
      else
        let here := (front :: rest).getD initialSdfValue 0
        if here = front then (here, here)
        else (here, (front :: rest).getD (initialSdfValue - 1) 0)
    let delta1 := |roundDouble (target - closest.1)|
    let delta2 := |roundDouble (target - closest.2)|
    if delta1 < delta2 then some closest.1 else some closest.2

/-- Source: `SemiautomaticSegmentation::findClosestColorFromSDF`. -/
def findClosestColorFromSDF (g : Geometry) (triangle color1 color2 : Nat)
    (sdfValuesPerColor : UMap (List ℚ)) : Option Nat :=
  let triangleSdfValue := g.getSdfValue triangle
  match UMap.find sdfValuesPerColor color1, UMap.find sdfValuesPerColor color2 with
  | none, none => some sizeMax
  | none, some _ => some color2
  | some _, none => some color1
  | some values1, some values2 =>
    match findClosestSDFValue triangleSdfValue values1,
          findClosestSDFValue triangleSdfValue values2 with
    | some closeToColor1, some closeToColor2 =>
      let delta1 := |roundDouble (triangleSdfValue - closeToColor1)|
      let delta2 := |roundDouble (triangleSdfValue - closeToColor2)|
      if delta1 < delta2 then some color1 else some color2
    | _, _ => none

/-- The body of the inner loop of `postprocess` for the triangle `tri` of colour `currentColor`. -/
def postprocessTriangle (g : Geometry) (sdfValuesPerColor : UMap (List ℚ)) (currentColor : Nat)
    (triangleToColor : UMap Nat) (tri : Nat) : Option (UMap Nat) :=
  match UMap.find triangleToColor tri with
  | none => some (UMap.insert triangleToColor tri currentColor)
  | some oldColor =>
    match findClosestColorFromSDF g tri oldColor currentColor sdfValuesPerColor with
    | some winner => some (UMap.modify triangleToColor tri (fun _ => winner))
    | none => none

/-- The inner loop of `postprocess`: all triangles of one colour. -/
def postprocessColor (g : Geometry) (sdfValuesPerColor : UMap (List ℚ))
    (triangleToColor : UMap Nat) (oneColor : Nat × List Nat) : Option (UMap Nat) :=
  oneColor.2.foldlM (postprocessTriangle g sdfValuesPerColor oneColor.1) triangleToColor

/-- The two nested loops of `postprocess`: the scratch map `triangleToColor`. -/
def resolveConflicts (g : Geometry) (sdfValuesPerColor : UMap (List ℚ))
    (coloring : UMap (List Nat)) : Option (UMap Nat) :=
  coloring.foldlM (postprocessColor g sdfValuesPerColor) []

/-- The second loop of `collectTrianglesByColor`: one source entry. -/
def collectStep (result : UMap (List Nat)) (colorTris : Nat × Nat) : Option (UMap (List Nat)) :=
  match UMap.find result colorTris.2 with
  | none => none
  | some _ => some (UMap.modify result colorTris.2 (fun tris => tris ++ [colorTris.1]))

/-- Source: `SemiautomaticSegmentation::collectTrianglesByColor`. -/
def collectTrianglesByColor (g : Geometry) (sourceTriangles : UMap Nat) :
    Option (UMap (List Nat)) :=
  sourceTriangles.foldlM collectStep ((List.range g.paletteSize).map (fun i => (i, [])))

/-- Source: `SemiautomaticSegmentation::postprocess`: the new value of `mCurrentColoring`. -/
def postprocess (g : Geometry) (sdfValuesPerColor : UMap (List ℚ))
    (mCurrentColoring : UMap (List Nat)) : Option (UMap (List Nat)) :=
  match resolveConflicts g sdfValuesPerColor mCurrentColoring with
  | none => none
  | some triangleToColor => collectTrianglesByColor g triangleToColor

/-- The `(colour, triangle)` pairs of a colouring in the order in which the two nested loops of
`postprocess` visit them. -/
def pairsOf (coloring : UMap (List Nat)) : List (Nat × Nat) :=
  coloring.flatMap (fun oneColor => oneColor.2.map (fun tri => (oneColor.1, tri)))

/-- One visit of the nested loops of `postprocess`, on a `(colour, triangle)` pair. -/
def resolveStep (g : Geometry) (sdfValuesPerColor : UMap (List ℚ)) (triangleToColor : UMap Nat)
    (p : Nat × Nat) : Option (UMap Nat) :=
  postprocessTriangle g sdfValuesPerColor p.1 triangleToColor p.2

/-- The triangles that a scratch map `triangle -> colour` gives to the colour `c`. -/
def ownedBy (triangleToColor : UMap Nat) (c : Nat) : List Nat :=
  (triangleToColor.filter (fun p => p.2 = c)).map Prod.fst

/-- The distance `delta` that `findClosestColorFromSDF` computes for a colour: from the SDF value
of the triangle to the sample that `findClosestSDFValue` picks among the colour's samples. -/
def sampleDistance (g : Geometry) (sdfValuesPerColor : UMap (List ℚ)) (color tri : Nat) : ℚ :=
  match UMap.find sdfValuesPerColor color with
  | some values =>
    match findClosestSDFValue (g.getSdfValue tri) values with
    | some close => |roundDouble (g.getSdfValue tri - close)|
    | none => 0
  | none => 0

/-- The colour has an entry with at least one sample in the lookup. -/
def HasSamples (sdfValuesPerColor : UMap (List ℚ)) (c : Nat) : Prop :=
  ∃ values, UMap.find sdfValuesPerColor c = some values ∧ values ≠ []

/-- The colour `c` claims the triangle `t` in the colouring. -/
def Claims (coloring : UMap (List Nat)) (c t : Nat) : Prop :=
  ∃ ts, (c, ts) ∈ coloring ∧ t ∈ ts

/-- What the loops of `postprocess` maintain: `m` is the scratch map after the pairs `ps`. -/
structure ResolveInv (g : Geometry) (lk : UMap (List ℚ)) (ps : List (Nat × Nat))
    (m : UMap Nat) : Prop where
  nodup : (m.map Prod.fst).Nodup
  owner_claims : ∀ t c, UMap.find m t = some c → (c, t) ∈ ps
  claimed_owned : ∀ c t, (c, t) ∈ ps → ∃ c', UMap.find m t = some c'
  owner_closest : ∀ t c, UMap.find m t = some c → ∀ c', (c', t) ∈ ps →
    sampleDistance g lk c t ≤ sampleDistance g lk c' t
  owner_last : ∀ t c, UMap.find m t = some c → ∀ pre post c', ps = pre ++ (c', t) :: post →
    sampleDistance g lk c' t = sampleDistance g lk c t → (c, t) ∈ (c', t) :: post

/-! ## The tool and its collaborators' state -/

/-- A `CmdPaintSingleColor(triangles, color)` handed to `CommandManager::execute` together with
the flag `groupWithPrevious`. -/
structure PaintCommand where
  triangles : List Nat
  color : Nat
  groupWithPrevious : Bool
deriving DecidableEq

/-- The members of `SemiautomaticSegmentation`, the override state of the `ModelView` and the
commands that the `CommandManager` has executed. -/
structure State where
  mBucketSpread : ℚ
  mBucketSpreadLatest : ℚ
  mNormalStop : Bool
  mHoveredTriangleId : Option Nat
  /-- seed registry: triangle -> colour -/
  mStartingTriangles : UMap Nat
  mBackupColorBuffer : List Vec4
  mCurrentColoring : UMap (List Nat)
  /-- Source: `getModelView().getOverrideColorBuffer()` -/
  overrideColorBuffer : List Vec4
  /-- Source: `getModelView().isColorOverride()` -/
  colorOverride : Bool
  /-- the commands passed to `getCommandManager()->execute`, oldest first -/
  executed : List PaintCommand
deriving DecidableEq

/-- The state of a freshly constructed tool: the members as `reset` leaves them, no colouring,
no command executed. -/
def State.initial : State where
  mBucketSpread := 0
  mBucketSpreadLatest := 0
  mNormalStop := false
  mHoveredTriangleId := none
  mStartingTriangles := []
  mBackupColorBuffer := []
  mCurrentColoring := []
  overrideColorBuffer := []
  colorOverride := false
  executed := []

/-- What the user does in the widgets of one `drawToSidePane` call. -/
structure SidePaneInput where
  /-- Source: `drawButton("Compute SDF")` -/
  computeSdf : Bool
  /-- the colour picked in `drawColorPalette`, if any -/
  pickedColor : Option Nat
  /-- the value that `drawFloatDragger("Spread", mBucketSpread, ...)` writes, if any -/
  spread : Option ℚ
  /-- Source: `drawButton("Apply")` -/
  apply : Bool
  /-- Source: `drawButton("Cancel")` -/
  cancel : Bool

/-- The three writes `buffer[3 * tri] = buffer[3 * tri + 1] = buffer[3 * tri + 2] = rgb`. -/
def paintTriangle (buffer : List Vec4) (tri : Nat) (rgb : Vec4) : Option (List Vec4) :=
  match vecSet buffer (3 * tri) rgb with
  | none => none
  | some b1 =>
    match vecSet b1 (3 * tri + 1) rgb with
    | none => none
    | some b2 => vecSet b2 (3 * tri + 2) rgb

/-- Source: `SemiautomaticSegmentation::reset`. -/
def reset (s : State) : State :=
  { s with
    mBucketSpread := 0
    mBucketSpreadLatest := 0
    mNormalStop := false
    mHoveredTriangleId := none
    mStartingTriangles := []
    mBackupColorBuffer := []
    overrideColorBuffer := []
    colorOverride := false }

/-- The body of the loop "Bucket spread all the colors" of `spreadColors`: the state of the loop
is the pair `(sdfValuesPerColor, mCurrentColoring)`. -/
def growColor (g : Geometry) (mBucketSpread : ℚ) (acc : UMap (List ℚ) × UMap (List Nat))
    (colorTriangles : Nat × List Nat) : UMap (List ℚ) × UMap (List Nat) :=
  let currentColor := colorTriangles.1
  let startingTriangles := colorTriangles.2
  if startingTriangles.isEmpty then acc
  else
    let sdfValuesPerColor := UMap.modify (UMap.insert acc.1 currentColor []) currentColor
      (fun initialValues => initialValues ++ startingTriangles.map g.getSdfValue)
    let initialValues := (UMap.find sdfValuesPerColor currentColor).getD []
    let ret := g.bucket startingTriangles initialValues mBucketSpread
    (sdfValuesPerColor, UMap.insert acc.2 currentColor ret)

/-- The loop "Bucket spread all the colors" of `spreadColors`, from the cleared colouring. -/
def growColors (g : Geometry) (mBucketSpread : ℚ) (trianglesByColor : UMap (List Nat)) :
    UMap (List ℚ) × UMap (List Nat) :=
  trianglesByColor.foldl (growColor g mBucketSpread) ([], [])

/-- The loop "Render all new colorings" of `spreadColors`. -/
def renderColoring (g : Geometry) (isColorOverride : Bool) (coloring : UMap (List Nat))
    (overrideBuffer : List Vec4) : Option (List Vec4) :=
  coloring.foldlM (fun buffer entry =>
    if isColorOverride then
      entry.2.foldlM (fun b tri => paintTriangle b tri (g.getColor entry.1)) buffer
    else some buffer) overrideBuffer

/-- Source: `SemiautomaticSegmentation::spreadColors`. -/
def spreadColors (g : Geometry) (s : State) : Option State :=
  match collectTrianglesByColor g s.mStartingTriangles with
  | none => none
  | some trianglesByColor =>
    let grown := growColors g s.mBucketSpread trianglesByColor
    match postprocess g grown.1 grown.2 with
    | none => none
    | some coloring =>
      match renderColoring g s.colorOverride coloring s.mBackupColorBuffer with
      | none => none
      | some overrideBuffer =>
        some { s with
          mCurrentColoring := coloring
          mBucketSpreadLatest := s.mBucketSpread
          overrideColorBuffer := overrideBuffer }

/-- Source: `SemiautomaticSegmentation::setupOverride`. -/
def setupOverride (g : Geometry) (s : State) : Option State :=
  let resized : List Vec4 := List.replicate (g.triangleCount * 3) ⟨0, 0, 0, 0⟩
  match (List.range g.triangleCount).foldlM
      (fun b i => paintTriangle b i (g.getColor (g.getTriangleColor i))) resized with
  | none => none
  | some meshColors =>
    match s.mStartingTriangles.foldlM
        (fun b repaint => paintTriangle b repaint.1 (g.getColor repaint.2)) meshColors with
    | none => none
    | some newOverrideBuffer =>
      some { s with
        mBackupColorBuffer := newOverrideBuffer
        overrideColorBuffer := newOverrideBuffer
        colorOverride := true }

/-- Source: `SemiautomaticSegmentation::setTriangleColor`. -/
def setTriangleColor (g : Geometry) (s : State) : Option State :=
  match s.mHoveredTriangleId with
  | none => none
  | some triIndex =>
    let activeColor := g.activeColorIndex
    let findSameColorList := UMap.find s.mStartingTriangles triIndex
    if findSameColorList = some activeColor then some s
    else
      let mStartingTriangles :=
        match findSameColorList with
        | none => UMap.insert s.mStartingTriangles triIndex activeColor
        | some _ => UMap.modify s.mStartingTriangles triIndex (fun _ => activeColor)
      if s.colorOverride then
        match paintTriangle s.overrideColorBuffer triIndex (g.getColor activeColor) with
        | none => none
        | some overrideBuffer =>
          match paintTriangle s.mBackupColorBuffer triIndex (g.getColor activeColor) with
          | none => none
          | some backup =>
            some { s with
              mStartingTriangles := mStartingTriangles
              overrideColorBuffer := overrideBuffer
              mBackupColorBuffer := backup }
      else some { s with mStartingTriangles := mStartingTriangles }

/-- Source: `SemiautomaticSegmentation::onModelViewMouseDown`; `geometry` is `none` for a null
`getCurrentGeometry()`. -/
def onModelViewMouseDown (geometry : Option Geometry) (s : State) (isLeftDown : Bool) :
    Option State :=
  if !isLeftDown then some s
  else if s.mHoveredTriangleId.isNone then some s
  else
    match geometry with
    | none => some s
    | some g =>
      let emptyBefore := s.mStartingTriangles.isEmpty
      match setTriangleColor g s with
      | none => none
      | some s1 =>
        if emptyBefore && !s1.mStartingTriangles.isEmpty then setupOverride g s1
        else
          some { s1 with
            overrideColorBuffer := s1.mBackupColorBuffer
            mBucketSpread := 0
            mBucketSpreadLatest := 0 }

/-- Source: `SemiautomaticSegmentation::onModelViewMouseMove`; `hit` is the result of
`geometry->intersectMesh(lastRay)`. -/
def onModelViewMouseMove (geometry : Option Geometry) (s : State) (hit : Option Nat) : State :=
  match geometry with
  | none => { s with mHoveredTriangleId := none }
  | some _ => { s with mHoveredTriangleId := hit }

/-- Source: `SemiautomaticSegmentation::onModelViewMouseDrag`. -/
def onModelViewMouseDrag (geometry : Option Geometry) (s : State) (hit : Option Nat)
    (isLeftDown : Bool) : Option State :=
  onModelViewMouseDown geometry (onModelViewMouseMove geometry s hit) isLeftDown

/-- Source: `SemiautomaticSegmentation::onToolDeselect`. -/
def onToolDeselect (s : State) : State := reset s

/-- Source: `SemiautomaticSegmentation::onNewGeometryLoaded`. -/
def onNewGeometryLoaded (s : State) : State := reset s

/-- The commands of the loop under `drawButton("Apply")`, one per entry of `mCurrentColoring`. -/
def applyCommands (coloring : UMap (List Nat)) : List PaintCommand :=
  coloring.map (fun toPaint => ⟨toPaint.2, toPaint.1, false⟩)

/-- The branch of `drawButton("Apply")`: every entry is executed as a command (its vector is
moved into the command and left empty), then `reset`. -/
def applyPressed (s : State) : State :=
  reset { s with
    executed := s.executed ++ applyCommands s.mCurrentColoring
    mCurrentColoring := s.mCurrentColoring.map (fun toPaint => (toPaint.1, [])) }

/-- The dragger of `drawToSidePane` and the re-fill that follows it. -/
def refill (g : Geometry) (s : State) (spread : Option ℚ) : Option State :=
  let s1 := match spread with
    | some v => { s with mBucketSpread := v }
    | none => s
  if s1.mBucketSpread ≠ s1.mBucketSpreadLatest then spreadColors g s1 else some s1

/-- Source: `sidePane.drawColorPalette(getColorManager())`: the user may pick the active colour. -/
def drawColorPalette (g : Geometry) (pickedColor : Option Nat) : Geometry :=
  match pickedColor with
  | some c => { g with activeColorIndex := c }
  | none => g

/-- Source: `SemiautomaticSegmentation::drawToSidePane` (the geometry is not null): the geometry
and the state after the call. -/
def drawToSidePane (g : Geometry) (s : State) (ui : SidePaneInput) : Option (Geometry × State) :=
  if !g.sdfComputed then
    if ui.computeSdf then some ({ g with sdfComputed := true }, s) else some (g, s)
  else
    let g1 := drawColorPalette g ui.pickedColor
    if s.mStartingTriangles.isEmpty then some (g1, s)
    else
      match refill g1 s ui.spread with
      | none => none
      | some s2 =>
        let s3 := if ui.apply then applyPressed s2 else s2
        let s4 := if ui.cancel then reset s3 else s3
        some (g1, s4)

/-- The events that reach the tool. -/
inductive Event where
  | mouseMove (hit : Option Nat)
  | mouseDown (isLeftDown : Bool)
  | mouseDrag (hit : Option Nat) (isLeftDown : Bool)
  | sidePane (ui : SidePaneInput)
  | toolDeselect
  | newGeometryLoaded

/-- One event on the current geometry. -/
def step (gs : Geometry × State) : Event → Option (Geometry × State)
  | .mouseMove hit => some (gs.1, onModelViewMouseMove (some gs.1) gs.2 hit)
  | .mouseDown isLeftDown =>
    (onModelViewMouseDown (some gs.1) gs.2 isLeftDown).map (fun s => (gs.1, s))
  | .mouseDrag hit isLeftDown =>
    (onModelViewMouseDrag (some gs.1) gs.2 hit isLeftDown).map (fun s => (gs.1, s))
  | .sidePane ui => drawToSidePane gs.1 gs.2 ui
  | .toolDeselect => some (gs.1, onToolDeselect gs.2)
  | .newGeometryLoaded => some (gs.1, onNewGeometryLoaded gs.2)

/-- A sequence of events. -/
def run (gs : Geometry × State) (events : List Event) : Option (Geometry × State) :=
  events.foldlM step gs

/-- A side-pane frame in which the user touches nothing. -/
def SidePaneInput.idle : SidePaneInput where
  computeSdf := false
  pickedColor := none
  spread := none
  apply := false
  cancel := false

/-! ## Well-formed sessions -/

/-- The geometry is consistent: the active colour is a palette colour and the bucket fill stays
inside the mesh. -/
structure GeometryOK (g : Geometry) : Prop where
  active : g.activeColorIndex < g.paletteSize
  bucket : ∀ startingTriangles initialValues spread,
    (∀ t ∈ startingTriangles, t < g.triangleCount) →
    ∀ t ∈ g.bucket startingTriangles initialValues spread, t < g.triangleCount

/-- The session invariant of the tool on a mesh of `g.triangleCount` triangles. -/
structure SessionInv (g : Geometry) (s : State) : Prop where
  seeds_tri : ∀ p ∈ s.mStartingTriangles, p.1 < g.triangleCount
  seeds_color : ∀ p ∈ s.mStartingTriangles, p.2 < g.paletteSize
  hovered : ∀ t, s.mHoveredTriangleId = some t → t < g.triangleCount
  idle : s.mStartingTriangles = [] →
    s.mBackupColorBuffer = [] ∧ s.overrideColorBuffer = [] ∧ s.colorOverride = false
  active : s.mStartingTriangles ≠ [] →
    s.colorOverride = true ∧ s.mBackupColorBuffer.length = 3 * g.triangleCount ∧
      s.overrideColorBuffer.length = 3 * g.triangleCount

/-- The event is one that the mesh of `g` can produce: a hovered triangle is a triangle of the
mesh and a picked colour is a palette colour. -/
def EventOK (g : Geometry) : Event → Prop
  | .mouseMove hit => ∀ t, hit = some t → t < g.triangleCount
  | .mouseDrag hit _ => ∀ t, hit = some t → t < g.triangleCount
  | .sidePane ui => ∀ c, ui.pickedColor = some c → c < g.paletteSize
  | _ => True

/-! ## Closed forms of the growth loop -/

/-- The seed triangles per palette colour: what `collectTrianglesByColor(mStartingTriangles)`
returns when every seed colour is a palette id. -/
def seedsByColor (g : Geometry) (mStartingTriangles : UMap Nat) : UMap (List Nat) :=
  (List.range g.paletteSize).map (fun i => (i, ownedBy mStartingTriangles i))

/-- The lookup `sdfValuesPerColor` after the growth loop over `trianglesByColor`. -/
def sampleTable (g : Geometry) (trianglesByColor : UMap (List Nat)) : UMap (List ℚ) :=
  (trianglesByColor.filter (fun e => !e.2.isEmpty)).map
    (fun e => (e.1, e.2.map g.getSdfValue))

/-- The raw colouring `mCurrentColoring` after the growth loop over `trianglesByColor`. -/
def rawClaims (g : Geometry) (mBucketSpread : ℚ) (trianglesByColor : UMap (List Nat)) :
    UMap (List Nat) :=
  (trianglesByColor.filter (fun e => !e.2.isEmpty)).map
    (fun e => (e.1, g.bucket e.2 (e.2.map g.getSdfValue) mBucketSpread))

/-- Started from triangles of the mesh, the bucket fill returns triangles of the mesh. -/
def BucketInRange (g : Geometry) : Prop :=
  ∀ startingTriangles initialValues spread,
    (∀ t ∈ startingTriangles, t < g.triangleCount) →
    ∀ t ∈ g.bucket startingTriangles initialValues spread, t < g.triangleCount

/-! ## The conflict scenario -/

/-- A mesh of 4 triangles with SDF values 0.1, 0.2, 0.8, 0.9 and a palette of 4 colours. -/
def scenarioGeometry : Geometry where
  paletteSize := 4
  getColor := fun i => ⟨i, 0, 0, 1⟩
  activeColorIndex := 0
  triangleCount := 4
  getTriangleColor := fun _ => 3
  sdfComputed := true
  getSdfValue := fun t => [1 / 10, 2 / 10, 8 / 10, 9 / 10].getD t 0
  bucket := fun startingTriangles _ _ =>
    startingTriangles.flatMap (fun t => if t = 0 then [0, 1] else if t = 3 then [3, 2] else [t])

/-- The samples of the scenario: colour 0 (A) was seeded at SDF 0.1, colour 1 (B) at 0.9. -/
def scenarioSamples : UMap (List ℚ) := [(0, [1 / 10]), (1, [9 / 10])]

/-- The overlapping raw claims of the scenario. -/
def scenarioClaims : UMap (List Nat) := [(0, [0, 1, 2]), (1, [1, 2, 3])]

/-! ## A lookup with unsorted samples -/

/-- A mesh of 4 triangles with SDF values 0.875, 0.125, 0.5, 0.75. -/
def unsortedGeometry : Geometry where
  paletteSize := 2
  getColor := fun i => ⟨i, 0, 0, 1⟩
  activeColorIndex := 0
  triangleCount := 4
  getTriangleColor := fun _ => 0
  sdfComputed := true
  getSdfValue := fun t => [7 / 8, 1 / 8, 1 / 2, 3 / 4].getD t 0
  bucket := fun startingTriangles _ _ => startingTriangles ++ [3]

/-- The samples of colour 0 seeded at the triangles 0 and 1 (in this order) and of colour 1
seeded at the triangle 2. -/
def unsortedSamples : UMap (List ℚ) := [(0, [7 / 8, 1 / 8]), (1, [1 / 2])]

/-! ## A tie and a three-way conflict -/

/-- A mesh with one triangle of SDF value 0.5 and a palette of 2 colours. -/
def tieGeometry : Geometry where
  paletteSize := 2
  getColor := fun i => ⟨i, 0, 0, 1⟩
  activeColorIndex := 0
  triangleCount := 1
  getTriangleColor := fun _ => 0
  sdfComputed := true
  getSdfValue := fun _ => 1 / 2
  bucket := fun startingTriangles _ _ => startingTriangles

/-- Colour 0 was seeded at SDF 0.25 and colour 1 at SDF 0.75: both are 0.25 away from 0.5. -/
def tieSamples : UMap (List ℚ) := [(0, [1 / 4]), (1, [3 / 4])]

/-- Both colours claim the triangle 0; colour 0 is iterated first. -/
def tieClaims : UMap (List Nat) := [(0, [0]), (1, [0])]

/-- The claims of `tieClaims` with colour 1 iterated first. -/
def tieClaimsSwapped : UMap (List Nat) := [(1, [0]), (0, [0])]

/-- Colour 0 was seeded at SDF `2 ^ -60` and colour 1 at SDF 1.0: the exact distances to 0.5
differ, the two `double` subtractions both deliver 0.5. -/
def roundingTieSamples : UMap (List ℚ) := [(0, [1 / 2 ^ 60]), (1, [1])]

/-- The mesh of `tieGeometry` with a palette of 3 colours. -/
def loserTieGeometry : Geometry := { tieGeometry with paletteSize := 3 }

/-- Colour 0 was seeded at SDF 0.4375, colour 1 at 0.25 and colour 2 at 0.75: colour 0 is the
nearest to 0.5, the other two are equally distant. -/
def loserTieSamples : UMap (List ℚ) := [(0, [7 / 16]), (1, [1 / 4]), (2, [3 / 4])]

/-- Three colours claim the triangle 0. -/
def loserTieClaims : UMap (List Nat) := [(0, [0]), (1, [0]), (2, [0])]

/-- The claims of `loserTieClaims` in another iteration order. -/
def loserTieClaimsRotated : UMap (List Nat) := [(2, [0]), (0, [0]), (1, [0])]

/-! ## Example states -/

/-- A session on the scenario mesh: seeds `0 -> colour 0`, `3 -> colour 1`, override on, spread
moved to 0.5 and not yet applied. -/
def scenarioState : State where
  mBucketSpread := 1 / 2
  mBucketSpreadLatest := 0
  mNormalStop := false
  mHoveredTriangleId := some 3
  mStartingTriangles := [(0, 0), (3, 1)]
  mBackupColorBuffer := (List.range 12).map (fun i => scenarioGeometry.getColor
    (if i < 3 then 0 else if i < 9 then 3 else 1))
  mCurrentColoring := []
  overrideColorBuffer := List.replicate 12 (scenarioGeometry.getColor 2)
  colorOverride := true
  executed := []

/-! ## Example sessions -/

/-- The user paints the triangle 0 with the colour 0, picks the colour 1 and paints the
triangle 3. -/
def seedEvents : List Event :=
  [.mouseMove (some 0), .mouseDown true,
   .sidePane { SidePaneInput.idle with pickedColor := some 1 },
   .mouseMove (some 3), .mouseDown true]

/-- The frame in which the user drags the spread to 0.5. -/
def spreadFrame : Event := .sidePane { SidePaneInput.idle with spread := some (1 / 2) }

/-- The frame in which the user presses Apply. -/
def applyFrame : Event := .sidePane { SidePaneInput.idle with apply := true }

/-- The frame in which the user presses Cancel. -/
def cancelFrame : Event := .sidePane { SidePaneInput.idle with cancel := true }

/-- The user seeds the triangle 0 with the colour 0, grows it with spread 0.5, then seeds the
triangle 3 with the colour 1 (which resets the spread to 0). -/
def staleEvents : List Event :=
  [.mouseMove (some 0), .mouseDown true, spreadFrame,
   .sidePane { SidePaneInput.idle with pickedColor := some 1 },
   .mouseMove (some 3), .mouseDown true]

/-- The user seeds the triangle 0 with the colour 0, grows it with spread 0.5 and cancels; in a
new session the triangle 3 is seeded with the colour 1. -/
def cancelledEvents : List Event :=
  [.mouseMove (some 0), .mouseDown true, spreadFrame, cancelFrame,
   .sidePane { SidePaneInput.idle with pickedColor := some 1 },
   .mouseMove (some 3), .mouseDown true]

/-! ## End of a session and missing prerequisites -/

/-- The state in which no session is active. -/
structure Cleared (s : State) : Prop where
  seeds : s.mStartingTriangles = []
  backup : s.mBackupColorBuffer = []
  live : s.overrideColorBuffer = []
  override : s.colorOverride = false
  hovered : s.mHoveredTriangleId = none
  spread : s.mBucketSpread = 0
  latest : s.mBucketSpreadLatest = 0

/-- The scenario mesh before its SDF values are computed. -/
def noSdfGeometry : Geometry := { scenarioGeometry with sdfComputed := false }

/-! ## The backup buffer of a session -/

/-- The colour index that the backup buffer shows for the triangle `t`: the seed colour of `t`
when it is seeded, the committed colour of the mesh otherwise. -/
def seedOrMeshColor (g : Geometry) (mStartingTriangles : UMap Nat) (t : Nat) : Nat :=
  match UMap.find mStartingTriangles t with
  | some c => c
  | none => g.getTriangleColor t

/-- In a session the backup buffer holds, for every triangle of the mesh, three times the
palette colour of its seed or else of the mesh. -/
def BackupInv (g : Geometry) (s : State) : Prop :=
  s.mStartingTriangles ≠ [] → ∀ t, t < g.triangleCount → ∀ k, k < 3 →
    s.mBackupColorBuffer[3 * t + k]? =
      some (g.getColor (seedOrMeshColor g s.mStartingTriangles t))

/-! ## The bucket growth service of the specification -/

/-- Modelled from the spec: the stopping predicate `SDFStopping` (its source is not part of the
translated files).  A candidate triangle is admitted when its SDF value lies within the tolerance
band around the nearest initial sample, that is when some initial sample is at most the band
width away; an empty sample set admits nothing.  The band width is a function `bandWidth` of the
spread, of which the specification fixes `bandWidth 0 = 0` and monotonicity. -/
def sdfStopping (bandWidth : ℚ → ℚ) (getSdfValue : Nat → ℚ) (initialValues : List ℚ)
    (spread : ℚ) (candidate : Nat) : Bool :=
  initialValues.any (fun v => decide (|getSdfValue candidate - v| ≤ bandWidth spread))

/-- Modelled from the spec: one round of the adjacency-respecting flood fill of
`Geometry::bucket`: the region grows by the admitted neighbours of its triangles. -/
def floodStep (neighbours : Nat → List Nat) (accepts : Nat → Bool) (region : List Nat) :
    List Nat :=
  region ++ ((region.flatMap neighbours).filter
    (fun t => accepts t && !region.contains t)).eraseDups

/-- Modelled from the spec: the bucket growth service `Geometry::bucket`: flood fill from the
seed triangles, bounded by the stopping predicate, run for as many rounds as the mesh has
triangles. -/
def bucketGrowth (neighbours : Nat → List Nat) (triangleCount : Nat) (seeds : List Nat)
    (accepts : Nat → Bool) : List Nat :=
  (floodStep neighbours accepts)^[triangleCount] seeds

/-- The adjacency of a mesh of two triangles that share an edge. -/
def pairNeighbours (t : Nat) : List Nat :=
  if t = 0 then [1] else if t = 1 then [0] else []

/-- A mesh of two adjacent triangles with the given SDF values, whose bucket fill is the growth
service of the specification with the band width equal to the spread. -/
def pairGeometry (getSdfValue : Nat → ℚ) : Geometry where
  paletteSize := 2
  getColor := fun i => ⟨i, 0, 0, 1⟩
  activeColorIndex := 0
  triangleCount := 2
  getTriangleColor := fun _ => 0
  sdfComputed := true
  getSdfValue := getSdfValue
  bucket := fun startingTriangles initialValues spread =>
    bucketGrowth pairNeighbours 2 startingTriangles
      (sdfStopping (fun x => x) getSdfValue initialValues spread)

/-- Two adjacent triangles with the same SDF value 0.5. -/
def flatGeometry : Geometry := pairGeometry (fun _ => 1 / 2)

/-- Two adjacent triangles with the SDF values 0.1 and 0.2. -/
def slopeGeometry : Geometry := pairGeometry (fun t => if t = 0 then 1 / 10 else 2 / 10)

/-- A mesh of two triangles with the same SDF value 0.5 on which the growth from either triangle
reaches the other one. -/
def twinGeometry : Geometry where
  paletteSize := 2
  getColor := fun i => ⟨i, 0, 0, 1⟩
  activeColorIndex := 0
  triangleCount := 2
  getTriangleColor := fun _ => 0
  sdfComputed := true
  getSdfValue := fun _ => 1 / 2
  bucket := fun startingTriangles _ _ =>
    if startingTriangles = [0] then [0, 1]
    else if startingTriangles = [1] then [1, 0]
    else startingTriangles

/-- The triangle 0 is seeded with the colour 0 and the triangle 1 with the colour 1; the spread
was moved to 0.25. -/
def twinState : State :=
  { State.initial with
    mStartingTriangles := [(0, 0), (1, 1)]
    mBucketSpread := 1 / 4 }

/-! ## Seeds with overlapping growth -/

/-- The mesh of `unsortedGeometry` with a bucket fill that reaches the triangle 0 from every
seed set. -/
def unsortedSeedGeometry : Geometry :=
  { unsortedGeometry with bucket := fun startingTriangles _ _ => startingTriangles ++ [0] }

/-- The triangles 0 and 1 (SDF 0.875 and 0.125, iterated in this order) are seeded with the
colour 0 and the triangle 2 (SDF 0.5) with the colour 1; the spread was moved to 0.25. -/
def unsortedSeedState : State :=
  { State.initial with
    mStartingTriangles := [(0, 0), (1, 0), (2, 1)]
    mBucketSpread := 1 / 4 }

/-- A mesh of 4 triangles with SDF values 0.125, 0.25, 0.75, 0.875 on which every growth also
reaches the triangles 1 and 2. -/
def overlapGeometry : Geometry where
  paletteSize := 2
  getColor := fun i => ⟨i, 0, 0, 1⟩
  activeColorIndex := 0
  triangleCount := 4
  getTriangleColor := fun _ => 1
  sdfComputed := true
  getSdfValue := fun t => [1 / 8, 1 / 4, 3 / 4, 7 / 8].getD t 0
  bucket := fun startingTriangles _ _ => startingTriangles ++ [1, 2]

/-- A session on `overlapGeometry`: the triangles 0 and 1 are seeded with the colour 0 and the
triangle 3 with the colour 1, override on, spread moved to 0.5. -/
def overlapState : State where
  mBucketSpread := 1 / 2
  mBucketSpreadLatest := 0
  mNormalStop := false
  mHoveredTriangleId := none
  mStartingTriangles := [(0, 0), (1, 0), (3, 1)]
  mBackupColorBuffer := (List.range 12).map (fun i => overlapGeometry.getColor
    (if i < 6 then 0 else 1))
  mCurrentColoring := []
  overrideColorBuffer := (List.range 12).map (fun i => overlapGeometry.getColor
    (if i < 6 then 0 else 1))
  colorOverride := true
  executed := []

/-! ## The brush tool (`src/tools/Brush.cpp`) -/

/-- The members of `mBrushSettings` that `Brush.cpp` reads and writes. -/
structure BrushSettings where
  color : Nat
  continuous : Bool
  paintBackfaces : Bool
  respectOriginalTriangles : Bool
  paintOuterRing : Bool
deriving DecidableEq

/-- A `CmdPaintBrush(mLastRay, mBrushSettings)` handed to `CommandManager::execute` together
with the flag `groupWithPrevious`; a ray is named by a number. -/
structure BrushCommand where
  ray : Nat
  settings : BrushSettings
  groupWithPrevious : Bool
deriving DecidableEq

/-- The members of `Brush` and what it reaches through `mApplication`: the active colour of the
palette, whether `getCommandManager()` is not null, and the commands the manager has executed. -/
structure Brush where
  mLastRay : Nat
  mBrushSettings : BrushSettings
  mGroupCommands : Bool
  mPaintsSinceDraw : Nat
  /-- `getCurrentGeometry()->getColorManager().getActiveColorIndex()` -/
  activeColorIndex : Nat
  /-- `getCommandManager() != nullptr` -/
  hasCommandManager : Bool
  /-- the commands passed to `commandManager->execute`, oldest first -/
  executed : List BrushCommand
deriving DecidableEq

/-- What the user does in the widgets of one `Brush::drawToSidePane` call. -/
structure BrushSidePaneInput where
  /-- the colour picked in `drawColorPalette`, if any -/
  pickedColor : Option Nat
  /-- the values of the check boxes after the call -/
  continuous : Bool
  paintBackfaces : Bool
  respectOriginalTriangles : Bool
  paintOuterRing : Bool

/-- Source: `Brush::paint`; `maxPaintsWithoutDraw` is the constant `MAX_PAINTS_WITHOUT_DRAW` of
`Brush.h`. -/
def Brush.paint (maxPaintsWithoutDraw : Nat) (b : Brush) : Brush :=
  if b.mPaintsSinceDraw ≥ maxPaintsWithoutDraw then b
  else
    let settings := { b.mBrushSettings with color := b.activeColorIndex }
    { b with
      mPaintsSinceDraw := b.mPaintsSinceDraw + 1
      mBrushSettings := settings
      executed :=
        if b.hasCommandManager then b.executed ++ [⟨b.mLastRay, settings, b.mGroupCommands⟩]
        else b.executed
      mGroupCommands := true }

/-- Source: `Brush::stopPaint`. -/
def Brush.stopPaint (b : Brush) : Brush :=
  { b with mGroupCommands := false }

/-- Source: `Brush::onModelViewMouseDown`; `ray` is
`modelView.getRayFromWindowCoordinates(event.getPos())`. -/
def Brush.onModelViewMouseDown (maxPaintsWithoutDraw : Nat) (b : Brush) (isLeft : Bool)
    (ray : Nat) : Brush :=
  if !isLeft then b
  else Brush.paint maxPaintsWithoutDraw { b with mLastRay := ray }

/-- Source: `Brush::onModelViewMouseUp`. -/
def Brush.onModelViewMouseUp (b : Brush) (isLeft : Bool) : Brush :=
  if !isLeft then b else Brush.stopPaint b

/-- Source: `Brush::onModelViewMouseDrag`; `updateHighlight` only calls the geometry and leaves
the brush as it is. -/
def Brush.onModelViewMouseDrag (maxPaintsWithoutDraw : Nat) (b : Brush) (isLeftDown : Bool)
    (ray : Nat) : Brush :=
  if !isLeftDown then b
  else Brush.paint maxPaintsWithoutDraw { b with mLastRay := ray }

/-- Source: `Brush::onModelViewMouseMove`. -/
def Brush.onModelViewMouseMove (b : Brush) (ray : Nat) : Brush :=
  { b with mLastRay := ray }

/-- Source: `Brush::drawToSidePane`. -/
def Brush.drawToSidePane (b : Brush) (ui : BrushSidePaneInput) : Brush :=
  { b with
    activeColorIndex := ui.pickedColor.getD b.activeColorIndex
    mBrushSettings :=
      { b.mBrushSettings with
        continuous := ui.continuous
        paintBackfaces := ui.paintBackfaces
        respectOriginalTriangles := ui.respectOriginalTriangles
        paintOuterRing :=
          if ui.respectOriginalTriangles then ui.paintOuterRing
          else b.mBrushSettings.paintOuterRing }
    mPaintsSinceDraw := 0 }

/-- The events that reach the brush. -/
inductive BrushEvent where
  | mouseDown (isLeft : Bool) (ray : Nat)
  | mouseUp (isLeft : Bool)
  | mouseDrag (isLeftDown : Bool) (ray : Nat)
  | mouseMove (ray : Nat)
  | sidePane (ui : BrushSidePaneInput)

/-- One event on the brush. -/
def Brush.step (maxPaintsWithoutDraw : Nat) (b : Brush) : BrushEvent → Brush
  | .mouseDown isLeft ray => Brush.onModelViewMouseDown maxPaintsWithoutDraw b isLeft ray
  | .mouseUp isLeft => Brush.onModelViewMouseUp b isLeft
  | .mouseDrag isLeftDown ray => Brush.onModelViewMouseDrag maxPaintsWithoutDraw b isLeftDown ray
  | .mouseMove ray => Brush.onModelViewMouseMove b ray
  | .sidePane ui => Brush.drawToSidePane b ui

/-- A sequence of events on the brush. -/
def Brush.run (maxPaintsWithoutDraw : Nat) (b : Brush) (events : List BrushEvent) : Brush :=
  events.foldl (Brush.step maxPaintsWithoutDraw) b

/-- The event is not the release of the left button. -/
def BrushEvent.inStroke : BrushEvent → Bool
  | .mouseUp isLeft => !isLeft
  | _ => true

/-- A brush that has already painted twice since the last draw, with no stroke going on. -/
def throttledBrush : Brush where
  mLastRay := 0
  mBrushSettings := ⟨0, false, false, false, false⟩
  mGroupCommands := false
  mPaintsSinceDraw := 2
  activeColorIndex := 1
  hasCommandManager := true
  executed := []

/-- A side-pane frame of the brush in which the user changes nothing. -/
def idleBrushFrame : BrushEvent :=
  .sidePane ⟨none, false, false, false, false⟩

/-- A stroke whose first paint is throttled: press, a draw, three drags (the third one
throttled again), a draw, a drag. -/
def throttledStroke : List BrushEvent :=
  [.mouseDown true 1, idleBrushFrame, .mouseDrag true 2, .mouseDrag true 3, .mouseDrag true 4,
   idleBrushFrame, .mouseDrag true 5]

/-! ## The mesh storage (`src/geometry/Geometry.h`) -/

namespace geometry

/-- A `glm::vec3`. -/
structure Vec3 where
  x : ℚ
  y : ℚ
  z : ℚ
deriving DecidableEq

/-- The struct `PeprColor`: `rgb[0]`, `rgb[1]`, `rgb[2]`. -/
structure PeprColor where
  r : ℚ
  g : ℚ
  b : ℚ
deriving DecidableEq

/-- The struct `DataTriangle`: `vertices[0]`, `vertices[1]`, `vertices[2]` and `color`. -/
structure DataTriangle where
  vertices0 : Vec3
  vertices1 : Vec3
  vertices2 : Vec3
  color : PeprColor
deriving DecidableEq

/-- Source: `DataTriangle::setColor`. -/
def DataTriangle.setColor (t : DataTriangle) (col : PeprColor) : DataTriangle :=
  { t with color := col }

/-- The members of the class `Geometry`; the entries of `mIndexBuffer` are `uint32_t`. -/
structure Geometry where
  mTriangles : List DataTriangle
  mVertexBuffer : List Vec3
  mIndexBuffer : List Nat
deriving DecidableEq

/-- The first assertion of `Geometry::setTriangleColor`:
`mVertexBuffer.size() < vertexPosition + 5` with `vertexPosition = triangleIndex * 6 * 3`, in
`size_t` arithmetic. -/
def Geometry.vertexBufferAssertion (geo : Geometry) (triangleIndex : Nat) : Bool :=
  let vertexPosition := triangleIndex * 6 * 3 % 2 ^ 64
  decide (geo.mVertexBuffer.length < (vertexPosition + 5) % 2 ^ 64)

/-- The second assertion of `Geometry::setTriangleColor`:
`triangleIndex < mTriangles.size()`. -/
def Geometry.triangleIndexAssertion (geo : Geometry) (triangleIndex : Nat) : Bool :=
  decide (triangleIndex < geo.mTriangles.length)

/-- Source: `Geometry::setTriangleColor` without its assertions (the writes to the vertex buffer
are commented out in the source): `mTriangles[triangleIndex].setColor(newColor)`. -/
def Geometry.setTriangleColor (geo : Geometry) (triangleIndex : Nat) (newColor : PeprColor) :
    Option Geometry :=
  match geo.mTriangles[triangleIndex]? with
  | none => none
  | some t =>
    some { geo with mTriangles := geo.mTriangles.set triangleIndex (t.setColor newColor) }

/-- Source: `Geometry::setTriangleColor` in a build with assertions: `none` when one of the two
assertions fails. -/
def Geometry.setTriangleColorChecked (geo : Geometry) (triangleIndex : Nat)
    (newColor : PeprColor) : Option Geometry :=
  if !geo.vertexBufferAssertion triangleIndex then none
  else if !geo.triangleIndexAssertion triangleIndex then none
  else geo.setTriangleColor triangleIndex newColor

end geometry

/-! ## Lemmas on containers -/

theorem UMap.find_append {V : Type} (m m' : UMap V) (k : Nat) :
    UMap.find (m ++ m') k = (UMap.find m k).orElse (fun _ => UMap.find m' k) := by
  induction m with
  | nil => simp [UMap.find]
  | cons p rest ih =>
    obtain ⟨k', v⟩ := p
    by_cases h : k' = k <;> simp [UMap.find, h, ih]

theorem UMap.find_cons {V : Type} (k0 : Nat) (v : V) (rest : UMap V) (k : Nat) :
    UMap.find ((k0, v) :: rest) k = if k0 = k then some v else UMap.find rest k := rfl

theorem UMap.modify_cons {V : Type} (p : Nat × V) (rest : UMap V) (k : Nat) (f : V → V) :
    UMap.modify (p :: rest) k f =
      (if p.1 = k then (p.1, f p.2) else p) :: UMap.modify rest k f := rfl

theorem UMap.find_insert_of_none {V : Type} (m : UMap V) (k k' : Nat) (v : V)
    (h : UMap.find m k = none) :
    UMap.find (UMap.insert m k v) k' = if k = k' then some v else UMap.find m k' := by
  simp only [UMap.insert, h, UMap.find_append, UMap.find]
  by_cases hk : k = k'
  · subst hk; simp [h]
  · simp [hk]

theorem UMap.find_modify {V : Type} (m : UMap V) (k k' : Nat) (f : V → V) :
    UMap.find (UMap.modify m k f) k' =
      if k' = k then (UMap.find m k').map f else UMap.find m k' := by
  induction m with
  | nil => simp [UMap.modify, UMap.find]
  | cons p rest ih =>
    obtain ⟨k0, v⟩ := p
    rw [UMap.modify_cons]
    by_cases h0 : k0 = k
    · rw [if_pos h0, UMap.find_cons, UMap.find_cons, ih]
      by_cases h1 : k0 = k'
      · have h2 : k' = k := h1 ▸ h0
        simp [h1, h2]
      · simp [h1]
    · rw [if_neg h0, UMap.find_cons, UMap.find_cons, ih]
      by_cases h1 : k0 = k'
      · have h2 : ¬ k' = k := fun h => h0 (h1.trans h)
        simp [h1, h2]
      · simp [h1]

theorem UMap.find_some_mem {V : Type} (m : UMap V) (k : Nat) (v : V)
    (h : UMap.find m k = some v) : (k, v) ∈ m := by
  induction m with
  | nil => simp [UMap.find] at h
  | cons p rest ih =>
    obtain ⟨k0, v0⟩ := p
    by_cases h0 : k0 = k
    · simp [UMap.find, h0] at h
      simp [h0, h]
    · simp [UMap.find, h0] at h
      exact List.mem_cons_of_mem _ (ih h)

theorem UMap.find_none_iff {V : Type} (m : UMap V) (k : Nat) :
    UMap.find m k = none ↔ k ∉ m.map Prod.fst := by
  induction m with
  | nil => simp [UMap.find]
  | cons p rest ih =>
    obtain ⟨k0, v0⟩ := p
    by_cases h0 : k0 = k
    · simp [UMap.find, h0]
    · have h1 : ¬ k = k0 := fun h => h0 h.symm
      simp [UMap.find, h0, h1, ih]

theorem UMap.mem_find_of_nodup {V : Type} (m : UMap V) (k : Nat) (v : V)
    (hnd : (m.map Prod.fst).Nodup) (h : (k, v) ∈ m) : UMap.find m k = some v := by
  induction m with
  | nil => simp at h
  | cons p rest ih =>
    obtain ⟨k0, v0⟩ := p
    simp only [List.map_cons, List.nodup_cons] at hnd
    rcases List.mem_cons.1 h with h | h
    · injection h with h1 h2
      simp [UMap.find, h1, h2]
    · have : k0 ≠ k := by
        intro h0
        apply hnd.1
        rw [h0]
        exact List.mem_map_of_mem Prod.fst h
      simp [UMap.find, this, ih hnd.2 h]

theorem UMap.keys_modify {V : Type} (m : UMap V) (k : Nat) (f : V → V) :
    (UMap.modify m k f).map Prod.fst = m.map Prod.fst := by
  simp only [UMap.modify, List.map_map]
  apply List.map_congr_left
  intro p _
  by_cases h : p.1 = k <;> simp [h]

theorem UMap.keys_insert_nodup {V : Type} (m : UMap V) (k : Nat) (v : V)
    (hnd : (m.map Prod.fst).Nodup) : ((UMap.insert m k v).map Prod.fst).Nodup := by
  unfold UMap.insert
  cases h : UMap.find m k with
  | some _ => simpa using hnd
  | none =>
    have hk := (UMap.find_none_iff m k).1 h
    simp only [List.map_append, List.map_cons, List.map_nil]
    rw [List.nodup_append]
    refine ⟨hnd, by simp, ?_⟩
    intro a ha hb
    simp at hb
    subst hb
    exact hk ha

/-! ## Lemmas on double arithmetic -/

theorem roundHalfEven_bounds (x : ℚ) : ⌊x⌋ ≤ roundHalfEven x ∧ roundHalfEven x ≤ ⌊x⌋ + 1 := by
  unfold roundHalfEven
  simp only
  split_ifs <;> constructor <;> omega

theorem roundHalfEven_mono (x y : ℚ) (h : x ≤ y) : roundHalfEven x ≤ roundHalfEven y := by
  have hf : ⌊x⌋ ≤ ⌊y⌋ := Int.floor_mono h
  rcases lt_or_eq_of_le hf with hlt | heq
  · exact le_trans (roundHalfEven_bounds x).2 (le_trans hlt (roundHalfEven_bounds y).1)
  · unfold roundHalfEven
    simp only
    rw [← heq]
    split_ifs <;> first | omega | (exfalso; linarith)

theorem roundHalfEven_intCast (n : ℤ) : roundHalfEven (n : ℚ) = n := by
  unfold roundHalfEven
  simp

theorem roundHalfEven_error (x : ℚ) : |(roundHalfEven x : ℚ) - x| ≤ 1 / 2 := by
  have h1 : (⌊x⌋ : ℚ) ≤ x := Int.floor_le x
  have h2 : x < (⌊x⌋ : ℚ) + 1 := Int.lt_floor_add_one x
  unfold roundHalfEven
  simp only
  rw [abs_le]
  split_ifs with a b c <;> push_cast <;> constructor <;> linarith

theorem floorLog2Loop_spec (fuel n : Nat) (h : n ≤ fuel) (hn : n ≠ 0) :
    2 ^ floorLog2Loop fuel n ≤ n ∧ n < 2 ^ (floorLog2Loop fuel n + 1) := by
  induction fuel generalizing n with
  | zero => omega
  | succ fuel ih =>
    unfold floorLog2Loop
    by_cases h2 : n < 2
    · rw [if_pos h2]
      have : n = 1 := by omega
      subst this
      simp
    · rw [if_neg h2]
      obtain ⟨a, b⟩ := ih (n / 2) (by omega) (by omega)
      rw [pow_succ] at b ⊢
      rw [pow_succ]
      constructor <;> omega

theorem floorLog2_spec (n : Nat) (hn : n ≠ 0) :
    2 ^ floorLog2 n ≤ n ∧ n < 2 ^ (floorLog2 n + 1) :=
  floorLog2Loop_spec n n (le_refl n) hn

/-- The binary exponent `e` of a positive rational `q` satisfies `2 ^ e ≤ q < 2 ^ (e + 1)`. -/
theorem binaryExponent_spec (q : ℚ) (hq : 0 < q) :
    (2 : ℚ) ^ binaryExponent q ≤ q ∧ q < (2 : ℚ) ^ (binaryExponent q + 1) := by
  have hnum : 0 < q.num := Rat.num_pos.2 hq
  have hn0 : q.num.natAbs ≠ 0 := Int.natAbs_ne_zero.2 hnum.ne'
  have hd0 : q.den ≠ 0 := q.den_nz
  have hncast : ((q.num.natAbs : ℕ) : ℚ) = (q.num : ℚ) := by
    have h : ((q.num.natAbs : ℕ) : ℤ) = q.num := Int.natAbs_of_nonneg hnum.le
    rw [← Int.cast_natCast, h]
  have hdpos : (0 : ℚ) < (q.den : ℚ) := by exact_mod_cast q.den_pos
  have hq' : q * (q.den : ℚ) = (q.num.natAbs : ℚ) := by
    rw [hncast]
    exact Rat.mul_den_eq_num q
  have n1 : (2 : ℚ) ^ ((floorLog2 q.num.natAbs : ℕ) : ℤ) ≤ (q.num.natAbs : ℚ) := by
    rw [zpow_natCast]
    exact_mod_cast (floorLog2_spec _ hn0).1
  have n2 : (q.num.natAbs : ℚ) < (2 : ℚ) ^ (((floorLog2 q.num.natAbs : ℕ) : ℤ) + 1) := by
    have : q.num.natAbs < 2 ^ (floorLog2 q.num.natAbs + 1) := (floorLog2_spec _ hn0).2
    have h' : ((q.num.natAbs : ℕ) : ℚ) < (2 : ℚ) ^ (floorLog2 q.num.natAbs + 1) := by
      exact_mod_cast this
    rw [← zpow_natCast] at h'
    exact_mod_cast h'
  have d1 : (2 : ℚ) ^ ((floorLog2 q.den : ℕ) : ℤ) ≤ (q.den : ℚ) := by
    rw [zpow_natCast]
    exact_mod_cast (floorLog2_spec _ hd0).1
  have d2 : (q.den : ℚ) < (2 : ℚ) ^ (((floorLog2 q.den : ℕ) : ℤ) + 1) := by
    have : q.den < 2 ^ (floorLog2 q.den + 1) := (floorLog2_spec _ hd0).2
    have h' : ((q.den : ℕ) : ℚ) < (2 : ℚ) ^ (floorLog2 q.den + 1) := by
      exact_mod_cast this
    rw [← zpow_natCast] at h'
    exact_mod_cast h'
  have two : (2 : ℚ) ≠ 0 := by norm_num
  have upper : q < (2 : ℚ) ^
      (((floorLog2 q.num.natAbs : ℕ) : ℤ) - ((floorLog2 q.den : ℕ) : ℤ) + 1) := by
    have hpos : (0 : ℚ) < (2 : ℚ) ^
        (((floorLog2 q.num.natAbs : ℕ) : ℤ) - ((floorLog2 q.den : ℕ) : ℤ) + 1) := by positivity
    have e : (2 : ℚ) ^ (((floorLog2 q.num.natAbs : ℕ) : ℤ) + 1) =
        (2 : ℚ) ^ (((floorLog2 q.num.natAbs : ℕ) : ℤ) - ((floorLog2 q.den : ℕ) : ℤ) + 1) *
          (2 : ℚ) ^ ((floorLog2 q.den : ℕ) : ℤ) := by
      rw [← zpow_add₀ two]
      congr 1
      ring
    have h1 : q * (q.den : ℚ) <
        (2 : ℚ) ^ (((floorLog2 q.num.natAbs : ℕ) : ℤ) - ((floorLog2 q.den : ℕ) : ℤ) + 1) *
          (q.den : ℚ) := by
      rw [hq']
      calc (q.num.natAbs : ℚ) < (2 : ℚ) ^ (((floorLog2 q.num.natAbs : ℕ) : ℤ) + 1) := n2
        _ = _ := e
        _ ≤ _ := mul_le_mul_of_nonneg_left d1 hpos.le
    exact lt_of_mul_lt_mul_right h1 hdpos.le
  have lower : (2 : ℚ) ^
      (((floorLog2 q.num.natAbs : ℕ) : ℤ) - ((floorLog2 q.den : ℕ) : ℤ) - 1) < q := by
    have hpos : (0 : ℚ) < (2 : ℚ) ^
        (((floorLog2 q.num.natAbs : ℕ) : ℤ) - ((floorLog2 q.den : ℕ) : ℤ) - 1) := by positivity
    have e : (2 : ℚ) ^ ((floorLog2 q.num.natAbs : ℕ) : ℤ) =
        (2 : ℚ) ^ (((floorLog2 q.num.natAbs : ℕ) : ℤ) - ((floorLog2 q.den : ℕ) : ℤ) - 1) *
          (2 : ℚ) ^ (((floorLog2 q.den : ℕ) : ℤ) + 1) := by
      rw [← zpow_add₀ two]
      congr 1
      ring
    have h1 : (2 : ℚ) ^ (((floorLog2 q.num.natAbs : ℕ) : ℤ) - ((floorLog2 q.den : ℕ) : ℤ) - 1) *
        (q.den : ℚ) < q * (q.den : ℚ) := by
      rw [hq']
      calc _ < (2 : ℚ) ^ (((floorLog2 q.num.natAbs : ℕ) : ℤ) - ((floorLog2 q.den : ℕ) : ℤ) - 1) *
            (2 : ℚ) ^ (((floorLog2 q.den : ℕ) : ℤ) + 1) := mul_lt_mul_of_pos_left d2 hpos
        _ = _ := e.symm
        _ ≤ _ := n1
    exact lt_of_mul_lt_mul_right h1 hdpos.le
  unfold binaryExponent
  simp only
  split_ifs with h
  · exact ⟨h, upper⟩
  · refine ⟨lower.le, ?_⟩
    rw [sub_add_cancel]
    exact not_le.1 h

theorem binaryExponent_mono (x y : ℚ) (hx : 0 < x) (h : x ≤ y) :
    binaryExponent x ≤ binaryExponent y := by
  have hy : 0 < y := lt_of_lt_of_le hx h
  have h1 := (binaryExponent_spec x hx).1
  have h2 := (binaryExponent_spec y hy).2
  have h3 : (2 : ℚ) ^ binaryExponent x < (2 : ℚ) ^ (binaryExponent y + 1) :=
    lt_of_le_of_lt h1 (lt_of_le_of_lt h h2)
  have := (zpow_lt_zpow_iff_right₀ (by norm_num : (1 : ℚ) < 2)).1 h3
  omega

theorem roundPositive_bounds (q : ℚ) (hq : 0 < q) :
    (2 : ℚ) ^ (binaryExponent q) ≤ roundPositive q ∧
      roundPositive q ≤ (2 : ℚ) ^ (binaryExponent q + 1) := by
  have hlo : (2 : ℚ) ^ (binaryExponent q) ≤ q := (binaryExponent_spec q hq).1
  have hhi : q < (2 : ℚ) ^ (binaryExponent q + 1) := (binaryExponent_spec q hq).2
  have hu : (0 : ℚ) < 2 ^ (binaryExponent q - 52) := by positivity
  have c1 : (((2 : ℤ) ^ (52 : ℕ) : ℤ) : ℚ) = (2 : ℚ) ^ (52 : ℕ) := by norm_num
  have c2 : (((2 : ℤ) ^ (53 : ℕ) : ℤ) : ℚ) = (2 : ℚ) ^ (53 : ℕ) := by norm_num
  have e1 : (2 : ℚ) ^ (binaryExponent q) = 2 ^ (52 : ℕ) * 2 ^ (binaryExponent q - 52) := by
    rw [← zpow_natCast, ← zpow_add₀ (by norm_num)]
    congr 1
    omega
  have e2 : (2 : ℚ) ^ (binaryExponent q + 1) = 2 ^ (53 : ℕ) * 2 ^ (binaryExponent q - 52) := by
    rw [← zpow_natCast, ← zpow_add₀ (by norm_num)]
    congr 1
    omega
  have b1 : (((2 : ℤ) ^ (52 : ℕ) : ℤ) : ℚ) ≤ q / 2 ^ (binaryExponent q - 52) := by
    rw [le_div_iff₀ hu, c1, ← e1]
    exact hlo
  have b2 : q / 2 ^ (binaryExponent q - 52) ≤ (((2 : ℤ) ^ (53 : ℕ) : ℤ) : ℚ) := by
    rw [div_le_iff₀ hu, c2, ← e2]
    exact hhi.le
  have r1 := roundHalfEven_mono _ _ b1
  have r2 := roundHalfEven_mono _ _ b2
  rw [roundHalfEven_intCast] at r1 r2
  have r1q : (2 : ℚ) ^ (52 : ℕ) ≤ (roundHalfEven (q / 2 ^ (binaryExponent q - 52)) : ℚ) := by
    rw [← c1]
    exact_mod_cast r1
  have r2q : (roundHalfEven (q / 2 ^ (binaryExponent q - 52)) : ℚ) ≤ (2 : ℚ) ^ (53 : ℕ) := by
    rw [← c2]
    exact_mod_cast r2
  unfold roundPositive
  simp only
  rw [e1, e2]
  exact ⟨mul_le_mul_of_nonneg_right r1q hu.le, mul_le_mul_of_nonneg_right r2q hu.le⟩

theorem roundPositive_pos (q : ℚ) (hq : 0 < q) : 0 < roundPositive q :=
  lt_of_lt_of_le (by positivity) (roundPositive_bounds q hq).1

theorem roundPositive_mono (x y : ℚ) (hx : 0 < x) (h : x ≤ y) :
    roundPositive x ≤ roundPositive y := by
  have hy : 0 < y := lt_of_lt_of_le hx h
  have he : binaryExponent x ≤ binaryExponent y := binaryExponent_mono x y hx h
  rcases lt_or_eq_of_le he with hlt | heq
  · refine le_trans (roundPositive_bounds x hx).2 (le_trans ?_ (roundPositive_bounds y hy).1)
    exact zpow_le_zpow_right₀ (by norm_num) (by omega)
  · unfold roundPositive
    simp only
    rw [← heq]
    have hu : (0 : ℚ) < 2 ^ (binaryExponent x - 52) := by positivity
    apply mul_le_mul_of_nonneg_right _ hu.le
    have := roundHalfEven_mono (x / 2 ^ (binaryExponent x - 52)) (y / 2 ^ (binaryExponent x - 52))
      (div_le_div_of_nonneg_right h hu.le)
    exact_mod_cast this

theorem roundPositive_error (q : ℚ) (hq : 0 < q) : |roundPositive q - q| ≤ q / 2 ^ (53 : ℕ) := by
  have hlo : (2 : ℚ) ^ (binaryExponent q) ≤ q := (binaryExponent_spec q hq).1
  have hu : (0 : ℚ) < 2 ^ (binaryExponent q - 52) := by positivity
  have e1 : (2 : ℚ) ^ (binaryExponent q) = 2 ^ (52 : ℕ) * 2 ^ (binaryExponent q - 52) := by
    rw [← zpow_natCast, ← zpow_add₀ (by norm_num)]
    congr 1
    omega
  have herr := roundHalfEven_error (q / 2 ^ (binaryExponent q - 52))
  have hq' : q = q / 2 ^ (binaryExponent q - 52) * 2 ^ (binaryExponent q - 52) := by
    field_simp
  have hdiff : roundPositive q - q =
      ((roundHalfEven (q / 2 ^ (binaryExponent q - 52)) : ℚ) - q / 2 ^ (binaryExponent q - 52)) *
        2 ^ (binaryExponent q - 52) := by
    unfold roundPositive
    simp only
    rw [sub_mul, ← hq']
  rw [hdiff, abs_mul, abs_of_pos hu]
  have hle : (2 : ℚ) ^ (binaryExponent q - 52) ≤ q / 2 ^ (52 : ℕ) := by
    rw [le_div_iff₀ (by positivity), mul_comm, ← e1]
    exact hlo
  calc |(roundHalfEven (q / 2 ^ (binaryExponent q - 52)) : ℚ) - q / 2 ^ (binaryExponent q - 52)| *
        2 ^ (binaryExponent q - 52)
      ≤ 1 / 2 * (q / 2 ^ (52 : ℕ)) := mul_le_mul herr hle hu.le (by norm_num)
    _ = q / 2 ^ (53 : ℕ) := by ring

theorem roundDouble_zero : roundDouble 0 = 0 := by
  simp [roundDouble]

theorem roundDouble_pos (x : ℚ) (h : 0 < x) : roundDouble x = roundPositive x := by
  simp [roundDouble, h]

theorem roundDouble_neg (x : ℚ) (h : x < 0) : roundDouble x = -roundPositive (-x) := by
  simp [roundDouble, h, not_lt.mpr h.le]

/-- Rounding to the nearest double never reverses an order. -/
theorem roundDouble_mono (x y : ℚ) (h : x ≤ y) : roundDouble x ≤ roundDouble y := by
  rcases lt_trichotomy x 0 with hx | hx | hx <;> rcases lt_trichotomy y 0 with hy | hy | hy
  · rw [roundDouble_neg x hx, roundDouble_neg y hy]
    have := roundPositive_mono (-y) (-x) (by linarith) (by linarith)
    linarith
  · rw [roundDouble_neg x hx, hy, roundDouble_zero]
    have := roundPositive_pos (-x) (by linarith)
    linarith
  · rw [roundDouble_neg x hx, roundDouble_pos y hy]
    have := roundPositive_pos (-x) (by linarith)
    have := roundPositive_pos y hy
    linarith
  · linarith
  · rw [hx, hy]
  · rw [hx, roundDouble_zero, roundDouble_pos y hy]
    exact (roundPositive_pos y hy).le
  · linarith
  · linarith
  · rw [roundDouble_pos x hx, roundDouble_pos y hy]
    exact roundPositive_mono x y hx h

/-- The relative error of one rounding is at most `2 ^ -53`. -/
theorem roundDouble_error (x : ℚ) : |roundDouble x - x| ≤ |x| / 2 ^ (53 : ℕ) := by
  rcases lt_trichotomy x 0 with hx | hx | hx
  · rw [roundDouble_neg x hx, abs_of_neg hx]
    have := roundPositive_error (-x) (by linarith)
    rw [abs_le] at this ⊢
    constructor <;> linarith [this.1, this.2]
  · rw [hx, roundDouble_zero]
    simp
  · rw [roundDouble_pos x hx, abs_of_pos hx]
    exact roundPositive_error x hx

/-- The distance computed in `double` arithmetic and the exact distance differ by the rounding of
one subtraction. -/
theorem abs_roundDouble_bounds (x : ℚ) :
    (1 - 1 / 2 ^ (53 : ℕ)) * |x| ≤ |roundDouble x| ∧
      |roundDouble x| ≤ (1 + 1 / 2 ^ (53 : ℕ)) * |x| := by
  have h := roundDouble_error x
  have h1 : |x| - |roundDouble x| ≤ |roundDouble x - x| := by
    rw [abs_sub_comm (roundDouble x) x]
    exact abs_sub_abs_le_abs_sub x (roundDouble x)
  have h2 : |roundDouble x| - |x| ≤ |roundDouble x - x| := abs_sub_abs_le_abs_sub _ _
  constructor <;> linarith

theorem roundDouble_nonneg (x : ℚ) (h : 0 ≤ x) : 0 ≤ roundDouble x := by
  have := roundDouble_mono 0 x h
  rwa [roundDouble_zero] at this

theorem roundDouble_nonpos (x : ℚ) (h : x ≤ 0) : roundDouble x ≤ 0 := by
  have := roundDouble_mono x 0 h
  rwa [roundDouble_zero] at this

/-- Among the values on the far side of `a` from the target, `a` has the least computed
distance. -/
theorem computedDistance_above (t a b : ℚ) (h1 : t ≤ a) (h2 : a ≤ b) :
    |roundDouble (t - a)| ≤ |roundDouble (t - b)| := by
  rw [abs_of_nonpos (roundDouble_nonpos _ (by linarith)),
    abs_of_nonpos (roundDouble_nonpos _ (by linarith))]
  have := roundDouble_mono (t - b) (t - a) (by linarith)
  linarith

theorem computedDistance_below (t a b : ℚ) (h1 : a ≤ b) (h2 : b ≤ t) :
    |roundDouble (t - b)| ≤ |roundDouble (t - a)| := by
  rw [abs_of_nonneg (roundDouble_nonneg _ (by linarith)),
    abs_of_nonneg (roundDouble_nonneg _ (by linarith))]
  exact roundDouble_mono (t - b) (t - a) (by linarith)

/-! ## Lemmas on the conflict resolver -/

theorem mem_pairsOf (coloring : UMap (List Nat)) (c t : Nat) :
    (c, t) ∈ pairsOf coloring ↔ Claims coloring c t := by
  simp only [pairsOf, List.mem_flatMap, List.mem_map, Claims]
  constructor
  · rintro ⟨⟨c0, ts⟩, hmem, t0, ht0, heq⟩
    simp only [Prod.mk.injEq] at heq
    obtain ⟨rfl, rfl⟩ := heq
    exact ⟨ts, hmem, ht0⟩
  · rintro ⟨ts, hmem, ht⟩
    exact ⟨(c, ts), hmem, t, ht, rfl⟩

theorem postprocessColor_eq (g : Geometry) (lk : UMap (List ℚ)) (c : Nat) (ts : List Nat)
    (m : UMap Nat) :
    postprocessColor g lk m (c, ts) =
      (ts.map (fun tri => (c, tri))).foldlM (resolveStep g lk) m := by
  unfold postprocessColor
  induction ts generalizing m with
  | nil => rfl
  | cons t rest ih =>
    simp only [List.foldlM_cons, List.map_cons, resolveStep]
    cases postprocessTriangle g lk c m t with
    | none => rfl
    | some m' => exact ih m'

theorem foldlM_resolve_eq (g : Geometry) (lk : UMap (List ℚ)) (coloring : UMap (List Nat))
    (m : UMap Nat) :
    coloring.foldlM (postprocessColor g lk) m = (pairsOf coloring).foldlM (resolveStep g lk) m := by
  induction coloring generalizing m with
  | nil => rfl
  | cons oc rest ih =>
    obtain ⟨c, ts⟩ := oc
    simp only [List.foldlM_cons, pairsOf, List.flatMap_cons, List.foldlM_append]
    rw [postprocessColor_eq]
    cases (ts.map (fun tri => (c, tri))).foldlM (resolveStep g lk) m with
    | none => rfl
    | some m' => exact ih m'

theorem resolveConflicts_eq (g : Geometry) (lk : UMap (List ℚ)) (coloring : UMap (List Nat)) :
    resolveConflicts g lk coloring = (pairsOf coloring).foldlM (resolveStep g lk) [] :=
  foldlM_resolve_eq g lk coloring []

theorem findClosestSDFValue_isSome (target : ℚ) (values : List ℚ) (h : values ≠ []) :
    ∃ close, findClosestSDFValue target values = some close := by
  cases values with
  | nil => exact absurd rfl h
  | cons front rest =>
    simp only [findClosestSDFValue]
    split_ifs <;> exact ⟨_, rfl⟩

theorem findClosestColorFromSDF_of_samples (g : Geometry) (lk : UMap (List ℚ))
    (tri color1 color2 : Nat) (h1 : HasSamples lk color1) (h2 : HasSamples lk color2) :
    findClosestColorFromSDF g tri color1 color2 lk =
      some (if sampleDistance g lk color1 tri < sampleDistance g lk color2 tri
        then color1 else color2) := by
  obtain ⟨v1, hf1, hv1⟩ := h1
  obtain ⟨v2, hf2, hv2⟩ := h2
  obtain ⟨x1, hx1⟩ := findClosestSDFValue_isSome (g.getSdfValue tri) v1 hv1
  obtain ⟨x2, hx2⟩ := findClosestSDFValue_isSome (g.getSdfValue tri) v2 hv2
  simp only [findClosestColorFromSDF, sampleDistance, hf1, hf2, hx1, hx2]
  split_ifs <;> rfl

theorem resolveInv_nil (g : Geometry) (lk : UMap (List ℚ)) : ResolveInv g lk [] [] where
  nodup := by simp
  owner_claims := by intro t c h; simp [UMap.find] at h
  claimed_owned := by intro c t h; simp at h
  owner_closest := by intro t c h; simp [UMap.find] at h
  owner_last := by intro t c h; simp [UMap.find] at h

/-- The two ways in which a visit can lie in a sequence of visits that ends with `x`: it is the
last visit, or it lies in the sequence before `x`. -/
theorem append_singleton_split {α : Type} (ps pre post : List α) (x y : α)
    (h : ps ++ [x] = pre ++ y :: post) :
    (post = [] ∧ y = x ∧ pre = ps) ∨ ∃ post', post = post' ++ [x] ∧ ps = pre ++ y :: post' := by
  rcases List.eq_nil_or_concat post with hp | ⟨post', z, hp⟩
  · subst hp
    have h' := List.append_inj' h rfl
    exact Or.inl ⟨rfl, (List.singleton_inj.1 h'.2).symm, h'.1.symm⟩
  · right
    rw [List.concat_eq_append] at hp
    subst hp
    have h2 : ps ++ [x] = (pre ++ y :: post') ++ [z] := by
      rw [h]; simp
    have h' := List.append_inj' h2 rfl
    have hz : x = z := List.singleton_inj.1 h'.2
    subst hz
    exact ⟨post', rfl, h'.1⟩

theorem resolveStep_inv (g : Geometry) (lk : UMap (List ℚ)) (ps : List (Nat × Nat))
    (m : UMap Nat) (c t : Nat) (inv : ResolveInv g lk ps m)
    (hps : ∀ p ∈ ps, HasSamples lk p.1) (hc : HasSamples lk c) :
    ∃ m', resolveStep g lk m (c, t) = some m' ∧ ResolveInv g lk (ps ++ [(c, t)]) m' := by
  cases hf : UMap.find m t with
  | none =>
    refine ⟨UMap.insert m t c, by simp [resolveStep, postprocessTriangle, hf], ?_⟩
    have hfind : ∀ t', UMap.find (UMap.insert m t c) t' =
        if t = t' then some c else UMap.find m t' :=
      fun t' => UMap.find_insert_of_none m t t' c hf
    refine ⟨UMap.keys_insert_nodup m t c inv.nodup, ?_, ?_, ?_, ?_⟩
    · intro t' c0 h
      rw [hfind] at h
      by_cases htt : t = t'
      · rw [if_pos htt] at h
        injection h with h
        subst h; subst htt
        simp
      · rw [if_neg htt] at h
        exact List.mem_append_left _ (inv.owner_claims t' c0 h)
    · intro c0 t0 h
      rw [hfind]
      by_cases htt : t = t0
      · exact ⟨c, by rw [if_pos htt]⟩
      · rw [if_neg htt]
        rcases List.mem_append.1 h with h | h
        · exact inv.claimed_owned c0 t0 h
        · simp at h
          exact absurd h.2.symm htt
    · intro t' c0 h c' hc'
      rw [hfind] at h
      by_cases htt : t = t'
      · rw [if_pos htt] at h
        injection h with h
        subst h; subst htt
        rcases List.mem_append.1 hc' with h' | h'
        · obtain ⟨c1, hc1⟩ := inv.claimed_owned c' t h'
          rw [hf] at hc1
          exact absurd hc1 (by simp)
        · simp at h'
          rw [h']
      · rw [if_neg htt] at h
        rcases List.mem_append.1 hc' with h' | h'
        · exact inv.owner_closest t' c0 h c' h'
        · simp at h'
          exact absurd h'.2.symm htt
    · intro t' c0 h pre post c' hsplit hd
      rw [hfind] at h
      rcases append_singleton_split ps pre post (c, t) (c', t') hsplit with
        ⟨hp, hy, -⟩ | ⟨post', hp, hps'⟩
      · injection hy with hy1 hy2
        subst hy1; subst hy2; subst hp
        rw [if_pos rfl] at h
        injection h with h
        subst h
        simp
      · subst hp
        by_cases htt : t = t'
        · rw [if_pos htt] at h
          injection h with h
          subst h; subst htt
          simp
        · rw [if_neg htt] at h
          have := inv.owner_last t' c0 h pre post' c' hps' hd
          rcases List.mem_cons.1 this with e | e
          · rw [e]; simp
          · exact List.mem_cons_of_mem _ (List.mem_append_left _ e)
  | some old =>
    have hold : HasSamples lk old := hps (old, t) (inv.owner_claims t old hf)
    have hwin := findClosestColorFromSDF_of_samples g lk t old c hold hc
    refine ⟨UMap.modify m t (fun _ => if sampleDistance g lk old t < sampleDistance g lk c t
        then old else c), by simp [resolveStep, postprocessTriangle, hf, hwin], ?_⟩
    refine ⟨by rw [UMap.keys_modify]; exact inv.nodup, ?_, ?_, ?_, ?_⟩
    · intro t' c0 h
      rw [UMap.find_modify] at h
      by_cases htt : t' = t
      · subst htt
        rw [if_pos rfl, hf] at h
        simp only [Option.map_some', Option.some.injEq] at h
        subst h
        split_ifs
        · exact List.mem_append_left _ (inv.owner_claims t' old hf)
        · simp
      · rw [if_neg htt] at h
        exact List.mem_append_left _ (inv.owner_claims t' c0 h)
    · intro c0 t0 h
      rw [UMap.find_modify]
      by_cases htt : t0 = t
      · subst htt
        rw [if_pos rfl, hf]
        exact ⟨_, rfl⟩
      · rw [if_neg htt]
        rcases List.mem_append.1 h with h | h
        · exact inv.claimed_owned c0 t0 h
        · simp at h
          exact absurd h.2 htt
    · intro t' c0 h c' hc'
      rw [UMap.find_modify] at h
      by_cases htt : t' = t
      · subst htt
        rw [if_pos rfl, hf] at h
        simp only [Option.map_some', Option.some.injEq] at h
        subst h
        have hc'' : (c', t') ∈ ps ∨ c' = c := by
          rcases List.mem_append.1 hc' with h' | h'
          · exact Or.inl h'
          · simp at h'
            exact Or.inr h'
        rcases hc'' with h' | h'
        · have hle := inv.owner_closest t' old hf c' h'
          split_ifs with hlt
          · exact hle
          · exact le_trans (not_lt.1 hlt) hle
        · subst h'
          split_ifs with hlt
          · exact le_of_lt hlt
          · exact le_refl _
      · rw [if_neg htt] at h
        rcases List.mem_append.1 hc' with h' | h'
        · exact inv.owner_closest t' c0 h c' h'
        · simp at h'
          exact absurd h'.2 htt
    · intro t' c0 h pre post c' hsplit hd
      rw [UMap.find_modify] at h
      have keep : ∀ owner post', UMap.find m t' = some owner →
          sampleDistance g lk c' t' = sampleDistance g lk owner t' →
          ps = pre ++ (c', t') :: post' →
          (owner, t') ∈ (c', t') :: (post' ++ [(c, t)]) := by
        intro owner post' hown hd' hps'
        have := inv.owner_last t' owner hown pre post' c' hps' hd'
        rcases List.mem_cons.1 this with e | e
        · rw [e]; simp
        · exact List.mem_cons_of_mem _ (List.mem_append_left _ e)
      by_cases htt : t' = t
      · subst htt
        rw [if_pos rfl, hf] at h
        simp only [Option.map_some', Option.some.injEq] at h
        subst h
        rcases append_singleton_split ps pre post (c, t') (c', t') hsplit with
          ⟨hp, hy, -⟩ | ⟨post', hp, hps'⟩
        · injection hy with hy1 hy2
          subst hy1; subst hp
          split_ifs with hlt
          · rw [if_pos hlt] at hd
            exact absurd hd (ne_of_gt hlt)
          · simp
        · subst hp
          split_ifs with hlt
          · rw [if_pos hlt] at hd
            exact keep old post' hf hd hps'
          · simp
      · rw [if_neg htt] at h
        rcases append_singleton_split ps pre post (c, t) (c', t') hsplit with
          ⟨hp, hy, -⟩ | ⟨post', hp, hps'⟩
        · injection hy with hy1 hy2
          exact absurd hy2 htt
        · subst hp
          exact keep c0 post' h hd hps'

theorem resolve_inv (g : Geometry) (lk : UMap (List ℚ)) (ps : List (Nat × Nat))
    (hps : ∀ p ∈ ps, HasSamples lk p.1) :
    ∃ m, ps.foldlM (resolveStep g lk) [] = some m ∧ ResolveInv g lk ps m := by
  induction ps using List.reverseRecOn with
  | nil => exact ⟨[], rfl, resolveInv_nil g lk⟩
  | append_singleton l p ih =>
    obtain ⟨c, t⟩ := p
    obtain ⟨m, hm, inv⟩ := ih (fun q hq => hps q (List.mem_append_left _ hq))
    obtain ⟨m', hm', inv'⟩ := resolveStep_inv g lk l m c t inv
      (fun q hq => hps q (List.mem_append_left _ hq)) (hps (c, t) (by simp))
    refine ⟨m', ?_, inv'⟩
    rw [List.foldlM_append, hm]
    simpa using hm'

/-! ## Lemmas on `collectTrianglesByColor` -/

theorem find_tabulated {V : Type} (l : List Nat) (f : Nat → V) (c : Nat) :
    UMap.find (l.map (fun i => (i, f i))) c = if c ∈ l then some (f c) else none := by
  induction l with
  | nil => simp [UMap.find]
  | cons i rest ih =>
    rw [List.map_cons, UMap.find_cons, ih]
    by_cases h : i = c
    · subst h; simp
    · have h' : ¬ c = i := fun e => h e.symm
      simp [h, h']

theorem modify_tabulated {V : Type} (l : List Nat) (f : Nat → V) (c : Nat) (h : V → V) :
    UMap.modify (l.map (fun i => (i, f i))) c h =
      l.map (fun i => (i, if i = c then h (f i) else f i)) := by
  simp only [UMap.modify, List.map_map]
  apply List.map_congr_left
  intro i _
  by_cases hi : i = c <;> simp [hi]

theorem ownedBy_nil (c : Nat) : ownedBy [] c = [] := rfl

theorem ownedBy_cons (p : Nat × Nat) (rest : UMap Nat) (c : Nat) :
    ownedBy (p :: rest) c = if p.2 = c then p.1 :: ownedBy rest c else ownedBy rest c := by
  by_cases h : p.2 = c <;> simp [ownedBy, List.filter_cons, h]

theorem mem_ownedBy (m : UMap Nat) (c t : Nat) : t ∈ ownedBy m c ↔ (t, c) ∈ m := by
  simp only [ownedBy, List.mem_map, List.mem_filter, decide_eq_true_eq]
  constructor
  · rintro ⟨⟨t0, c0⟩, ⟨hmem, hc⟩, ht⟩
    simp only at hc ht
    subst hc; subst ht
    exact hmem
  · intro h
    exact ⟨(t, c), ⟨h, rfl⟩, rfl⟩

theorem ownedBy_nodup (m : UMap Nat) (c : Nat) (h : (m.map Prod.fst).Nodup) :
    (ownedBy m c).Nodup :=
  List.Nodup.sublist (List.Sublist.map Prod.fst (List.filter_sublist m)) h

theorem collect_foldlM (n : Nat) (source : UMap Nat) (f : Nat → List Nat)
    (h : ∀ p ∈ source, p.2 < n) :
    source.foldlM collectStep ((List.range n).map (fun i => (i, f i))) =
      some ((List.range n).map (fun i => (i, f i ++ ownedBy source i))) := by
  induction source generalizing f with
  | nil => simp [ownedBy_nil]
  | cons p rest ih =>
    obtain ⟨t, c⟩ := p
    have hc : c < n := h (t, c) (by simp)
    have hstep : collectStep ((List.range n).map (fun i => (i, f i))) (t, c) =
        some ((List.range n).map (fun i => (i, if i = c then f i ++ [t] else f i))) := by
      simp only [collectStep, find_tabulated, List.mem_range, hc, if_true, modify_tabulated]
    rw [List.foldlM_cons, hstep]
    simp only [Option.bind_eq_bind, Option.some_bind]
    rw [ih _ (fun q hq => h q (List.mem_cons_of_mem _ hq))]
    congr 1
    apply List.map_congr_left
    intro i _
    rw [ownedBy_cons]
    by_cases hi : c = i
    · subst hi; simp
    · have hi' : ¬ i = c := fun e => hi e.symm
      simp [hi, hi']

theorem collectTrianglesByColor_eq (g : Geometry) (source : UMap Nat)
    (h : ∀ p ∈ source, p.2 < g.paletteSize) :
    collectTrianglesByColor g source =
      some ((List.range g.paletteSize).map (fun i => (i, ownedBy source i))) := by
  have := collect_foldlM g.paletteSize source (fun _ => []) h
  simpa [collectTrianglesByColor] using this

theorem mem_tabulated (n : Nat) (f : Nat → List Nat) (c : Nat) (ts : List Nat) :
    (c, ts) ∈ (List.range n).map (fun i => (i, f i)) ↔ c < n ∧ ts = f c := by
  simp only [List.mem_map, List.mem_range, Prod.mk.injEq]
  constructor
  · rintro ⟨i, hi, rfl, rfl⟩
    exact ⟨hi, rfl⟩
  · rintro ⟨hc, rfl⟩
    exact ⟨c, hc, rfl, rfl⟩

/-- What `postprocess` returns when every claiming colour is a palette id with samples: the
triangles of the scratch map, collected per palette colour. -/
theorem postprocess_spec (g : Geometry) (lk : UMap (List ℚ)) (raw : UMap (List Nat))
    (h : ∀ c t, Claims raw c t → c < g.paletteSize ∧ HasSamples lk c) :
    ∃ m, ResolveInv g lk (pairsOf raw) m ∧
      postprocess g lk raw =
        some ((List.range g.paletteSize).map (fun i => (i, ownedBy m i))) := by
  obtain ⟨m, hm, inv⟩ := resolve_inv g lk (pairsOf raw)
    (fun p hp => (h p.1 p.2 ((mem_pairsOf raw p.1 p.2).1 hp)).2)
  refine ⟨m, inv, ?_⟩
  have hcol : ∀ p ∈ m, p.2 < g.paletteSize := by
    intro p hp
    have hf : UMap.find m p.1 = some p.2 := UMap.mem_find_of_nodup m p.1 p.2 inv.nodup hp
    exact (h p.2 p.1 ((mem_pairsOf raw p.2 p.1).1 (inv.owner_claims p.1 p.2 hf))).1
  simp only [postprocess, resolveConflicts_eq, hm]
  exact collectTrianglesByColor_eq g m hcol

theorem postprocess_owner (g : Geometry) (lk : UMap (List ℚ)) (raw : UMap (List Nat))
    (h : ∀ c t, Claims raw c t → c < g.paletteSize ∧ HasSamples lk c) :
    ∃ m final, ResolveInv g lk (pairsOf raw) m ∧ postprocess g lk raw = some final ∧
      final.map Prod.fst = List.range g.paletteSize ∧
      (∀ c ts, (c, ts) ∈ final → ts.Nodup) ∧
      (∀ c t, Claims final c t ↔ UMap.find m t = some c) := by
  obtain ⟨m, inv, hpost⟩ := postprocess_spec g lk raw h
  refine ⟨m, _, inv, hpost, ?_, ?_, ?_⟩
  · rw [List.map_map]
    exact List.map_id _
  · intro c ts hmem
    rw [mem_tabulated] at hmem
    rw [hmem.2]
    exact ownedBy_nodup m c inv.nodup
  · intro c t
    constructor
    · rintro ⟨ts, hmem, ht⟩
      rw [mem_tabulated] at hmem
      rw [hmem.2, mem_ownedBy] at ht
      exact UMap.mem_find_of_nodup m t c inv.nodup ht
    · intro hf
      have hc : c < g.paletteSize :=
        (h c t ((mem_pairsOf raw c t).1 (inv.owner_claims t c hf))).1
      refine ⟨ownedBy m c, (mem_tabulated _ _ c _).2 ⟨hc, rfl⟩, ?_⟩
      rw [mem_ownedBy]
      exact UMap.find_some_mem m t c hf

theorem scenario_hyp :
    ∀ c t, Claims scenarioClaims c t →
      c < scenarioGeometry.paletteSize ∧ HasSamples scenarioSamples c := by
  rintro c t ⟨ts, hmem, _⟩
  simp only [scenarioClaims, List.mem_cons, Prod.mk.injEq, List.mem_singleton,
    List.not_mem_nil, or_false] at hmem
  rcases hmem with ⟨rfl, _⟩ | ⟨rfl, _⟩
  · exact ⟨by decide, [1 / 10], rfl, by simp⟩
  · exact ⟨by decide, [9 / 10], rfl, by simp⟩

/-! ## The conflict resolver partitions the raw claims -/

/-- C1: when every colour that claims a triangle is a palette id and has samples in the lookup,
`postprocess` returns a colouring with one entry per key in which every triangle of a raw claim
is in the list of exactly one colour, no triangle is in the lists of two colours, every triangle
of a final list comes from a raw claim, and no list repeats a triangle. -/
theorem postprocess_partition (g : Geometry) (lk : UMap (List ℚ)) (raw : UMap (List Nat))
    (h : ∀ c t, Claims raw c t → c < g.paletteSize ∧ HasSamples lk c) :
    ∃ final, postprocess g lk raw = some final ∧
      (final.map Prod.fst).Nodup ∧
      (∀ t, (∃ c, Claims raw c t) → ∃! c, Claims final c t) ∧
      (∀ c1 c2 t, Claims final c1 t → Claims final c2 t → c1 = c2) ∧
      (∀ c t, Claims final c t → ∃ c', Claims raw c' t) ∧
      (∀ c ts, (c, ts) ∈ final → ts.Nodup) := by
  obtain ⟨m, final, inv, hpost, hkeys, hnd, hown⟩ := postprocess_owner g lk raw h
  refine ⟨final, hpost, ?_, ?_, ?_, ?_, hnd⟩
  · rw [hkeys]
    exact List.nodup_range _
  · rintro t ⟨c, hc⟩
    obtain ⟨c', hc'⟩ := inv.claimed_owned c t ((mem_pairsOf raw c t).2 hc)
    refine ⟨c', (hown c' t).2 hc', ?_⟩
    intro c2 hc2
    have := (hown c2 t).1 hc2
    rw [hc'] at this
    injection this with this
    exact this.symm
  · intro c1 c2 t h1 h2
    have e1 := (hown c1 t).1 h1
    have e2 := (hown c2 t).1 h2
    rw [e1] at e2
    injection e2
  · intro c t hc
    exact ⟨c, (mem_pairsOf raw c t).1 (inv.owner_claims t c ((hown c t).1 hc))⟩

/-- The partition theorem applies to the conflict scenario. -/
theorem postprocess_partition_witness :
    (∀ c t, Claims scenarioClaims c t →
      c < scenarioGeometry.paletteSize ∧ HasSamples scenarioSamples c) ∧
    ∃ final, postprocess scenarioGeometry scenarioSamples scenarioClaims = some final ∧
      (final.map Prod.fst).Nodup ∧
      (∀ t, (∃ c, Claims scenarioClaims c t) → ∃! c, Claims final c t) ∧
      (∀ c1 c2 t, Claims final c1 t → Claims final c2 t → c1 = c2) ∧
      (∀ c t, Claims final c t → ∃ c', Claims scenarioClaims c' t) ∧
      (∀ c ts, (c, ts) ∈ final → ts.Nodup) :=
  ⟨scenario_hyp,
    postprocess_partition scenarioGeometry scenarioSamples scenarioClaims scenario_hyp⟩

/-! ## The nearest sample -/

/-- C2 (evaluation of the code): with the seeds `0 -> 0`, `1 -> 0`, `2 -> 1` the growth loop of
`spreadColors` stores the samples of colour 0 as `[0.875, 0.125]` and the sample of colour 1 as
`0.5`; the triangle 3 has SDF value `0.75`.  The sample `0.875` of
colour 0 is strictly closer to `0.75` than every sample of colour 1, but the binary search of
`findClosestSDFValue` over the unsorted vector picks `0.125`, and `findClosestColorFromSDF`
returns colour 1. -/
theorem findClosestColorFromSDF_unsorted :
    (collectTrianglesByColor unsortedGeometry [(0, 0), (1, 0), (2, 1)]).map
        (fun trianglesByColor => (growColors unsortedGeometry (1 / 2) trianglesByColor).1) =
      some unsortedSamples ∧
    UMap.find unsortedSamples 0 = some [7 / 8, 1 / 8] ∧
    UMap.find unsortedSamples 1 = some [1 / 2] ∧
    (∃ s ∈ [(7 / 8 : ℚ), 1 / 8], ∀ s' ∈ [(1 / 2 : ℚ)],
      |unsortedGeometry.getSdfValue 3 - s| < |unsortedGeometry.getSdfValue 3 - s'|) ∧
    findClosestSDFValue (unsortedGeometry.getSdfValue 3) [7 / 8, 1 / 8] = some (1 / 8) ∧
    findClosestColorFromSDF unsortedGeometry 3 0 1 unsortedSamples = some 1 := by
  refine ⟨by decide!, rfl, rfl, ⟨7 / 8, by simp, ?_⟩, by decide!, by decide!⟩
  intro s' hs'
  simp only [List.mem_singleton] at hs'
  subst hs'
  decide!

/-! ## The conflict scenario of the specification -/

theorem findClosestSDFValue_singleton (target a : ℚ) :
    findClosestSDFValue target [a] = some a := by
  simp only [findClosestSDFValue, lowerBound, lowerBoundLoop, List.length_singleton]
  by_cases h : a < target <;> simp [h, lowerBoundLoop]

theorem sampleDistance_singleton (g : Geometry) (lk : UMap (List ℚ)) (c t : Nat) (a : ℚ)
    (h : UMap.find lk c = some [a]) :
    sampleDistance g lk c t = |roundDouble (g.getSdfValue t - a)| := by
  simp [sampleDistance, h, findClosestSDFValue_singleton]

/-- C3: on a mesh whose contested triangles 1 and 2 have the SDF values 0.2 and 0.8 (the
triangles 0 and 3 of the scenario, with 0.1 and 0.9, are claimed by one colour only, so their
values are not read), with the samples `[0.1]` for colour `A` and `[0.9]` for colour `B` and the
raw claims `A -> [0, 1, 2]`, `B -> [1, 2, 3]` in either iteration order, `postprocess` returns a
colouring with one entry per palette colour in which `A` has exactly the triangles 0 and 1, `B`
exactly 2 and 3, and every other colour none. -/
theorem postprocess_conflict_scenario (g : Geometry) (lk : UMap (List ℚ)) (raw : UMap (List Nat))
    (A B : Nat) (hAB : A ≠ B) (hA : A < g.paletteSize) (hB : B < g.paletteSize)
    (h1 : g.getSdfValue 1 = 2 / 10) (h2 : g.getSdfValue 2 = 8 / 10)
    (hlkA : UMap.find lk A = some [1 / 10]) (hlkB : UMap.find lk B = some [9 / 10])
    (hraw : raw = [(A, [0, 1, 2]), (B, [1, 2, 3])] ∨ raw = [(B, [1, 2, 3]), (A, [0, 1, 2])]) :
    ∃ final, postprocess g lk raw = some final ∧
      final.map Prod.fst = List.range g.paletteSize ∧
      ∀ c t, Claims final c t ↔ (c = A ∧ (t = 0 ∨ t = 1)) ∨ (c = B ∧ (t = 2 ∨ t = 3)) := by
  have hclaims : ∀ c t, Claims raw c t ↔
      (c = A ∧ (t = 0 ∨ t = 1 ∨ t = 2)) ∨ (c = B ∧ (t = 1 ∨ t = 2 ∨ t = 3)) := by
    intro c t
    rcases hraw with rfl | rfl
    · constructor
      · rintro ⟨ts, hmem, ht⟩
        simp only [List.mem_cons, Prod.mk.injEq, List.mem_singleton, List.not_mem_nil,
          or_false] at hmem
        rcases hmem with ⟨rfl, rfl⟩ | ⟨rfl, rfl⟩
        · left; simpa using ht
        · right; simpa using ht
      · rintro (⟨rfl, ht⟩ | ⟨rfl, ht⟩)
        · exact ⟨[0, 1, 2], by simp, by simpa using ht⟩
        · exact ⟨[1, 2, 3], by simp, by simpa using ht⟩
    · constructor
      · rintro ⟨ts, hmem, ht⟩
        simp only [List.mem_cons, Prod.mk.injEq, List.mem_singleton, List.not_mem_nil,
          or_false] at hmem
        rcases hmem with ⟨rfl, rfl⟩ | ⟨rfl, rfl⟩
        · right; simpa using ht
        · left; simpa using ht
      · rintro (⟨rfl, ht⟩ | ⟨rfl, ht⟩)
        · exact ⟨[0, 1, 2], by simp, by simpa using ht⟩
        · exact ⟨[1, 2, 3], by simp, by simpa using ht⟩
  have hsamples : ∀ c t, Claims raw c t → c < g.paletteSize ∧ HasSamples lk c := by
    intro c t hc
    rcases (hclaims c t).1 hc with ⟨rfl, _⟩ | ⟨rfl, _⟩
    · exact ⟨hA, _, hlkA, by simp⟩
    · exact ⟨hB, _, hlkB, by simp⟩
  have dA : ∀ t, sampleDistance g lk A t = |roundDouble (g.getSdfValue t - 1 / 10)| :=
    fun t => sampleDistance_singleton g lk A t _ hlkA
  have dB : ∀ t, sampleDistance g lk B t = |roundDouble (g.getSdfValue t - 9 / 10)| :=
    fun t => sampleDistance_singleton g lk B t _ hlkB
  have hA1 : sampleDistance g lk A 1 < sampleDistance g lk B 1 := by
    rw [dA, dB, h1]; decide!
  have hB2 : sampleDistance g lk B 2 < sampleDistance g lk A 2 := by
    rw [dA, dB, h2]; decide!
  obtain ⟨m, final, inv, hpost, hkeys, -, hown⟩ := postprocess_owner g lk raw hsamples
  refine ⟨final, hpost, hkeys, ?_⟩
  have claimsA : ∀ t, (t = 0 ∨ t = 1 ∨ t = 2) → (A, t) ∈ pairsOf raw :=
    fun t ht => (mem_pairsOf raw A t).2 ((hclaims A t).2 (Or.inl ⟨rfl, ht⟩))
  have claimsB : ∀ t, (t = 1 ∨ t = 2 ∨ t = 3) → (B, t) ∈ pairsOf raw :=
    fun t ht => (mem_pairsOf raw B t).2 ((hclaims B t).2 (Or.inr ⟨rfl, ht⟩))
  have owner : ∀ c t, UMap.find m t = some c →
      (c = A ∧ (t = 0 ∨ t = 1)) ∨ (c = B ∧ (t = 2 ∨ t = 3)) := by
    intro c t hf
    have hcl := (hclaims c t).1 ((mem_pairsOf raw c t).1 (inv.owner_claims t c hf))
    rcases hcl with ⟨rfl, rfl | rfl | rfl⟩ | ⟨rfl, rfl | rfl | rfl⟩
    · exact Or.inl ⟨rfl, Or.inl rfl⟩
    · exact Or.inl ⟨rfl, Or.inr rfl⟩
    · exact absurd (inv.owner_closest 2 c hf B (claimsB 2 (by simp))) (not_le.2 hB2)
    · exact absurd (inv.owner_closest 1 c hf A (claimsA 1 (by simp))) (not_le.2 hA1)
    · exact Or.inr ⟨rfl, Or.inl rfl⟩
    · exact Or.inr ⟨rfl, Or.inr rfl⟩
  intro c t
  rw [hown]
  constructor
  · exact owner c t
  · intro h
    have hclaimed : ∃ c', (c', t) ∈ pairsOf raw := by
      rcases h with ⟨rfl, rfl | rfl⟩ | ⟨rfl, rfl | rfl⟩
      · exact ⟨c, claimsA 0 (by simp)⟩
      · exact ⟨c, claimsA 1 (by simp)⟩
      · exact ⟨c, claimsB 2 (by simp)⟩
      · exact ⟨c, claimsB 3 (by simp)⟩
    obtain ⟨c0, hc0⟩ := hclaimed
    obtain ⟨c', hc'⟩ := inv.claimed_owned c0 t hc0
    have hown' := owner c' t hc'
    rcases h with ⟨rfl, rfl | rfl⟩ | ⟨rfl, rfl | rfl⟩ <;>
      rcases hown' with ⟨rfl, ht⟩ | ⟨rfl, ht⟩ <;>
      first
        | exact hc'
        | (exfalso; omega)

/-- The scenario theorem at the concrete scenario with `A = 0`, `B = 1`, `B` iterated first. -/
theorem postprocess_conflict_scenario_witness :
    ∃ final, postprocess scenarioGeometry scenarioSamples [(1, [1, 2, 3]), (0, [0, 1, 2])] =
        some final ∧
      final.map Prod.fst = List.range scenarioGeometry.paletteSize ∧
      ∀ c t, Claims final c t ↔ (c = 0 ∧ (t = 0 ∨ t = 1)) ∨ (c = 1 ∧ (t = 2 ∨ t = 3)) :=
  postprocess_conflict_scenario scenarioGeometry scenarioSamples _ 0 1 (by decide) (by decide)
    (by decide) rfl rfl rfl rfl (Or.inr rfl)

/-! ## Order of iteration -/

/-- C4 (counterexample): the triangle 0 (SDF 0.5) is claimed by colour 0 and by colour 1.  With
the samples 0.25 and 0.75 the two distances are equal, and with the samples `2 ^ -60` and 1.0
the two distances differ but both subtractions deliver the double 0.5.  In both cases the two
iteration orders of the same claims give different final colourings: the colour that is visited
last gets the triangle. -/
theorem postprocess_order_dependent :
    List.Perm tieClaims tieClaimsSwapped ∧
    sampleDistance tieGeometry tieSamples 0 0 = sampleDistance tieGeometry tieSamples 1 0 ∧
    postprocess tieGeometry tieSamples tieClaims = some [(0, []), (1, [0])] ∧
    postprocess tieGeometry tieSamples tieClaimsSwapped = some [(0, [0]), (1, [])] ∧
    ¬ (∀ final final', postprocess tieGeometry tieSamples tieClaims = some final →
        postprocess tieGeometry tieSamples tieClaimsSwapped = some final' →
        ∀ c t, Claims final c t ↔ Claims final' c t) ∧
    |(1 / 2 : ℚ) - 1 / 2 ^ 60| < |(1 / 2 : ℚ) - 1| ∧
    sampleDistance tieGeometry roundingTieSamples 0 0 = 1 / 2 ∧
    sampleDistance tieGeometry roundingTieSamples 1 0 = 1 / 2 ∧
    postprocess tieGeometry roundingTieSamples tieClaims = some [(0, []), (1, [0])] ∧
    postprocess tieGeometry roundingTieSamples tieClaimsSwapped = some [(0, [0]), (1, [])] := by
  have h1 : postprocess tieGeometry tieSamples tieClaims = some [(0, []), (1, [0])] := by
    decide!
  have h2 : postprocess tieGeometry tieSamples tieClaimsSwapped = some [(0, [0]), (1, [])] := by
    decide!
  refine ⟨List.Perm.swap _ _ _, by decide!, h1, h2, ?_, by decide!, by decide!, by decide!,
    by decide!, by decide!⟩
  intro hall
  have := (hall _ _ h1 h2 1 0).1 ⟨[0], by simp, by simp⟩
  obtain ⟨ts, hmem, ht⟩ := this
  simp only [List.mem_cons, Prod.mk.injEq, List.mem_singleton, List.not_mem_nil,
    or_false] at hmem
  rcases hmem with ⟨h, _⟩ | ⟨_, rfl⟩
  · exact absurd h (by decide)
  · simp at ht

theorem claims_perm (raw raw' : UMap (List Nat)) (hperm : List.Perm raw raw') (c t : Nat) :
    Claims raw c t ↔ Claims raw' c t := by
  constructor
  · rintro ⟨ts, hmem, ht⟩
    exact ⟨ts, hperm.mem_iff.1 hmem, ht⟩
  · rintro ⟨ts, hmem, ht⟩
    exact ⟨ts, hperm.mem_iff.2 hmem, ht⟩

/-- The owner that `postprocess` gives a triangle: a claiming colour of least computed distance,
and the one visited last among the claiming colours of that distance. -/
theorem postprocess_winner (g : Geometry) (lk : UMap (List ℚ)) (raw : UMap (List Nat))
    (h : ∀ c t, Claims raw c t → c < g.paletteSize ∧ HasSamples lk c) :
    ∃ final, postprocess g lk raw = some final ∧
      final.map Prod.fst = List.range g.paletteSize ∧
      (∀ t, (∃ c, Claims raw c t) → ∃ c, Claims final c t) ∧
      ∀ c t, Claims final c t → Claims raw c t ∧
        (∀ c', Claims raw c' t → sampleDistance g lk c t ≤ sampleDistance g lk c' t) ∧
        ∀ pre post c', pairsOf raw = pre ++ (c', t) :: post →
          sampleDistance g lk c' t = sampleDistance g lk c t → (c, t) ∈ (c', t) :: post := by
  obtain ⟨m, final, inv, hpost, hkeys, -, hown⟩ := postprocess_owner g lk raw h
  refine ⟨final, hpost, hkeys, ?_, ?_⟩
  · rintro t ⟨c, hc⟩
    obtain ⟨c', hc'⟩ := inv.claimed_owned c t ((mem_pairsOf raw c t).2 hc)
    exact ⟨c', (hown c' t).2 hc'⟩
  · intro c t hc
    have hf := (hown c t).1 hc
    exact ⟨(mem_pairsOf raw c t).1 (inv.owner_claims t c hf),
      fun c' hc' => inv.owner_closest t c hf c' ((mem_pairsOf raw c' t).2 hc'),
      fun pre post c' hsplit hd => inv.owner_last t c hf pre post c' hsplit hd⟩

/-- C4 (amended): for raw claims whose colours are palette ids with samples, `postprocess` gives
a claimed triangle to a claiming colour of least computed distance (the distance
`|fl (sdf - sample)|` to the sample picked for the colour, in `double` arithmetic) and, among
several claiming colours of that least distance, to the one that the loops visit last.  So a
triangle on which one claiming colour has a strictly smaller computed distance than every other
claiming colour goes to that colour in every iteration order, and when every claimed triangle has
such a colour the final colouring is the same for every iteration order of the colours; this
covers three or more colours claiming one triangle and ties between colours that lose. -/
theorem postprocess_order_independent (g : Geometry) (lk : UMap (List ℚ))
    (raw raw' : UMap (List Nat)) (hperm : List.Perm raw raw')
    (h : ∀ c t, Claims raw c t → c < g.paletteSize ∧ HasSamples lk c) :
    ∃ final final', postprocess g lk raw = some final ∧ postprocess g lk raw' = some final' ∧
      final.map Prod.fst = final'.map Prod.fst ∧
      (∀ c t, Claims final c t → Claims raw c t ∧
        (∀ c', Claims raw c' t → sampleDistance g lk c t ≤ sampleDistance g lk c' t) ∧
        ∀ pre post c', pairsOf raw = pre ++ (c', t) :: post →
          sampleDistance g lk c' t = sampleDistance g lk c t → (c, t) ∈ (c', t) :: post) ∧
      (∀ w t, Claims raw w t →
        (∀ c', Claims raw c' t → c' ≠ w →
          sampleDistance g lk w t < sampleDistance g lk c' t) →
        ∀ c, (Claims final c t ↔ c = w) ∧ (Claims final' c t ↔ c = w)) ∧
      ((∀ t, (∃ c, Claims raw c t) → ∃ w, Claims raw w t ∧ ∀ c', Claims raw c' t → c' ≠ w →
          sampleDistance g lk w t < sampleDistance g lk c' t) →
        ∀ c t, Claims final c t ↔ Claims final' c t) := by
  have h' : ∀ c t, Claims raw' c t → c < g.paletteSize ∧ HasSamples lk c :=
    fun c t hc => h c t ((claims_perm raw raw' hperm c t).2 hc)
  obtain ⟨final, hpost, hkeys, hsome, hwin⟩ := postprocess_winner g lk raw h
  obtain ⟨final', hpost', hkeys', hsome', hwin'⟩ := postprocess_winner g lk raw' h'
  have strict : ∀ w t, Claims raw w t →
      (∀ c', Claims raw c' t → c' ≠ w →
        sampleDistance g lk w t < sampleDistance g lk c' t) →
      ∀ c, (Claims final c t ↔ c = w) ∧ (Claims final' c t ↔ c = w) := by
    intro w t hw hlt
    have only : ∀ c, Claims raw c t →
        (∀ c', Claims raw c' t → sampleDistance g lk c t ≤ sampleDistance g lk c' t) →
        c = w := by
      intro c hc hle
      by_contra hcw
      exact absurd (hle w hw) (not_le.2 (hlt c hc hcw))
    have e1 : ∀ c, Claims final c t → c = w := fun c hc =>
      only c (hwin c t hc).1 (hwin c t hc).2.1
    have e2 : ∀ c, Claims final' c t → c = w := fun c hc =>
      only c ((claims_perm raw raw' hperm c t).2 (hwin' c t hc).1)
        (fun c' hc' => (hwin' c t hc).2.1 c' ((claims_perm raw raw' hperm c' t).1 hc'))
    obtain ⟨c1, hc1⟩ := hsome t ⟨w, hw⟩
    obtain ⟨c2, hc2⟩ := hsome' t ⟨w, (claims_perm raw raw' hperm w t).1 hw⟩
    intro c
    refine ⟨⟨e1 c, ?_⟩, ⟨e2 c, ?_⟩⟩
    · rintro rfl
      rw [← e1 c1 hc1]
      exact hc1
    · rintro rfl
      rw [← e2 c2 hc2]
      exact hc2
  refine ⟨final, final', hpost, hpost', by rw [hkeys, hkeys'], hwin, strict, ?_⟩
  intro hall c t
  constructor
  · intro hc
    obtain ⟨w, hw, hlt⟩ := hall t ⟨c, (hwin c t hc).1⟩
    have := strict w t hw hlt c
    exact this.2.2 (this.1.1 hc)
  · intro hc
    obtain ⟨w, hw, hlt⟩ := hall t ⟨c, (claims_perm raw raw' hperm c t).2 (hwin' c t hc).1⟩
    have := strict w t hw hlt c
    exact this.1.2 (this.2.1 hc)

theorem loserTieClaims_cases (c t : Nat) (h : Claims loserTieClaims c t) :
    (c = 0 ∨ c = 1 ∨ c = 2) ∧ t = 0 := by
  obtain ⟨ts, hmem, ht⟩ := h
  simp only [loserTieClaims, List.mem_cons, Prod.mk.injEq, List.mem_singleton,
    List.not_mem_nil, or_false] at hmem
  rcases hmem with ⟨rfl, rfl⟩ | ⟨rfl, rfl⟩ | ⟨rfl, rfl⟩ <;> simp at ht <;> simp [ht]

/-- The order-independence theorem at a three-way conflict: the triangle 0 (SDF 0.5) is claimed
by colour 0 (sample 0.4375), colour 1 (sample 0.25) and colour 2 (sample 0.75); the two losing
colours are equally distant.  In both iteration orders colour 0 gets the triangle. -/
theorem postprocess_order_independent_witness :
    sampleDistance loserTieGeometry loserTieSamples 1 0 =
      sampleDistance loserTieGeometry loserTieSamples 2 0 ∧
    postprocess loserTieGeometry loserTieSamples loserTieClaims =
      some [(0, [0]), (1, []), (2, [])] ∧
    postprocess loserTieGeometry loserTieSamples loserTieClaimsRotated =
      some [(0, [0]), (1, []), (2, [])] ∧
    ∃ final final', postprocess loserTieGeometry loserTieSamples loserTieClaims = some final ∧
      postprocess loserTieGeometry loserTieSamples loserTieClaimsRotated = some final' ∧
      final.map Prod.fst = final'.map Prod.fst ∧
      ∀ c t, Claims final c t ↔ Claims final' c t := by
  obtain ⟨final, final', h1, h2, hk, -, -, hall⟩ :=
    postprocess_order_independent loserTieGeometry loserTieSamples loserTieClaims
      loserTieClaimsRotated (by decide)
      (by
        intro c t hc
        rcases (loserTieClaims_cases c t hc).1 with rfl | rfl | rfl
        · exact ⟨by decide, _, rfl, by simp⟩
        · exact ⟨by decide, _, rfl, by simp⟩
        · exact ⟨by decide, _, rfl, by simp⟩)
  refine ⟨by decide!, by decide!, by decide!, final, final', h1, h2, hk, hall ?_⟩
  rintro t ⟨c, hc⟩
  obtain ⟨-, rfl⟩ := loserTieClaims_cases c t hc
  refine ⟨0, ⟨[0], by simp [loserTieClaims], by simp⟩, ?_⟩
  intro c' hc' hne
  have d0 : sampleDistance loserTieGeometry loserTieSamples 0 0 = 1 / 16 := by decide!
  have d1 : sampleDistance loserTieGeometry loserTieSamples 1 0 = 1 / 4 := by decide!
  have d2 : sampleDistance loserTieGeometry loserTieSamples 2 0 = 1 / 4 := by decide!
  rcases (loserTieClaims_cases c' 0 hc').1 with rfl | rfl | rfl
  · exact absurd rfl hne
  · rw [d0, d1]; norm_num
  · rw [d0, d2]; norm_num

/-! ## Idempotence -/

/-- C5: when every claiming colour is a palette id with samples, `postprocess` returns a
colouring `final`, and `postprocess` run again on `final` (in any iteration order of its entries)
with the same samples returns a colouring with the same keys and the same set of triangles for
every colour. -/
theorem postprocess_idempotent (g : Geometry) (lk : UMap (List ℚ)) (raw : UMap (List Nat))
    (h : ∀ c t, Claims raw c t → c < g.paletteSize ∧ HasSamples lk c) :
    ∃ final, postprocess g lk raw = some final ∧
      ∀ again, List.Perm final again →
        ∃ final2, postprocess g lk again = some final2 ∧
          final2.map Prod.fst = final.map Prod.fst ∧
          ∀ c t, Claims final2 c t ↔ Claims final c t := by
  obtain ⟨m, final, inv, hpost, hkeys, -, hown⟩ := postprocess_owner g lk raw h
  refine ⟨final, hpost, ?_⟩
  intro again hperm
  have hag : ∀ c t, Claims again c t ↔ UMap.find m t = some c :=
    fun c t => (claims_perm final again hperm c t).symm.trans (hown c t)
  have hraw : ∀ c t, Claims again c t → Claims raw c t :=
    fun c t hc => (mem_pairsOf raw c t).1 (inv.owner_claims t c ((hag c t).1 hc))
  obtain ⟨m2, final2, inv2, hpost2, hkeys2, -, hown2⟩ := postprocess_owner g lk again
    (fun c t hc => h c t (hraw c t hc))
  refine ⟨final2, hpost2, by rw [hkeys, hkeys2], ?_⟩
  intro c t
  rw [hown2, hown]
  constructor
  · intro hf
    exact (hag c t).1 ((mem_pairsOf again c t).1 (inv2.owner_claims t c hf))
  · intro hf
    obtain ⟨c', hc'⟩ := inv2.claimed_owned c t ((mem_pairsOf again c t).2 ((hag c t).2 hf))
    have := (hag c' t).1 ((mem_pairsOf again c' t).1 (inv2.owner_claims t c' hc'))
    rw [hf] at this
    injection this with this
    rw [this]
    exact hc'

/-- The idempotence theorem at the conflict scenario. -/
theorem postprocess_idempotent_witness :
    ∃ final, postprocess scenarioGeometry scenarioSamples scenarioClaims = some final ∧
      ∀ again, List.Perm final again →
        ∃ final2, postprocess scenarioGeometry scenarioSamples again = some final2 ∧
          final2.map Prod.fst = final.map Prod.fst ∧
          ∀ c t, Claims final2 c t ↔ Claims final c t :=
  postprocess_idempotent scenarioGeometry scenarioSamples scenarioClaims scenario_hyp

/-! ## Lemmas on the preview buffer -/

theorem paintTriangle_spec (buffer : List Vec4) (tri : Nat) (rgb : Vec4) (n : Nat)
    (hlen : buffer.length = 3 * n) (ht : tri < n) :
    ∃ b, paintTriangle buffer tri rgb = some b ∧ b.length = 3 * n ∧
      ∀ i, b[i]? = if 3 * tri ≤ i ∧ i < 3 * tri + 3 then some rgb else buffer[i]? := by
  have h0 : 3 * tri < buffer.length := by omega
  have h1 : 3 * tri + 1 < buffer.length := by omega
  have h2 : 3 * tri + 2 < buffer.length := by omega
  refine ⟨((buffer.set (3 * tri) rgb).set (3 * tri + 1) rgb).set (3 * tri + 2) rgb, ?_, ?_, ?_⟩
  · simp [paintTriangle, vecSet, h0, h1, h2]
  · simp [hlen]
  · intro i
    simp only [List.getElem?_set, List.length_set]
    by_cases e2 : 3 * tri + 2 = i
    · subst e2
      rw [if_pos rfl, if_pos h2, if_pos ⟨by omega, by omega⟩]
    · rw [if_neg e2]
      by_cases e1 : 3 * tri + 1 = i
      · subst e1
        rw [if_pos rfl, if_pos h1, if_pos ⟨by omega, by omega⟩]
      · rw [if_neg e1]
        by_cases e0 : 3 * tri = i
        · subst e0
          rw [if_pos rfl, if_pos h0, if_pos ⟨by omega, by omega⟩]
        · rw [if_neg e0, if_neg (by omega)]

theorem paintPairs_spec (getColor : Nat → Vec4) (ps : List (Nat × Nat)) (buffer : List Vec4)
    (n : Nat) (hlen : buffer.length = 3 * n) (hin : ∀ p ∈ ps, p.2 < n)
    (hdisj : ∀ c c' t, (c, t) ∈ ps → (c', t) ∈ ps → c = c') :
    ∃ b, ps.foldlM (fun b p => paintTriangle b p.2 (getColor p.1)) buffer = some b ∧
      b.length = 3 * n ∧
      (∀ c t, (c, t) ∈ ps → ∀ k, k < 3 → b[3 * t + k]? = some (getColor c)) ∧
      (∀ t, (∀ c, (c, t) ∉ ps) → ∀ k, k < 3 → b[3 * t + k]? = buffer[3 * t + k]?) := by
  induction ps generalizing buffer with
  | nil => exact ⟨buffer, rfl, hlen, by simp, by simp⟩
  | cons p rest ih =>
    obtain ⟨c0, t0⟩ := p
    obtain ⟨b1, hb1, hlen1, hget1⟩ :=
      paintTriangle_spec buffer t0 (getColor c0) n hlen (hin (c0, t0) (by simp))
    obtain ⟨b, hb, hlenb, hcl, hun⟩ := ih b1 hlen1
      (fun q hq => hin q (List.mem_cons_of_mem _ hq))
      (fun c c' t h h' => hdisj c c' t (List.mem_cons_of_mem _ h) (List.mem_cons_of_mem _ h'))
    refine ⟨b, ?_, hlenb, ?_, ?_⟩
    · rw [List.foldlM_cons, hb1]
      exact hb
    · intro c t hmem k hk
      by_cases hrest : (c, t) ∈ rest
      · exact hcl c t hrest k hk
      · have hp : c = c0 ∧ t = t0 := by
          rcases List.mem_cons.1 hmem with h | h
          · simpa using h
          · exact absurd h hrest
        obtain ⟨rfl, rfl⟩ := hp
        have hnone : ∀ c', (c', t) ∉ rest := by
          intro c' hc'
          have := hdisj c' c t (List.mem_cons_of_mem _ hc') (by simp)
          rw [this] at hc'
          exact hrest hc'
        rw [hun t hnone k hk, hget1]
        have : 3 * t ≤ 3 * t + k ∧ 3 * t + k < 3 * t + 3 := by omega
        simp [this]
    · intro t hnone k hk
      have hrest : ∀ c, (c, t) ∉ rest := fun c hc => hnone c (List.mem_cons_of_mem _ hc)
      have hne : t ≠ t0 := by
        intro e
        apply hnone c0
        rw [e]
        simp
      rw [hun t hrest k hk, hget1]
      have : ¬ (3 * t0 ≤ 3 * t + k ∧ 3 * t + k < 3 * t0 + 3) := by omega
      simp [this]

theorem renderColoring_eq (g : Geometry) (coloring : UMap (List Nat)) (buffer : List Vec4) :
    renderColoring g true coloring buffer =
      (pairsOf coloring).foldlM (fun b p => paintTriangle b p.2 (g.getColor p.1)) buffer := by
  unfold renderColoring
  induction coloring generalizing buffer with
  | nil => rfl
  | cons entry rest ih =>
    obtain ⟨c, ts⟩ := entry
    simp only [List.foldlM_cons, pairsOf, List.flatMap_cons, List.foldlM_append, if_true,
      List.foldlM_map]
    cases ts.foldlM (fun b tri => paintTriangle b tri (g.getColor c)) buffer with
    | none => rfl
    | some b => exact ih b

theorem renderColoring_off (g : Geometry) (coloring : UMap (List Nat)) (buffer : List Vec4) :
    renderColoring g false coloring buffer = some buffer := by
  unfold renderColoring
  induction coloring with
  | nil => rfl
  | cons entry rest ih =>
    rw [List.foldlM_cons]
    simpa using ih

/-! ## Lemmas on the growth loop -/

theorem UMap.modify_of_not_mem {V : Type} (m : UMap V) (k : Nat) (f : V → V)
    (h : k ∉ m.map Prod.fst) : UMap.modify m k f = m := by
  induction m with
  | nil => rfl
  | cons p rest ih =>
    simp only [List.map_cons, List.mem_cons, not_or] at h
    rw [UMap.modify_cons, ih h.2, if_neg (fun e => h.1 e.symm)]

theorem UMap.modify_append {V : Type} (m m' : UMap V) (k : Nat) (f : V → V) :
    UMap.modify (m ++ m') k f = UMap.modify m k f ++ UMap.modify m' k f := by
  simp [UMap.modify]

theorem growColor_fresh (g : Geometry) (spread : ℚ) (lk : UMap (List ℚ)) (raw : UMap (List Nat))
    (c : Nat) (ts : List Nat) (hlk : c ∉ lk.map Prod.fst) (hraw : c ∉ raw.map Prod.fst) :
    growColor g spread (lk, raw) (c, ts) =
      if ts.isEmpty then (lk, raw)
      else (lk ++ [(c, ts.map g.getSdfValue)],
        raw ++ [(c, g.bucket ts (ts.map g.getSdfValue) spread)]) := by
  have h1 : UMap.find lk c = none := (UMap.find_none_iff lk c).2 hlk
  have h2 : UMap.find raw c = none := (UMap.find_none_iff raw c).2 hraw
  have h3 : UMap.modify (UMap.insert lk c []) c
      (fun initialValues => initialValues ++ ts.map g.getSdfValue) =
      lk ++ [(c, ts.map g.getSdfValue)] := by
    simp only [UMap.insert, h1, UMap.modify_append, UMap.modify_of_not_mem lk c _ hlk]
    simp [UMap.modify]
  unfold growColor
  by_cases he : ts.isEmpty = true
  · simp [he]
  · simp only [he, if_false, h3]
    simp only [UMap.find_append, h1, UMap.find_cons, if_true, UMap.insert, h2]
    simp

theorem keys_sampleTable (g : Geometry) (tbc : UMap (List Nat)) (c : Nat)
    (h : c ∈ (sampleTable g tbc).map Prod.fst) : c ∈ tbc.map Prod.fst := by
  simp only [sampleTable, List.map_map, List.mem_map, List.mem_filter, Function.comp] at h
  obtain ⟨e, ⟨hmem, _⟩, rfl⟩ := h
  exact List.mem_map_of_mem Prod.fst hmem

theorem keys_rawClaims (g : Geometry) (spread : ℚ) (tbc : UMap (List Nat)) (c : Nat)
    (h : c ∈ (rawClaims g spread tbc).map Prod.fst) : c ∈ tbc.map Prod.fst := by
  simp only [rawClaims, List.map_map, List.mem_map, List.mem_filter, Function.comp] at h
  obtain ⟨e, ⟨hmem, _⟩, rfl⟩ := h
  exact List.mem_map_of_mem Prod.fst hmem

theorem growColors_foldl (g : Geometry) (spread : ℚ) (pre post : UMap (List Nat))
    (hnd : ((pre ++ post).map Prod.fst).Nodup) :
    post.foldl (growColor g spread) (sampleTable g pre, rawClaims g spread pre) =
      (sampleTable g (pre ++ post), rawClaims g spread (pre ++ post)) := by
  induction post generalizing pre with
  | nil => simp
  | cons e rest ih =>
    obtain ⟨c, ts⟩ := e
    have hc : c ∉ pre.map Prod.fst := by
      intro hmem
      rw [List.map_append, List.nodup_append] at hnd
      exact hnd.2.2 hmem (by simp)
    have hstep : growColor g spread (sampleTable g pre, rawClaims g spread pre) (c, ts) =
        (sampleTable g (pre ++ [(c, ts)]), rawClaims g spread (pre ++ [(c, ts)])) := by
      rw [growColor_fresh g spread _ _ c ts (fun h => hc (keys_sampleTable g pre c h))
        (fun h => hc (keys_rawClaims g spread pre c h))]
      by_cases he : ts.isEmpty = true
      · simp [he, sampleTable, rawClaims, List.filter_append, List.filter_cons]
      · simp [he, sampleTable, rawClaims, List.filter_append, List.filter_cons]
    rw [List.foldl_cons, hstep]
    have := ih (pre ++ [(c, ts)]) (by simpa using hnd)
    simpa using this

theorem growColors_eq (g : Geometry) (spread : ℚ) (tbc : UMap (List Nat))
    (hnd : (tbc.map Prod.fst).Nodup) :
    growColors g spread tbc = (sampleTable g tbc, rawClaims g spread tbc) := by
  have := growColors_foldl g spread [] tbc (by simpa using hnd)
  simpa [growColors, sampleTable, rawClaims] using this

theorem seedsByColor_keys (g : Geometry) (seeds : UMap Nat) :
    (seedsByColor g seeds).map Prod.fst = List.range g.paletteSize := by
  simp only [seedsByColor, List.map_map]
  exact List.map_id _

theorem sampleTable_find (g : Geometry) (tbc : UMap (List Nat)) (c : Nat) (ts : List Nat)
    (hnd : (tbc.map Prod.fst).Nodup) (hmem : (c, ts) ∈ tbc) (hne : ts ≠ []) :
    UMap.find (sampleTable g tbc) c = some (ts.map g.getSdfValue) := by
  apply UMap.mem_find_of_nodup
  · have hsub : List.Sublist ((sampleTable g tbc).map Prod.fst) (tbc.map Prod.fst) := by
      have : (sampleTable g tbc).map Prod.fst =
          (tbc.filter (fun e => !e.2.isEmpty)).map Prod.fst := by
        simp only [sampleTable, List.map_map]
        rfl
      rw [this]
      exact List.Sublist.map Prod.fst (List.filter_sublist tbc)
    exact List.Nodup.sublist hsub hnd
  · simp only [sampleTable, List.mem_map, List.mem_filter]
    refine ⟨(c, ts), ⟨hmem, ?_⟩, rfl⟩
    cases ts with
    | nil => exact absurd rfl hne
    | cons _ _ => rfl

theorem claims_rawClaims (g : Geometry) (spread : ℚ) (tbc : UMap (List Nat)) (c t : Nat)
    (h : Claims (rawClaims g spread tbc) c t) :
    ∃ ts, (c, ts) ∈ tbc ∧ ts ≠ [] ∧ t ∈ g.bucket ts (ts.map g.getSdfValue) spread := by
  obtain ⟨ret, hmem, ht⟩ := h
  simp only [rawClaims, List.mem_map, List.mem_filter, Prod.mk.injEq] at hmem
  obtain ⟨⟨c0, ts⟩, ⟨hmem, hne⟩, rfl, rfl⟩ := hmem
  refine ⟨ts, hmem, ?_, ht⟩
  intro e
  rw [e] at hne
  simp at hne

/-! ## Lemmas on `spreadColors` -/

theorem seedsByColor_mem (g : Geometry) (seeds : UMap Nat) (c : Nat) (ts : List Nat)
    (h : (c, ts) ∈ seedsByColor g seeds) : c < g.paletteSize ∧ ts = ownedBy seeds c :=
  (mem_tabulated g.paletteSize (ownedBy seeds) c ts).1 h

theorem grown_hyp (g : Geometry) (spread : ℚ) (seeds : UMap Nat) (c t : Nat)
    (h : Claims (rawClaims g spread (seedsByColor g seeds)) c t) :
    c < g.paletteSize ∧ HasSamples (sampleTable g (seedsByColor g seeds)) c ∧
      (∃ tri, (tri, c) ∈ seeds) ∧
      ∃ st vals, (∀ t' ∈ st, (t', c) ∈ seeds) ∧ t ∈ g.bucket st vals spread := by
  obtain ⟨ts, hmem, hne, ht⟩ := claims_rawClaims g spread _ c t h
  have hnd : ((seedsByColor g seeds).map Prod.fst).Nodup := by
    rw [seedsByColor_keys]; exact List.nodup_range _
  obtain ⟨hc, hts⟩ := seedsByColor_mem g seeds c ts hmem
  refine ⟨hc, ⟨_, sampleTable_find g _ c ts hnd hmem hne, by simpa using hne⟩, ?_, _, _,
    fun t' ht' => (mem_ownedBy seeds c t').1 (hts ▸ ht'), ht⟩
  cases hts' : ts with
  | nil => exact absurd hts' hne
  | cons tri rest =>
    refine ⟨tri, ?_⟩
    rw [← mem_ownedBy, ← hts, hts']
    simp

/-- What `spreadColors` does when every seed colour is a palette id and, in override mode, the
backup buffer has three entries per triangle and the bucket fill stays inside the mesh. -/
theorem spreadColors_spec (g : Geometry) (s : State)
    (hseeds : ∀ p ∈ s.mStartingTriangles, p.2 < g.paletteSize)
    (hrender : s.colorOverride = true →
      s.mBackupColorBuffer.length = 3 * g.triangleCount ∧ BucketInRange g ∧
      ∀ p ∈ s.mStartingTriangles, p.1 < g.triangleCount) :
    ∃ coloring overrideBuffer,
      spreadColors g s = some { s with
        mCurrentColoring := coloring
        mBucketSpreadLatest := s.mBucketSpread
        overrideColorBuffer := overrideBuffer } ∧
      postprocess g (sampleTable g (seedsByColor g s.mStartingTriangles))
        (rawClaims g s.mBucketSpread (seedsByColor g s.mStartingTriangles)) = some coloring ∧
      coloring.map Prod.fst = List.range g.paletteSize ∧
      (∀ c t, Claims coloring c t → ∃ tri, (tri, c) ∈ s.mStartingTriangles) ∧
      (∀ c c' t, Claims coloring c t → Claims coloring c' t → c = c') ∧
      overrideBuffer.length = s.mBackupColorBuffer.length ∧
      (s.colorOverride = false → overrideBuffer = s.mBackupColorBuffer) ∧
      (s.colorOverride = true →
        (∀ c t, Claims coloring c t → ∀ k, k < 3 →
          overrideBuffer[3 * t + k]? = some (g.getColor c)) ∧
        (∀ t, (∀ c, ¬ Claims coloring c t) → ∀ k, k < 3 →
          overrideBuffer[3 * t + k]? = s.mBackupColorBuffer[3 * t + k]?)) := by
  have hcollect := collectTrianglesByColor_eq g s.mStartingTriangles hseeds
  have hgrow := growColors_eq g s.mBucketSpread (seedsByColor g s.mStartingTriangles)
    (by rw [seedsByColor_keys]; exact List.nodup_range _)
  have hhyp := grown_hyp g s.mBucketSpread s.mStartingTriangles
  obtain ⟨m, coloring, inv, hpost, hkeys, -, hown⟩ := postprocess_owner g _ _
    (fun c t hc => ⟨(hhyp c t hc).1, (hhyp c t hc).2.1⟩)
  have hraw : ∀ c t, Claims coloring c t →
      Claims (rawClaims g s.mBucketSpread (seedsByColor g s.mStartingTriangles)) c t :=
    fun c t hc => (mem_pairsOf _ c t).1 (inv.owner_claims t c ((hown c t).1 hc))
  have hdisj : ∀ c c' t, Claims coloring c t → Claims coloring c' t → c = c' := by
    intro c c' t h1 h2
    have e1 := (hown c t).1 h1
    have e2 := (hown c' t).1 h2
    rw [e1] at e2
    injection e2
  have hunfold : ∀ buffer,
      renderColoring g s.colorOverride coloring s.mBackupColorBuffer = some buffer →
      spreadColors g s = some { s with
        mCurrentColoring := coloring
        mBucketSpreadLatest := s.mBucketSpread
        overrideColorBuffer := buffer } := by
    intro buffer hb
    unfold spreadColors
    rw [hcollect]
    simp only []
    have hc : (List.range g.paletteSize).map (fun i => (i, ownedBy s.mStartingTriangles i)) =
        seedsByColor g s.mStartingTriangles := rfl
    rw [hc, hgrow]
    simp only [hpost, hb]
  rcases Bool.eq_false_or_eq_true s.colorOverride with hov | hov
  swap
  · have hb : renderColoring g s.colorOverride coloring s.mBackupColorBuffer =
        some s.mBackupColorBuffer := by
      rw [hov]; exact renderColoring_off g coloring _
    exact ⟨coloring, s.mBackupColorBuffer, hunfold _ hb, hpost, hkeys,
      fun c t hc => (hhyp c t (hraw c t hc)).2.2.1, hdisj, rfl, fun _ => rfl,
      fun h => absurd (hov.symm.trans h) (by simp)⟩
  · obtain ⟨hlen, hbucket, htri⟩ := hrender hov
    have hin : ∀ p ∈ pairsOf coloring, p.2 < g.triangleCount := by
      intro p hp
      obtain ⟨st, vals, hst, ht⟩ :=
        (hhyp p.1 p.2 (hraw p.1 p.2 ((mem_pairsOf coloring p.1 p.2).1 hp))).2.2.2
      exact hbucket st vals _ (fun t' ht' => htri (t', p.1) (hst t' ht')) _ ht
    obtain ⟨b, hb, hlenb, hcl, hun⟩ := paintPairs_spec g.getColor (pairsOf coloring)
      s.mBackupColorBuffer g.triangleCount hlen hin
      (fun c c' t h h' => hdisj c c' t ((mem_pairsOf coloring c t).1 h)
        ((mem_pairsOf coloring c' t).1 h'))
    have hb' : renderColoring g s.colorOverride coloring s.mBackupColorBuffer = some b := by
      rw [hov, renderColoring_eq]; exact hb
    refine ⟨coloring, b, hunfold _ hb', hpost, hkeys,
      fun c t hc => (hhyp c t (hraw c t hc)).2.2.1, hdisj, by rw [hlenb, hlen],
      fun h => absurd (hov.symm.trans h) (by simp), fun _ => ⟨?_, ?_⟩⟩
    · intro c t hc k hk
      exact hcl c t ((mem_pairsOf coloring c t).2 hc) k hk
    · intro t hnone k hk
      exact hun t (fun c hc => hnone c ((mem_pairsOf coloring c t).1 hc)) k hk

theorem scenarioGeometry_bucket : BucketInRange scenarioGeometry := by
  intro st vals spread hst t ht
  simp only [scenarioGeometry, List.mem_flatMap] at ht hst ⊢
  obtain ⟨t0, ht0, hmem⟩ := ht
  have := hst t0 ht0
  split_ifs at hmem <;> simp at hmem <;> omega

/-! ## The colouring after a growth pass -/

/-- C9: when every seed colour is a palette id (and, in override mode, the buffers and the
bucket fill are those of the mesh, so that the preview can be painted), `spreadColors` returns
and `mCurrentColoring` has exactly the keys `0 .. paletteSize - 1`, each once, and the entry of
every colour that has no seed triangle is the empty list. -/
theorem spreadColors_covers_palette (g : Geometry) (s : State)
    (hseeds : ∀ p ∈ s.mStartingTriangles, p.2 < g.paletteSize)
    (hrender : s.colorOverride = true →
      s.mBackupColorBuffer.length = 3 * g.triangleCount ∧ BucketInRange g ∧
      ∀ p ∈ s.mStartingTriangles, p.1 < g.triangleCount) :
    ∃ s', spreadColors g s = some s' ∧
      s'.mCurrentColoring.map Prod.fst = List.range g.paletteSize ∧
      ∀ c ts, (c, ts) ∈ s'.mCurrentColoring → (∀ p ∈ s.mStartingTriangles, p.2 ≠ c) →
        ts = [] := by
  obtain ⟨coloring, buffer, hsp, -, hkeys, hseed, -⟩ := spreadColors_spec g s hseeds hrender
  refine ⟨_, hsp, hkeys, ?_⟩
  intro c ts hmem hnone
  cases hts : ts with
  | nil => rfl
  | cons t rest =>
    obtain ⟨tri, htri⟩ := hseed c t ⟨ts, hmem, by rw [hts]; simp⟩
    exact absurd rfl (hnone (tri, c) htri)

/-- The palette-coverage theorem at the scenario session. -/
theorem spreadColors_covers_palette_witness :
    ∃ s', spreadColors scenarioGeometry scenarioState = some s' ∧
      s'.mCurrentColoring.map Prod.fst = List.range scenarioGeometry.paletteSize ∧
      ∀ c ts, (c, ts) ∈ s'.mCurrentColoring →
        (∀ p ∈ scenarioState.mStartingTriangles, p.2 ≠ c) → ts = [] :=
  spreadColors_covers_palette scenarioGeometry scenarioState (by decide)
    (fun _ => ⟨by decide, scenarioGeometry_bucket, by decide⟩)

/-! ## The preview after a growth pass -/

/-- C10: in an active session (override on, backup buffer with three entries per triangle, seeds
and bucket fill inside the mesh, seed colours in the palette) `spreadColors` returns; afterwards
the backup buffer is unchanged, the live buffer has the length of the backup, the three live
entries of every triangle in the final list of a colour `c` are the palette colour of `c`, and
the three live entries of every triangle in no final list are those of the backup buffer. -/
theorem spreadColors_preview (g : Geometry) (s : State)
    (hov : s.colorOverride = true)
    (hlen : s.mBackupColorBuffer.length = 3 * g.triangleCount)
    (hbucket : BucketInRange g)
    (htri : ∀ p ∈ s.mStartingTriangles, p.1 < g.triangleCount)
    (hseeds : ∀ p ∈ s.mStartingTriangles, p.2 < g.paletteSize) :
    ∃ s', spreadColors g s = some s' ∧
      s'.mBackupColorBuffer = s.mBackupColorBuffer ∧
      s'.overrideColorBuffer.length = 3 * g.triangleCount ∧
      ∀ t k, k < 3 →
        (∀ c, Claims s'.mCurrentColoring c t →
          s'.overrideColorBuffer[3 * t + k]? = some (g.getColor c)) ∧
        ((∀ c, ¬ Claims s'.mCurrentColoring c t) →
          s'.overrideColorBuffer[3 * t + k]? = s.mBackupColorBuffer[3 * t + k]?) := by
  obtain ⟨coloring, buffer, hsp, -, -, -, -, hlenb, -, hpaint⟩ :=
    spreadColors_spec g s hseeds (fun _ => ⟨hlen, hbucket, htri⟩)
  obtain ⟨hcl, hun⟩ := hpaint hov
  refine ⟨_, hsp, rfl, by simpa [hlen] using hlenb, ?_⟩
  intro t k hk
  exact ⟨fun c hc => hcl c t hc k hk, fun hnone => hun t hnone k hk⟩

/-- The preview theorem at the scenario session, whose live buffer is full of another colour
before the pass. -/
theorem spreadColors_preview_witness :
    ∃ s', spreadColors scenarioGeometry scenarioState = some s' ∧
      s'.mBackupColorBuffer = scenarioState.mBackupColorBuffer ∧
      s'.overrideColorBuffer.length = 3 * scenarioGeometry.triangleCount ∧
      ∀ t k, k < 3 →
        (∀ c, Claims s'.mCurrentColoring c t →
          s'.overrideColorBuffer[3 * t + k]? = some (scenarioGeometry.getColor c)) ∧
        ((∀ c, ¬ Claims s'.mCurrentColoring c t) →
          s'.overrideColorBuffer[3 * t + k]? = scenarioState.mBackupColorBuffer[3 * t + k]?) :=
  spreadColors_preview scenarioGeometry scenarioState rfl (by decide) scenarioGeometry_bucket
    (by decide) (by decide)

/-! ## Lemmas on the session -/

theorem paintAll_length {α : Type} (tri : α → Nat) (rgb : α → Vec4) (xs : List α)
    (buffer : List Vec4) (n : Nat) (hlen : buffer.length = 3 * n) (hin : ∀ x ∈ xs, tri x < n) :
    ∃ b, xs.foldlM (fun b x => paintTriangle b (tri x) (rgb x)) buffer = some b ∧
      b.length = 3 * n := by
  induction xs generalizing buffer with
  | nil => exact ⟨buffer, rfl, hlen⟩
  | cons x rest ih =>
    obtain ⟨b1, hb1, hlen1, -⟩ :=
      paintTriangle_spec buffer (tri x) (rgb x) n hlen (hin x (by simp))
    obtain ⟨b, hb, hlenb⟩ := ih b1 hlen1 (fun y hy => hin y (List.mem_cons_of_mem _ hy))
    refine ⟨b, ?_, hlenb⟩
    rw [List.foldlM_cons, hb1]
    exact hb

theorem setupOverride_spec (g : Geometry) (s : State)
    (htri : ∀ p ∈ s.mStartingTriangles, p.1 < g.triangleCount) :
    ∃ b, b.length = 3 * g.triangleCount ∧
      setupOverride g s = some { s with
        mBackupColorBuffer := b
        overrideColorBuffer := b
        colorOverride := true } := by
  obtain ⟨b1, hb1, hlen1⟩ := paintAll_length (fun i => i)
    (fun i => g.getColor (g.getTriangleColor i)) (List.range g.triangleCount)
    (List.replicate (g.triangleCount * 3) ⟨0, 0, 0, 0⟩) g.triangleCount
    (by simp [Nat.mul_comm]) (fun x hx => List.mem_range.1 hx)
  obtain ⟨b, hb, hlenb⟩ := paintAll_length (fun (p : Nat × Nat) => p.1)
    (fun p => g.getColor p.2) s.mStartingTriangles b1 g.triangleCount hlen1 htri
  refine ⟨b, hlenb, ?_⟩
  unfold setupOverride
  simp only [hb1, hb]

theorem UMap.mem_insert {V : Type} (m : UMap V) (k : Nat) (v : V) (p : Nat × V)
    (h : p ∈ UMap.insert m k v) : p ∈ m ∨ p = (k, v) := by
  unfold UMap.insert at h
  cases hf : UMap.find m k with
  | some _ => rw [hf] at h; exact Or.inl h
  | none =>
    rw [hf] at h
    simpa using h

theorem UMap.mem_modify_const {V : Type} (m : UMap V) (k : Nat) (v : V) (p : Nat × V)
    (h : p ∈ UMap.modify m k (fun _ => v)) : p ∈ m ∨ p = (k, v) := by
  simp only [UMap.modify, List.mem_map] at h
  obtain ⟨q, hq, rfl⟩ := h
  by_cases hk : q.1 = k
  · right
    simp [hk]
  · left
    simpa [hk] using hq

theorem UMap.insert_ne_nil {V : Type} (m : UMap V) (k : Nat) (v : V) :
    UMap.insert m k v ≠ [] := by
  unfold UMap.insert
  cases hf : UMap.find m k with
  | some _ =>
    intro e
    simp only at e
    rw [e] at hf
    simp [UMap.find] at hf
  | none => simp

theorem UMap.modify_ne_nil {V : Type} (m : UMap V) (k : Nat) (f : V → V) (h : m ≠ []) :
    UMap.modify m k f ≠ [] := by
  simpa [UMap.modify] using h

theorem UMap.find_ne_nil {V : Type} (m : UMap V) (k : Nat) (v : V)
    (h : UMap.find m k = some v) : m ≠ [] := by
  intro e
  rw [e] at h
  simp [UMap.find] at h

theorem setTriangleColor_idle (g : Geometry) (s : State) (t : Nat)
    (hh : s.mHoveredTriangleId = some t) (hseeds : s.mStartingTriangles = [])
    (hov : s.colorOverride = false) :
    setTriangleColor g s =
      some { s with mStartingTriangles := [(t, g.activeColorIndex)] } := by
  unfold setTriangleColor
  simp [hh, hseeds, hov, UMap.find, UMap.insert]

theorem setTriangleColor_active (g : Geometry) (s : State) (t : Nat)
    (hh : s.mHoveredTriangleId = some t) (ht : t < g.triangleCount)
    (hseeds : s.mStartingTriangles ≠ []) (hov : s.colorOverride = true)
    (hlen : s.mBackupColorBuffer.length = 3 * g.triangleCount)
    (hlen' : s.overrideColorBuffer.length = 3 * g.triangleCount) :
    ∃ s1, setTriangleColor g s = some s1 ∧ s1.mStartingTriangles ≠ [] ∧
      (∀ p ∈ s1.mStartingTriangles, p ∈ s.mStartingTriangles ∨ p = (t, g.activeColorIndex)) ∧
      s1.mBackupColorBuffer.length = 3 * g.triangleCount ∧
      s1.overrideColorBuffer.length = 3 * g.triangleCount ∧
      s1.colorOverride = true ∧ s1.mHoveredTriangleId = some t := by
  obtain ⟨b1, hb1, hlen1, -⟩ := paintTriangle_spec s.overrideColorBuffer t
    (g.getColor g.activeColorIndex) g.triangleCount hlen' ht
  obtain ⟨b2, hb2, hlen2, -⟩ := paintTriangle_spec s.mBackupColorBuffer t
    (g.getColor g.activeColorIndex) g.triangleCount hlen ht
  unfold setTriangleColor
  simp only [hh, hov, if_true, hb1, hb2]
  by_cases hsame : UMap.find s.mStartingTriangles t = some g.activeColorIndex
  · rw [if_pos hsame]
    exact ⟨s, rfl, hseeds, fun p hp => Or.inl hp, hlen, hlen', hov, hh⟩
  · rw [if_neg hsame]
    cases hf : UMap.find s.mStartingTriangles t with
    | none =>
      refine ⟨_, rfl, ?_, ?_, hlen2, hlen1, rfl, rfl⟩
      · show UMap.insert s.mStartingTriangles t g.activeColorIndex ≠ []
        exact UMap.insert_ne_nil _ _ _
      · intro p hp
        exact UMap.mem_insert s.mStartingTriangles t g.activeColorIndex p hp
    | some _ =>
      refine ⟨_, rfl, ?_, ?_, hlen2, hlen1, rfl, rfl⟩
      · show UMap.modify s.mStartingTriangles t (fun _ => g.activeColorIndex) ≠ []
        exact UMap.modify_ne_nil _ _ _ hseeds
      · intro p hp
        exact UMap.mem_modify_const s.mStartingTriangles t g.activeColorIndex p hp

theorem reset_inv (g : Geometry) (s : State) : SessionInv g (reset s) where
  seeds_tri := by intro p hp; simp [reset] at hp
  seeds_color := by intro p hp; simp [reset] at hp
  hovered := by intro t ht; simp [reset] at ht
  idle := fun _ => ⟨rfl, rfl, rfl⟩
  active := fun h => absurd rfl h

theorem onModelViewMouseDown_inv (g : Geometry) (s : State) (isLeftDown : Bool)
    (hg : GeometryOK g) (inv : SessionInv g s) :
    ∃ s', onModelViewMouseDown (some g) s isLeftDown = some s' ∧ SessionInv g s' := by
  unfold onModelViewMouseDown
  cases isLeftDown with
  | false => exact ⟨s, rfl, inv⟩
  | true =>
    cases hh : s.mHoveredTriangleId with
    | none => exact ⟨s, rfl, inv⟩
    | some t =>
      have ht := inv.hovered t hh
      simp only [Bool.not_true, Bool.false_eq_true, if_false, Option.isNone_some]
      by_cases hseeds : s.mStartingTriangles = []
      · obtain ⟨hb, ho, hov⟩ := inv.idle hseeds
        rw [setTriangleColor_idle g s t hh hseeds hov]
        have htri : ∀ p ∈ [(t, g.activeColorIndex)], p.1 < g.triangleCount := by
          intro p hp
          simp only [List.mem_singleton] at hp
          rw [hp]
          exact ht
        obtain ⟨b, hlenb, hsetup⟩ := setupOverride_spec g
          { s with mStartingTriangles := [(t, g.activeColorIndex)] } htri
        simp only [hseeds, List.isEmpty_nil, List.isEmpty_cons, Bool.not_false, Bool.and_self,
          if_true, hsetup]
        refine ⟨_, rfl, htri, ?_, ?_, ?_, ?_⟩
        · intro p hp
          simp only [List.mem_singleton] at hp
          rw [hp]
          exact hg.active
        · intro t' ht'
          exact inv.hovered t' (hh ▸ ht')
        · intro h
          simp at h
        · intro _
          exact ⟨rfl, hlenb, hlenb⟩
      · obtain ⟨hov, hlen, hlen'⟩ := inv.active hseeds
        obtain ⟨s1, hs1, hne, hmem, hl1, hl2, hov1, hh1⟩ :=
          setTriangleColor_active g s t hh ht hseeds hov hlen hlen'
        have hempty : s.mStartingTriangles.isEmpty = false := by
          cases hs : s.mStartingTriangles with
          | nil => exact absurd hs hseeds
          | cons _ _ => rfl
        simp only [hs1, hempty, Bool.false_and, Bool.false_eq_true, if_false]
        refine ⟨_, rfl, ?_, ?_, ?_, ?_, ?_⟩
        · intro p hp
          rcases hmem p hp with h | h
          · exact inv.seeds_tri p h
          · rw [h]; exact ht
        · intro p hp
          rcases hmem p hp with h | h
          · exact inv.seeds_color p h
          · rw [h]; exact hg.active
        · intro t' ht'
          have : t = t' := Option.some.inj (hh1.symm.trans ht')
          exact this ▸ ht
        · intro h
          exact absurd h hne
        · intro _
          exact ⟨hov1, hl1, hl1⟩

theorem sessionInv_congr (g g' : Geometry) (s : State)
    (ht : g'.triangleCount = g.triangleCount) (hp : g'.paletteSize = g.paletteSize)
    (inv : SessionInv g s) : SessionInv g' s where
  seeds_tri := by rw [ht]; exact inv.seeds_tri
  seeds_color := by rw [hp]; exact inv.seeds_color
  hovered := by rw [ht]; exact inv.hovered
  idle := inv.idle
  active := by rw [ht]; exact inv.active

theorem eventOK_congr (g g' : Geometry) (e : Event)
    (ht : g'.triangleCount = g.triangleCount) (hp : g'.paletteSize = g.paletteSize)
    (h : EventOK g e) : EventOK g' e := by
  cases e <;> simp only [EventOK, ht, hp] at h ⊢ <;> exact h

theorem initial_inv (g : Geometry) : SessionInv g State.initial where
  seeds_tri := by intro p hp; simp [State.initial] at hp
  seeds_color := by intro p hp; simp [State.initial] at hp
  hovered := by intro t ht; simp [State.initial] at ht
  idle := fun _ => ⟨rfl, rfl, rfl⟩
  active := fun h => absurd rfl h

theorem refill_inv (g : Geometry) (s : State) (spread : Option ℚ)
    (hg : GeometryOK g) (inv : SessionInv g s) :
    ∃ s2, refill g s spread = some s2 ∧ SessionInv g s2 ∧ s2.executed = s.executed ∧
      s2.mStartingTriangles = s.mStartingTriangles ∧
      (s.mBucketSpread = s.mBucketSpreadLatest → spread = none →
        s2.mCurrentColoring = s.mCurrentColoring) := by
  have key : ∀ s1 : State, SessionInv g s1 →
      ∃ s2, (if s1.mBucketSpread ≠ s1.mBucketSpreadLatest then spreadColors g s1 else some s1) =
          some s2 ∧ SessionInv g s2 ∧ s2.executed = s1.executed ∧
        s2.mStartingTriangles = s1.mStartingTriangles ∧
        (s1.mBucketSpread = s1.mBucketSpreadLatest →
          s2.mCurrentColoring = s1.mCurrentColoring) := by
    intro s1 inv1
    by_cases hne : s1.mBucketSpread ≠ s1.mBucketSpreadLatest
    · rw [if_pos hne]
      have hrender : s1.colorOverride = true →
          s1.mBackupColorBuffer.length = 3 * g.triangleCount ∧ BucketInRange g ∧
          ∀ p ∈ s1.mStartingTriangles, p.1 < g.triangleCount := by
        intro hov
        have hseeds : s1.mStartingTriangles ≠ [] := by
          intro e
          have := (inv1.idle e).2.2
          rw [hov] at this
          exact absurd this (by simp)
        exact ⟨(inv1.active hseeds).2.1, hg.bucket, inv1.seeds_tri⟩
      obtain ⟨coloring, buffer, hsp, -, -, -, -, hlen, hoff, -⟩ :=
        spreadColors_spec g s1 inv1.seeds_color hrender
      refine ⟨_, hsp, ⟨inv1.seeds_tri, inv1.seeds_color, inv1.hovered, ?_, ?_⟩, rfl, rfl,
        fun h => absurd h hne⟩
      · intro e
        obtain ⟨hb, -, hov⟩ := inv1.idle e
        exact ⟨hb, by rw [hoff hov]; exact hb, hov⟩
      · intro e
        obtain ⟨hov, hl, -⟩ := inv1.active e
        exact ⟨hov, hl, by rw [← hl]; exact hlen⟩
    · rw [if_neg hne]
      exact ⟨s1, rfl, inv1, rfl, rfl, fun _ => rfl⟩
  unfold refill
  cases spread with
  | none =>
    obtain ⟨s2, h1, h2, h3, h4, h5⟩ := key s inv
    exact ⟨s2, h1, h2, h3, h4, fun h _ => h5 h⟩
  | some v =>
    obtain ⟨s2, h1, h2, h3, h4, -⟩ := key { s with mBucketSpread := v }
      ⟨inv.seeds_tri, inv.seeds_color, inv.hovered, inv.idle, inv.active⟩
    exact ⟨s2, h1, h2, h3, h4, fun _ h => absurd h (by simp)⟩

theorem drawColorPalette_ok (g : Geometry) (pickedColor : Option Nat) (hg : GeometryOK g)
    (hpick : ∀ c, pickedColor = some c → c < g.paletteSize) :
    GeometryOK (drawColorPalette g pickedColor) ∧
      (drawColorPalette g pickedColor).triangleCount = g.triangleCount ∧
      (drawColorPalette g pickedColor).paletteSize = g.paletteSize ∧
      (drawColorPalette g pickedColor).sdfComputed = g.sdfComputed := by
  cases pickedColor with
  | none => exact ⟨hg, rfl, rfl, rfl⟩
  | some c => exact ⟨⟨hpick c rfl, hg.bucket⟩, rfl, rfl, rfl⟩

/-- What one `drawToSidePane` call does in a well-formed session once the SDF values exist. -/
theorem drawToSidePane_spec (g : Geometry) (s : State) (ui : SidePaneInput)
    (hsdf : g.sdfComputed = true) (hg : GeometryOK g) (inv : SessionInv g s)
    (hpick : ∀ c, ui.pickedColor = some c → c < g.paletteSize) :
    ∃ s2 s', refill (drawColorPalette g ui.pickedColor) s ui.spread = some s2 ∧
      drawToSidePane g s ui = some (drawColorPalette g ui.pickedColor, s') ∧
      SessionInv g s' ∧
      (s.mBucketSpread = s.mBucketSpreadLatest → ui.spread = none →
        s2.mCurrentColoring = s.mCurrentColoring) ∧
      (s.mStartingTriangles ≠ [] → ui.apply = true →
        s'.executed = s.executed ++ applyCommands s2.mCurrentColoring) ∧
      (ui.cancel = true → s'.mStartingTriangles = [] ∧ s'.mBackupColorBuffer = [] ∧
        s'.overrideColorBuffer = [] ∧ s'.colorOverride = false) := by
  obtain ⟨hg1, ht1, hp1, -⟩ := drawColorPalette_ok g ui.pickedColor hg hpick
  have inv1 : SessionInv (drawColorPalette g ui.pickedColor) s :=
    sessionInv_congr g _ s ht1 hp1 inv
  obtain ⟨s2, hs2, inv2, hex, hseeds2, hcol⟩ :=
    refill_inv (drawColorPalette g ui.pickedColor) s ui.spread hg1 inv1
  have inv2' : SessionInv g s2 := sessionInv_congr _ g s2 ht1.symm hp1.symm inv2
  by_cases hseeds : s.mStartingTriangles = []
  · refine ⟨s2, s, hs2, ?_, inv, hcol, fun h => absurd hseeds h,
      fun _ => ⟨hseeds, (inv.idle hseeds).1, (inv.idle hseeds).2.1, (inv.idle hseeds).2.2⟩⟩
    unfold drawToSidePane
    simp [hsdf, hseeds]
  · have hempty : s.mStartingTriangles.isEmpty = false := by
      cases hs : s.mStartingTriangles with
      | nil => exact absurd hs hseeds
      | cons _ _ => rfl
    refine ⟨s2, if ui.cancel then reset (if ui.apply then applyPressed s2 else s2)
      else (if ui.apply then applyPressed s2 else s2), hs2, ?_, ?_, hcol, ?_, ?_⟩
    · unfold drawToSidePane
      simp only [hsdf, Bool.not_true, Bool.false_eq_true, if_false, hempty, hs2]
    · cases ui.apply <;> cases ui.cancel <;>
        first
          | exact inv2'
          | exact reset_inv g _
    · intro _ happly
      rw [happly]
      cases ui.cancel <;> simp [applyPressed, reset, hex]
    · intro hcancel
      rw [hcancel]
      exact ⟨rfl, rfl, rfl, rfl⟩

theorem onModelViewMouseMove_inv (g : Geometry) (s : State) (hit : Option Nat)
    (inv : SessionInv g s) (hhit : ∀ t, hit = some t → t < g.triangleCount) :
    SessionInv g (onModelViewMouseMove (some g) s hit) :=
  ⟨inv.seeds_tri, inv.seeds_color, hhit, inv.idle, inv.active⟩

theorem step_inv (gs : Geometry × State) (e : Event) (hg : GeometryOK gs.1)
    (inv : SessionInv gs.1 gs.2) (he : EventOK gs.1 e) :
    ∃ gs', step gs e = some gs' ∧ GeometryOK gs'.1 ∧ SessionInv gs'.1 gs'.2 ∧
      gs'.1.triangleCount = gs.1.triangleCount ∧ gs'.1.paletteSize = gs.1.paletteSize ∧
      (gs.1.sdfComputed = true → gs'.1.sdfComputed = true) := by
  obtain ⟨g, s⟩ := gs
  cases e with
  | mouseMove hit =>
    exact ⟨_, rfl, hg, onModelViewMouseMove_inv g s hit inv he, rfl, rfl, fun h => h⟩
  | mouseDown isLeftDown =>
    obtain ⟨s', hs', inv'⟩ := onModelViewMouseDown_inv g s isLeftDown hg inv
    exact ⟨(g, s'), by simp [step, hs'], hg, inv', rfl, rfl, fun h => h⟩
  | mouseDrag hit isLeftDown =>
    obtain ⟨s', hs', inv'⟩ := onModelViewMouseDown_inv g (onModelViewMouseMove (some g) s hit)
      isLeftDown hg (onModelViewMouseMove_inv g s hit inv he)
    exact ⟨(g, s'), by simp [step, onModelViewMouseDrag, hs'], hg, inv', rfl, rfl, fun h => h⟩
  | sidePane ui =>
    cases hsdf : g.sdfComputed with
    | true =>
      obtain ⟨hg1, ht1, hp1, hs1⟩ := drawColorPalette_ok g ui.pickedColor hg he
      obtain ⟨s2, s', -, hdraw, inv', -⟩ := drawToSidePane_spec g s ui hsdf hg inv he
      exact ⟨_, hdraw, hg1, sessionInv_congr g _ s' ht1 hp1 inv', ht1, hp1,
        fun _ => hs1.trans hsdf⟩
    | false =>
      cases hc : ui.computeSdf with
      | true =>
        exact ⟨({ g with sdfComputed := true }, s), by simp [step, drawToSidePane, hsdf, hc],
          ⟨hg.active, hg.bucket⟩, sessionInv_congr g _ s rfl rfl inv, rfl, rfl, fun _ => rfl⟩
      | false =>
        exact ⟨(g, s), by simp [step, drawToSidePane, hsdf, hc], hg, inv, rfl, rfl,
          fun h => absurd h (by simp)⟩
  | toolDeselect => exact ⟨_, rfl, hg, reset_inv g s, rfl, rfl, fun h => h⟩
  | newGeometryLoaded => exact ⟨_, rfl, hg, reset_inv g s, rfl, rfl, fun h => h⟩

theorem run_inv (events : List Event) (gs : Geometry × State) (hg : GeometryOK gs.1)
    (inv : SessionInv gs.1 gs.2) (hev : ∀ e ∈ events, EventOK gs.1 e) :
    ∃ gs', run gs events = some gs' ∧ GeometryOK gs'.1 ∧ SessionInv gs'.1 gs'.2 ∧
      gs'.1.triangleCount = gs.1.triangleCount ∧ gs'.1.paletteSize = gs.1.paletteSize ∧
      (gs.1.sdfComputed = true → gs'.1.sdfComputed = true) := by
  induction events generalizing gs with
  | nil => exact ⟨gs, rfl, hg, inv, rfl, rfl, fun h => h⟩
  | cons e rest ih =>
    obtain ⟨gs1, h1, hg1, inv1, ht1, hp1, hs1⟩ := step_inv gs e hg inv (hev e (by simp))
    obtain ⟨gs2, h2, hg2, inv2, ht2, hp2, hs2⟩ := ih gs1 hg1 inv1
      (fun e' he' => eventOK_congr gs.1 gs1.1 e' ht1 hp1 (hev e' (List.mem_cons_of_mem _ he')))
    refine ⟨gs2, ?_, hg2, inv2, ht2.trans ht1, hp2.trans hp1, fun h => hs2 (hs1 h)⟩
    unfold run at h2 ⊢
    rw [List.foldlM_cons, h1]
    exact h2

theorem run_append (gs : Geometry × State) (events : List Event) (e : Event)
    (gs1 : Geometry × State) (h : run gs events = some gs1) :
    run gs (events ++ [e]) = step gs1 e := by
  unfold run at h ⊢
  rw [List.foldlM_append, h]
  simp

theorem scenarioGeometry_ok : GeometryOK scenarioGeometry :=
  ⟨by decide, scenarioGeometry_bucket⟩

theorem scenarioState_inv : SessionInv scenarioGeometry scenarioState where
  seeds_tri := by decide
  seeds_color := by decide
  hovered := by
    intro t ht
    have : 3 = t := Option.some.inj ht
    rw [← this]
    decide
  idle := fun h => absurd h (by decide)
  active := fun _ => ⟨rfl, by decide, by decide⟩

/-! ## Apply -/

/-- C6 (counterexample): on the scenario mesh with a palette of 4 colours the seeds `0 -> 0`,
`3 -> 1` grow to the colouring `0 -> [0, 1]`, `1 -> [3, 2]`, `2 -> []`, `3 -> []`, and Apply
executes four commands, two of them with an empty triangle list. -/
theorem apply_submits_empty_commands :
    (run (scenarioGeometry, State.initial) (seedEvents ++ [spreadFrame])).map
        (fun r => r.2.mCurrentColoring) =
      some [(0, [0, 1]), (1, [3, 2]), (2, []), (3, [])] ∧
    (run (scenarioGeometry, State.initial) (seedEvents ++ [spreadFrame, applyFrame])).map
        (fun r => r.2.executed) =
      some [⟨[0, 1], 0, false⟩, ⟨[3, 2], 1, false⟩, ⟨[], 2, false⟩, ⟨[], 3, false⟩] := by
  constructor <;> decide!

/-- C6 (amended): in a session (SDF values computed, seed registry not empty) a frame in which
Apply is pressed returns, and the commands it hands to the command manager are exactly one
`CmdPaintSingleColor` per entry of the current colouring, in iteration order, with the colour
and the triangle list of the entry and `groupWithPrevious = false`, whether the list is empty or
not; the current colouring is `mCurrentColoring` after the re-fill of that frame, which is the
stored colouring when the spread did not change. -/
theorem apply_submits_every_entry (g : Geometry) (s : State) (ui : SidePaneInput)
    (hsdf : g.sdfComputed = true) (hg : GeometryOK g) (inv : SessionInv g s)
    (hpick : ∀ c, ui.pickedColor = some c → c < g.paletteSize)
    (hseeds : s.mStartingTriangles ≠ []) (happly : ui.apply = true) :
    ∃ s2 s', refill (drawColorPalette g ui.pickedColor) s ui.spread = some s2 ∧
      drawToSidePane g s ui = some (drawColorPalette g ui.pickedColor, s') ∧
      s'.executed = s.executed ++
        s2.mCurrentColoring.map (fun toPaint => ⟨toPaint.2, toPaint.1, false⟩) ∧
      (s'.executed.length = s.executed.length + s2.mCurrentColoring.length) ∧
      (s.mBucketSpread = s.mBucketSpreadLatest → ui.spread = none →
        s2.mCurrentColoring = s.mCurrentColoring) := by
  obtain ⟨s2, s', hs2, hdraw, -, hcol, hex, -⟩ := drawToSidePane_spec g s ui hsdf hg inv hpick
  have h := hex hseeds happly
  refine ⟨s2, s', hs2, hdraw, h, ?_, hcol⟩
  rw [h]
  simp [applyCommands]

/-- The Apply theorem at the scenario session. -/
theorem apply_submits_every_entry_witness :
    ∃ s2 s', refill (drawColorPalette scenarioGeometry none) scenarioState none = some s2 ∧
      drawToSidePane scenarioGeometry scenarioState { SidePaneInput.idle with apply := true } =
        some (drawColorPalette scenarioGeometry none, s') ∧
      s'.executed = scenarioState.executed ++
        s2.mCurrentColoring.map (fun toPaint => ⟨toPaint.2, toPaint.1, false⟩) ∧
      (s'.executed.length = scenarioState.executed.length + s2.mCurrentColoring.length) ∧
      (scenarioState.mBucketSpread = scenarioState.mBucketSpreadLatest →
        (none : Option ℚ) = none → s2.mCurrentColoring = scenarioState.mCurrentColoring) :=
  apply_submits_every_entry scenarioGeometry scenarioState
    { SidePaneInput.idle with apply := true } rfl scenarioGeometry_ok scenarioState_inv
    (fun c h => absurd h (by simp [SidePaneInput.idle])) (by decide) rfl

/-- C7 (evaluation of the code): after `staleEvents` the seed registry is `0 -> 0`, `3 -> 1`
and both spread values are 0, but `mCurrentColoring` is still the colouring grown from the seed
`0 -> 0` alone; `spreadColors` on this state would give the colour 1 the triangles 3 and 2, yet
Apply commits the stored colouring, in which the colour 1 has no triangle.  After
`cancelledEvents` the only seed is `3 -> 1`, and Apply commits the colouring of the cancelled
session, which paints the triangles 0 and 1 with the colour 0. -/
theorem apply_commits_stale_coloring :
    (run (scenarioGeometry, State.initial) staleEvents).map
        (fun r => r.2.mStartingTriangles) = some [(0, 0), (3, 1)] ∧
    (run (scenarioGeometry, State.initial) staleEvents).map
        (fun r => [r.2.mBucketSpread, r.2.mBucketSpreadLatest]) = some [0, 0] ∧
    (run (scenarioGeometry, State.initial) staleEvents).map
        (fun r => r.2.mCurrentColoring) = some [(0, [0, 1]), (1, []), (2, []), (3, [])] ∧
    ((run (scenarioGeometry, State.initial) staleEvents).bind
        (fun r => spreadColors r.1 r.2)).map (fun s => s.mCurrentColoring) =
      some [(0, [0, 1]), (1, [3, 2]), (2, []), (3, [])] ∧
    (run (scenarioGeometry, State.initial) (staleEvents ++ [applyFrame])).map
        (fun r => r.2.executed) =
      some [⟨[0, 1], 0, false⟩, ⟨[], 1, false⟩, ⟨[], 2, false⟩, ⟨[], 3, false⟩] ∧
    (run (scenarioGeometry, State.initial) cancelledEvents).map
        (fun r => r.2.mStartingTriangles) = some [(3, 1)] ∧
    (run (scenarioGeometry, State.initial) cancelledEvents).map
        (fun r => r.2.mCurrentColoring) = some [(0, [0, 1]), (1, []), (2, []), (3, [])] ∧
    (run (scenarioGeometry, State.initial) (cancelledEvents ++ [applyFrame])).map
        (fun r => r.2.executed) =
      some [⟨[0, 1], 0, false⟩, ⟨[], 1, false⟩, ⟨[], 2, false⟩, ⟨[], 3, false⟩] := by
  refine ⟨?_, ?_, ?_, ?_, ?_, ?_, ?_, ?_⟩ <;> decide!

/-! ## Cancel -/

/-- C8 (counterexample): the first seed makes `setupOverride` capture a buffer of 12 entries;
after a spread change and Cancel the override buffer is empty, not the captured buffer. -/
theorem cancel_empties_override_buffer :
    (run (scenarioGeometry, State.initial) [.mouseMove (some 0), .mouseDown true]).map
        (fun r => r.2.overrideColorBuffer.length) = some 12 ∧
    (run (scenarioGeometry, State.initial)
        [.mouseMove (some 0), .mouseDown true, spreadFrame, cancelFrame]).map
        (fun r => r.2.overrideColorBuffer) = some [] := by
  constructor <;> decide!

/-- C8 (amended): from the reset state, after every sequence of events of the mesh (seed
placements, spread changes and the others) on a geometry with computed SDF values, a frame in
which Cancel is pressed returns, and afterwards the seed registry is empty, the backup buffer and
the override buffer are empty and override mode is off. -/
theorem cancel_clears_session (g : Geometry) (events : List Event) (ui : SidePaneInput)
    (hsdf : g.sdfComputed = true) (hg : GeometryOK g)
    (hev : ∀ e ∈ events, EventOK g e)
    (hpick : ∀ c, ui.pickedColor = some c → c < g.paletteSize)
    (hcancel : ui.cancel = true) :
    ∃ gs', run (g, State.initial) (events ++ [.sidePane ui]) = some gs' ∧
      gs'.2.mStartingTriangles = [] ∧ gs'.2.mBackupColorBuffer = [] ∧
      gs'.2.overrideColorBuffer = [] ∧ gs'.2.colorOverride = false := by
  obtain ⟨gs1, hrun, hg1, inv1, ht1, hp1, hs1⟩ :=
    run_inv events (g, State.initial) hg (initial_inv g) hev
  obtain ⟨s2, s', -, hdraw, -, -, -, hclear⟩ := drawToSidePane_spec gs1.1 gs1.2 ui (hs1 hsdf)
    hg1 inv1 (fun c hc => by rw [hp1]; exact hpick c hc)
  refine ⟨(drawColorPalette gs1.1 ui.pickedColor, s'), ?_, hclear hcancel⟩
  rw [run_append _ _ _ gs1 hrun]
  exact hdraw

/-- The Cancel theorem at the scenario: two seeds, a spread change, Cancel. -/
theorem cancel_clears_session_witness :
    ∃ gs', run (scenarioGeometry, State.initial)
        ((seedEvents ++ [spreadFrame]) ++
          [.sidePane { SidePaneInput.idle with cancel := true }]) = some gs' ∧
      gs'.2.mStartingTriangles = [] ∧ gs'.2.mBackupColorBuffer = [] ∧
      gs'.2.overrideColorBuffer = [] ∧ gs'.2.colorOverride = false :=
  cancel_clears_session scenarioGeometry (seedEvents ++ [spreadFrame])
    { SidePaneInput.idle with cancel := true } rfl scenarioGeometry_ok
    (by
      intro e he
      simp only [seedEvents, spreadFrame, List.cons_append, List.nil_append, List.mem_cons,
        List.mem_singleton, List.not_mem_nil, or_false] at he
      rcases he with rfl | rfl | rfl | rfl | rfl | rfl <;>
        simp [EventOK, SidePaneInput.idle, scenarioGeometry])
    (fun c h => absurd h (by simp [SidePaneInput.idle])) rfl

/-! ## The nearest-value search on a sorted vector -/

theorem sorted_getD_mono (values : List ℚ) (hs : values.Sorted (· ≤ ·)) (i j : Nat)
    (hij : i ≤ j) (hj : j < values.length) : values.getD i 0 ≤ values.getD j 0 := by
  have hi : i < values.length := lt_of_le_of_lt hij hj
  rw [List.getD_eq_getElem _ _ hi, List.getD_eq_getElem _ _ hj]
  exact hs.rel_get_of_le (a := ⟨i, hi⟩) (b := ⟨j, hj⟩) hij

theorem lowerBoundLoop_spec (values : List ℚ) (target : ℚ) (hs : values.Sorted (· ≤ ·))
    (fuel first len : Nat) (hfuel : len ≤ fuel) (hlen : first + len ≤ values.length)
    (hlow : ∀ i, i < first → values.getD i 0 < target)
    (hhigh : ∀ i, first + len ≤ i → i < values.length → target ≤ values.getD i 0) :
    lowerBoundLoop values target fuel first len ≤ values.length ∧
      (∀ i, i < lowerBoundLoop values target fuel first len → values.getD i 0 < target) ∧
      (∀ i, lowerBoundLoop values target fuel first len ≤ i → i < values.length →
        target ≤ values.getD i 0) := by
  induction fuel generalizing first len with
  | zero =>
    have h0 : len = 0 := by omega
    subst h0
    exact ⟨by simpa [lowerBoundLoop] using hlen, by simpa [lowerBoundLoop] using hlow,
      by simpa [lowerBoundLoop] using hhigh⟩
  | succ fuel ih =>
    unfold lowerBoundLoop
    by_cases h0 : len = 0
    · subst h0
      simp only [if_true]
      exact ⟨by omega, hlow, by simpa using hhigh⟩
    · simp only [h0, if_false]
      have hhalf : len / 2 < len := Nat.div_lt_self (Nat.pos_of_ne_zero h0) (by decide)
      have hmid : first + len / 2 < values.length := by omega
      by_cases hlt : values.getD (first + len / 2) 0 < target
      · rw [if_pos hlt]
        apply ih (first + len / 2 + 1) (len - len / 2 - 1) (by omega) (by omega)
        · intro i hi
          exact lt_of_le_of_lt
            (sorted_getD_mono values hs i (first + len / 2) (by omega) hmid) hlt
        · intro i hi hi'
          exact hhigh i (by omega) hi'
      · rw [if_neg hlt]
        apply ih first (len / 2) (by omega) (by omega) hlow
        intro i hi hi'
        exact le_trans (not_lt.1 hlt) (sorted_getD_mono values hs (first + len / 2) i hi hi')

theorem lowerBound_spec (values : List ℚ) (target : ℚ) (hs : values.Sorted (· ≤ ·)) :
    lowerBound values target ≤ values.length ∧
      (∀ i, i < lowerBound values target → values.getD i 0 < target) ∧
      (∀ i, lowerBound values target ≤ i → i < values.length → target ≤ values.getD i 0) := by
  unfold lowerBound
  exact lowerBoundLoop_spec values target hs values.length 0 values.length (le_refl _)
    (by simp) (fun i hi => absurd hi (by simp)) (fun i hi hi' => absurd hi' (by omega))

theorem mem_getD (values : List ℚ) (i : Nat) (hi : i < values.length) :
    values.getD i 0 ∈ values := by
  rw [List.getD_eq_getElem _ _ hi]
  exact List.getElem_mem _

theorem exists_getD_of_mem (values : List ℚ) (w : ℚ) (hw : w ∈ values) :
    ∃ j, j < values.length ∧ values.getD j 0 = w := by
  obtain ⟨j, hj, hjw⟩ := List.getElem_of_mem hw
  exact ⟨j, hj, by rw [List.getD_eq_getElem _ _ hj]; exact hjw⟩

theorem getLastD_eq_getD (values : List ℚ) (hne : values ≠ []) :
    values.getLastD 0 = values.getD (values.length - 1) 0 := by
  have hpos : 0 < values.length := List.length_pos.2 hne
  rw [List.getD_eq_getElem _ _ (by omega), List.getLastD_eq_getLast?, List.getLast?_eq_getElem?,
    List.getElem?_eq_getElem (by omega)]
  rfl

/-- What `findClosestSDFValue` computes in terms of the index that `lowerBound` returns. -/
theorem findClosestSDFValue_eq (target : ℚ) (values : List ℚ) (hne : values ≠ []) :
    findClosestSDFValue target values = some (
      if lowerBound values target = values.length then values.getLastD 0
      else if values.getD (lowerBound values target) 0 = values.getD 0 0 then
        values.getD (lowerBound values target) 0
      else if |roundDouble (target - values.getD (lowerBound values target) 0)| <
          |roundDouble (target - values.getD (lowerBound values target - 1) 0)| then
        values.getD (lowerBound values target) 0
      else values.getD (lowerBound values target - 1) 0) := by
  cases values with
  | nil => exact absurd rfl hne
  | cons front rest =>
    simp only [findClosestSDFValue]
    have hfront : (front :: rest).getD 0 0 = front := rfl
    rw [hfront]
    by_cases h1 : lowerBound (front :: rest) target = (front :: rest).length
    · simp only [h1, if_true]
      split_ifs <;> rfl
    · simp only [h1, if_false]
      by_cases h2 : (front :: rest).getD (lowerBound (front :: rest) target) 0 = front
      · simp only [h2, if_true]
        split_ifs <;> rfl
      · simp only [h2, if_false]
        split_ifs <;> rfl

/-- On a non-empty vector sorted in ascending order `findClosestSDFValue` returns an element whose
computed distance to the target is the least one. -/
theorem findClosestSDFValue_least (target : ℚ) (values : List ℚ) (hne : values ≠ [])
    (hs : values.Sorted (· ≤ ·)) :
    ∃ v, findClosestSDFValue target values = some v ∧ v ∈ values ∧
      ∀ w ∈ values, |roundDouble (target - v)| ≤ |roundDouble (target - w)| := by
  obtain ⟨hr, hlow, hhigh⟩ := lowerBound_spec values target hs
  have hpos : 0 < values.length := List.length_pos.2 hne
  refine ⟨_, findClosestSDFValue_eq target values hne, ?_, ?_⟩
  · -- membership
    split_ifs with h1 h2 h3
    · rw [getLastD_eq_getD values hne]
      exact mem_getD values _ (by omega)
    · exact mem_getD values _ (by omega)
    · exact mem_getD values _ (by omega)
    · exact mem_getD values _ (by omega)
  · -- least computed distance
    intro w hw
    obtain ⟨j, hj, rfl⟩ := exists_getD_of_mem values w hw
    split_ifs with h1 h2 h3
    · -- every sample is below the target
      rw [getLastD_eq_getD values hne]
      have hlast := hlow (values.length - 1) (by omega)
      have hmono := sorted_getD_mono values hs j (values.length - 1) (by omega) (by omega)
      exact computedDistance_below target _ _ hmono hlast.le
    · -- the lower bound is the front value
      have hge := hhigh (lowerBound values target) (le_refl _) (by omega)
      have hfront := sorted_getD_mono values hs 0 j (Nat.zero_le _) hj
      rw [h2] at hge ⊢
      exact computedDistance_above target _ _ hge hfront
    · -- the lower bound is strictly closer than its predecessor
      have hr0 : 0 < lowerBound values target := by
        rcases Nat.eq_zero_or_pos (lowerBound values target) with h | h
        · rw [h] at h2; exact absurd rfl h2
        · exact h
      have hge := hhigh (lowerBound values target) (le_refl _) (by omega)
      have hprev := hlow (lowerBound values target - 1) (by omega)
      by_cases hjr : lowerBound values target ≤ j
      · have hmono := sorted_getD_mono values hs (lowerBound values target) j hjr hj
        exact computedDistance_above target _ _ hge hmono
      · have hmono := sorted_getD_mono values hs j (lowerBound values target - 1)
          (by omega) (by omega)
        exact le_trans h3.le (computedDistance_below target _ _ hmono hprev.le)
    · -- the predecessor is at least as close
      have hr0 : 0 < lowerBound values target := by
        rcases Nat.eq_zero_or_pos (lowerBound values target) with h | h
        · rw [h] at h2; exact absurd rfl h2
        · exact h
      have hge := hhigh (lowerBound values target) (le_refl _) (by omega)
      have hprev := hlow (lowerBound values target - 1) (by omega)
      by_cases hjr : lowerBound values target ≤ j
      · have hmono := sorted_getD_mono values hs (lowerBound values target) j hjr hj
        exact le_trans (not_lt.1 h3) (computedDistance_above target _ _ hge hmono)
      · have hmono := sorted_getD_mono values hs j (lowerBound values target - 1)
          (by omega) (by omega)
        exact computedDistance_below target _ _ hmono hprev.le

/-- On a sorted vector the two candidates of `findClosestSDFValue` are the smallest sample
`>= target` and the sample before it; the first wins only if its computed distance is strictly
smaller. -/
theorem findClosestSDFValue_candidates (target : ℚ) (values : List ℚ) (hne : values ≠ [])
    (hs : values.Sorted (· ≤ ·)) (i : Nat) (hi0 : 0 < i) (hi : i < values.length)
    (hge : target ≤ values.getD i 0) (hbelow : ∀ j, j < i → values.getD j 0 < target) :
    findClosestSDFValue target values = some (
      if |roundDouble (target - values.getD i 0)| <
          |roundDouble (target - values.getD (i - 1) 0)| then values.getD i 0
      else values.getD (i - 1) 0) := by
  obtain ⟨hr, hlow, hhigh⟩ := lowerBound_spec values target hs
  have hri : lowerBound values target = i := by
    rcases Nat.lt_trichotomy (lowerBound values target) i with h | h | h
    · exact absurd (hhigh _ (le_refl _) (by omega)) (not_le.2 (hbelow _ h))
    · exact h
    · exact absurd hge (not_le.2 (hlow i h))
  have h2 : ¬ values.getD i 0 = values.getD 0 0 := by
    intro e
    have := hbelow 0 hi0
    rw [← e] at this
    exact absurd hge (not_le.2 this)
  rw [findClosestSDFValue_eq target values hne, hri, if_neg (by omega), if_neg h2]

/-- On a sorted vector without a sample `>= target`, `findClosestSDFValue` returns the last
sample. -/
theorem findClosestSDFValue_last (target : ℚ) (values : List ℚ) (hne : values ≠ [])
    (hs : values.Sorted (· ≤ ·)) (hall : ∀ w ∈ values, w < target) :
    findClosestSDFValue target values = some (values.getLastD 0) := by
  obtain ⟨hr, hlow, hhigh⟩ := lowerBound_spec values target hs
  have hrl : lowerBound values target = values.length := by
    by_contra hne'
    have hlt : lowerBound values target < values.length := by omega
    have := hhigh _ (le_refl _) hlt
    exact absurd this (not_le.2 (hall _ (mem_getD values _ hlt)))
  rw [findClosestSDFValue_eq target values hne, if_pos hrl]

/-- The double nearest to `0.4`, `0.1`, `0.3` and `0.5`: the literals are not equally spaced as
doubles, the search returns `0.5`. -/
theorem findClosestSDFValue_literals :
    findClosestSDFValue (roundDouble (4 / 10))
      [roundDouble (1 / 10), roundDouble (3 / 10), roundDouble (5 / 10)] = some (1 / 2) := by
  decide!

/-- C18, counterexample: the target `0.375` and the sorted samples `15 * 2 ^ -57` and
`0.75 - 2 ^ -53` are doubles; the two subtractions of `findClosestSDFValue` round to the same
double `0.375 - 2 ^ -53`, so `delta1 < delta2` is false and the search returns the first sample,
although the second sample is strictly nearer to the target. -/
theorem findClosestSDFValue_rounding :
    roundDouble (3 / 8) = 3 / 8 ∧ roundDouble (15 / 2 ^ 57) = 15 / 2 ^ 57 ∧
      roundDouble (3 / 4 - 1 / 2 ^ 53) = 3 / 4 - 1 / 2 ^ 53 ∧
      [(15 / 2 ^ 57 : ℚ), 3 / 4 - 1 / 2 ^ 53].Sorted (· ≤ ·) ∧
      roundDouble (3 / 8 - 15 / 2 ^ 57) = 3 / 8 - 1 / 2 ^ 53 ∧
      roundDouble (3 / 8 - (3 / 4 - 1 / 2 ^ 53)) = -(3 / 8 - 1 / 2 ^ 53) ∧
      findClosestSDFValue (3 / 8) [15 / 2 ^ 57, 3 / 4 - 1 / 2 ^ 53] = some (15 / 2 ^ 57) ∧
      ¬ (∀ w ∈ [(15 / 2 ^ 57 : ℚ), 3 / 4 - 1 / 2 ^ 53],
        |(3 / 8 : ℚ) - 15 / 2 ^ 57| ≤ |3 / 8 - w|) := by
  refine ⟨by decide!, by decide!, by decide!, ?_, by decide!, by decide!, by decide!, ?_⟩
  · simp only [List.sorted_cons, List.mem_singleton, forall_eq, List.not_mem_nil,
      false_implies, implies_true, List.sorted_nil, and_true]
    norm_num
  · intro h
    have := h (3 / 4 - 1 / 2 ^ 53) (by simp)
    revert this
    decide!

/-- C18, amended: on a non-empty vector sorted in ascending order `findClosestSDFValue` returns
an element `v` of the vector whose distance to the target as computed in `double` arithmetic,
`|fl (target - v)|`, is at most that of every element `w`; so `v` is as near to the target as
every `w` up to the rounding of one subtraction.  If the computed distances of the smallest
sample `>= target` (at index `i > 0`) and of the sample before it are equal, it returns the
sample before it; and if every sample is `< target` it returns the last sample. -/
theorem findClosestSDFValue_sorted (target : ℚ) (values : List ℚ) (hne : values ≠ [])
    (hs : values.Sorted (· ≤ ·)) :
    ∃ v, findClosestSDFValue target values = some v ∧ v ∈ values ∧
      (∀ w ∈ values, |roundDouble (target - v)| ≤ |roundDouble (target - w)|) ∧
      (∀ w ∈ values,
        (1 - 1 / 2 ^ (53 : ℕ)) * |target - v| ≤ (1 + 1 / 2 ^ (53 : ℕ)) * |target - w|) ∧
      (∀ i, 0 < i → i < values.length → target ≤ values.getD i 0 →
        (∀ j, j < i → values.getD j 0 < target) →
        |roundDouble (target - values.getD i 0)| =
          |roundDouble (target - values.getD (i - 1) 0)| →
        v = values.getD (i - 1) 0) ∧
      ((∀ w ∈ values, w < target) → v = values.getLastD 0) := by
  obtain ⟨v, hv, hmem, hleast⟩ := findClosestSDFValue_least target values hne hs
  refine ⟨v, hv, hmem, hleast, ?_, ?_, ?_⟩
  · intro w hw
    exact le_trans (abs_roundDouble_bounds (target - v)).1
      (le_trans (hleast w hw) (abs_roundDouble_bounds (target - w)).2)
  · intro i hi0 hi hge hbelow htie
    have h := findClosestSDFValue_candidates target values hne hs i hi0 hi hge hbelow
    rw [if_neg (by rw [htie]; exact lt_irrefl _), hv] at h
    exact Option.some.inj h
  · intro hall
    have h := findClosestSDFValue_last target values hne hs hall
    rw [hv] at h
    exact Option.some.inj h

/-- The sorted-search theorem at the samples 0.125, 0.25, 0.75 and the target 0.5, whose computed
distances to 0.25 and to 0.75 are equal. -/
theorem findClosestSDFValue_sorted_witness :
    findClosestSDFValue (1 / 2) [1 / 8, 1 / 4, 3 / 4] = some (1 / 4) ∧
    ∃ v, findClosestSDFValue (1 / 2) [1 / 8, 1 / 4, 3 / 4] = some v ∧
      v ∈ [(1 / 8 : ℚ), 1 / 4, 3 / 4] ∧
      (∀ w ∈ [(1 / 8 : ℚ), 1 / 4, 3 / 4],
        |roundDouble (1 / 2 - v)| ≤ |roundDouble (1 / 2 - w)|) ∧
      (∀ w ∈ [(1 / 8 : ℚ), 1 / 4, 3 / 4],
        (1 - 1 / 2 ^ (53 : ℕ)) * |1 / 2 - v| ≤ (1 + 1 / 2 ^ (53 : ℕ)) * |1 / 2 - w|) ∧
      (∀ i, 0 < i → i < [(1 / 8 : ℚ), 1 / 4, 3 / 4].length →
        1 / 2 ≤ [(1 / 8 : ℚ), 1 / 4, 3 / 4].getD i 0 →
        (∀ j, j < i → [(1 / 8 : ℚ), 1 / 4, 3 / 4].getD j 0 < 1 / 2) →
        |roundDouble (1 / 2 - [(1 / 8 : ℚ), 1 / 4, 3 / 4].getD i 0)| =
          |roundDouble (1 / 2 - [(1 / 8 : ℚ), 1 / 4, 3 / 4].getD (i - 1) 0)| →
        v = [(1 / 8 : ℚ), 1 / 4, 3 / 4].getD (i - 1) 0) ∧
      ((∀ w ∈ [(1 / 8 : ℚ), 1 / 4, 3 / 4], w < 1 / 2) →
        v = [(1 / 8 : ℚ), 1 / 4, 3 / 4].getLastD 0) :=
  ⟨by decide!, findClosestSDFValue_sorted (1 / 2) [1 / 8, 1 / 4, 3 / 4] (by simp)
    (by
      simp only [List.sorted_cons, List.mem_cons, List.mem_singleton, forall_eq_or_imp,
        forall_eq, List.not_mem_nil, false_implies, implies_true, List.sorted_nil, and_true]
      norm_num)⟩

/-! ## Only claimed triangles are given -/

theorem claims_modify_append (init : UMap (List Nat)) (c0 t0 c t : Nat)
    (h : Claims (UMap.modify init c0 (fun tris => tris ++ [t0])) c t) :
    Claims init c t ∨ (c = c0 ∧ t = t0) := by
  obtain ⟨ts, hmem, ht⟩ := h
  simp only [UMap.modify, List.mem_map] at hmem
  obtain ⟨q, hq, heq⟩ := hmem
  by_cases hk : q.1 = c0
  · rw [if_pos hk] at heq
    injection heq with h1 h2
    subst h2
    rcases List.mem_append.1 ht with h' | h'
    · exact Or.inl ⟨q.2, by rw [← h1]; exact hq, h'⟩
    · right
      simp only [List.mem_singleton] at h'
      exact ⟨h1.symm.trans hk, h'⟩
  · rw [if_neg hk] at heq
    subst heq
    exact Or.inl ⟨_, hq, ht⟩

theorem collect_sound (source : UMap Nat) (init final : UMap (List Nat))
    (h : source.foldlM collectStep init = some final) (c t : Nat) (hc : Claims final c t) :
    Claims init c t ∨ (t, c) ∈ source := by
  induction source generalizing init with
  | nil =>
    simp only [List.foldlM_nil] at h
    injection h with h
    subst h
    exact Or.inl hc
  | cons p rest ih =>
    rw [List.foldlM_cons] at h
    cases hstep : collectStep init p with
    | none => rw [hstep] at h; simp at h
    | some r =>
      rw [hstep] at h
      have hr : r = UMap.modify init p.2 (fun tris => tris ++ [p.1]) := by
        unfold collectStep at hstep
        cases hf : UMap.find init p.2 with
        | none => rw [hf] at hstep; simp at hstep
        | some _ =>
          rw [hf] at hstep
          injection hstep with hstep
          exact hstep.symm
      rcases ih r h with h1 | h1
      · rw [hr] at h1
        rcases claims_modify_append init p.2 p.1 c t h1 with h2 | ⟨h2, h3⟩
        · exact Or.inl h2
        · right
          rw [h2, h3]
          simp
      · exact Or.inr (List.mem_cons_of_mem _ h1)

/-- C19: when every claiming colour has samples in the lookup, every colouring that
`postprocess` returns gives a colour only triangles of its own raw claim; and `postprocess` does
return a colouring when the claiming colours are palette ids. -/
theorem postprocess_subset (g : Geometry) (lk : UMap (List ℚ)) (raw : UMap (List Nat))
    (h : ∀ c t, Claims raw c t → HasSamples lk c) :
    (∀ final, postprocess g lk raw = some final → ∀ c t, Claims final c t → Claims raw c t) ∧
    ((∀ c t, Claims raw c t → c < g.paletteSize) →
      ∃ final, postprocess g lk raw = some final) := by
  constructor
  · intro final hpost c t hc
    obtain ⟨m, hm, inv⟩ := resolve_inv g lk (pairsOf raw)
      (fun p hp => h p.1 p.2 ((mem_pairsOf raw p.1 p.2).1 hp))
    simp only [postprocess, resolveConflicts_eq, hm] at hpost
    rcases collect_sound m _ final hpost c t hc with h1 | h1
    · obtain ⟨ts, hmem, ht⟩ := h1
      simp only [List.mem_map, List.mem_range, Prod.mk.injEq] at hmem
      obtain ⟨i, -, -, rfl⟩ := hmem
      simp at ht
    · exact (mem_pairsOf raw c t).1
        (inv.owner_claims t c (UMap.mem_find_of_nodup m t c inv.nodup h1))
  · intro hpal
    obtain ⟨m, final, -, hpost, -⟩ := postprocess_owner g lk raw
      (fun c t hc => ⟨hpal c t hc, h c t hc⟩)
    exact ⟨final, hpost⟩

/-- The subset theorem at the conflict scenario. -/
theorem postprocess_subset_witness :
    (∀ final, postprocess scenarioGeometry scenarioSamples scenarioClaims = some final →
      ∀ c t, Claims final c t → Claims scenarioClaims c t) ∧
    ((∀ c t, Claims scenarioClaims c t → c < scenarioGeometry.paletteSize) →
      ∃ final, postprocess scenarioGeometry scenarioSamples scenarioClaims = some final) :=
  postprocess_subset scenarioGeometry scenarioSamples scenarioClaims
    (fun c t hc => (scenario_hyp c t hc).2)

/-! ## Placing a seed -/

theorem setTriangleColor_seeds (g : Geometry) (s : State) (t : Nat)
    (hh : s.mHoveredTriangleId = some t)
    (hbuf : s.colorOverride = true → t < g.triangleCount ∧
      s.mBackupColorBuffer.length = 3 * g.triangleCount ∧
      s.overrideColorBuffer.length = 3 * g.triangleCount) :
    ∃ s', setTriangleColor g s = some s' ∧
      s'.mStartingTriangles =
        (if UMap.find s.mStartingTriangles t = some g.activeColorIndex then s.mStartingTriangles
        else
          match UMap.find s.mStartingTriangles t with
          | none => UMap.insert s.mStartingTriangles t g.activeColorIndex
          | some _ => UMap.modify s.mStartingTriangles t (fun _ => g.activeColorIndex)) := by
  unfold setTriangleColor
  simp only [hh]
  by_cases hsame : UMap.find s.mStartingTriangles t = some g.activeColorIndex
  · simp only [hsame, if_true]
    exact ⟨s, rfl, rfl⟩
  · simp only [hsame, if_false]
    rcases Bool.eq_false_or_eq_true s.colorOverride with hov | hov
    · obtain ⟨ht, hlen, hlen'⟩ := hbuf hov
      obtain ⟨b1, hb1, -⟩ := paintTriangle_spec s.overrideColorBuffer t
        (g.getColor g.activeColorIndex) g.triangleCount hlen' ht
      obtain ⟨b2, hb2, -⟩ := paintTriangle_spec s.mBackupColorBuffer t
        (g.getColor g.activeColorIndex) g.triangleCount hlen ht
      simp only [hov, if_true, hb1, hb2]
      exact ⟨_, rfl, rfl⟩
    · simp only [hov, Bool.false_eq_true, if_false]
      exact ⟨_, rfl, rfl⟩

theorem UMap.length_modify {V : Type} (m : UMap V) (k : Nat) (f : V → V) :
    (UMap.modify m k f).length = m.length := by
  simp [UMap.modify]

/-- C11: when a triangle `t` is hovered (and, in override mode, `t` is a triangle of the mesh
whose buffers have three entries per triangle), `setTriangleColor` returns; afterwards the
registry maps `t` to the active colour, the seed of every other triangle is unchanged, the number
of entries grows by one if `t` had no seed and stays the same if it had one, and the keys stay
pairwise distinct. -/
theorem setTriangleColor_registry (g : Geometry) (s : State) (t : Nat)
    (hh : s.mHoveredTriangleId = some t)
    (hbuf : s.colorOverride = true → t < g.triangleCount ∧
      s.mBackupColorBuffer.length = 3 * g.triangleCount ∧
      s.overrideColorBuffer.length = 3 * g.triangleCount) :
    ∃ s', setTriangleColor g s = some s' ∧
      UMap.find s'.mStartingTriangles t = some g.activeColorIndex ∧
      (∀ t', t' ≠ t → UMap.find s'.mStartingTriangles t' = UMap.find s.mStartingTriangles t') ∧
      (UMap.find s.mStartingTriangles t = none →
        s'.mStartingTriangles.length = s.mStartingTriangles.length + 1) ∧
      (∀ c0, UMap.find s.mStartingTriangles t = some c0 →
        s'.mStartingTriangles.length = s.mStartingTriangles.length) ∧
      ((s.mStartingTriangles.map Prod.fst).Nodup →
        (s'.mStartingTriangles.map Prod.fst).Nodup) := by
  obtain ⟨s', hs', hseeds⟩ := setTriangleColor_seeds g s t hh hbuf
  refine ⟨s', hs', ?_⟩
  rw [hseeds]
  by_cases hsame : UMap.find s.mStartingTriangles t = some g.activeColorIndex
  · rw [if_pos hsame]
    exact ⟨hsame, fun _ _ => rfl, fun h => absurd (hsame.symm.trans h) (by simp),
      fun _ _ => rfl, fun h => h⟩
  · rw [if_neg hsame]
    cases hf : UMap.find s.mStartingTriangles t with
    | none =>
      simp only []
      refine ⟨?_, ?_, ?_, ?_, ?_⟩
      · rw [UMap.find_insert_of_none _ _ _ _ hf, if_pos rfl]
      · intro t' ht'
        rw [UMap.find_insert_of_none _ _ _ _ hf, if_neg (fun e => ht' e.symm)]
      · intro _
        simp [UMap.insert, hf]
      · intro c0 h0
        exact absurd h0 (by simp)
      · exact UMap.keys_insert_nodup _ _ _
    | some c1 =>
      simp only []
      refine ⟨?_, ?_, ?_, ?_, ?_⟩
      · rw [UMap.find_modify, if_pos rfl, hf]
        rfl
      · intro t' ht'
        rw [UMap.find_modify, if_neg ht']
      · intro h0
        exact absurd h0 (by simp)
      · intro _ _
        exact UMap.length_modify _ _ _
      · intro hnd
        rw [UMap.keys_modify]
        exact hnd

/-- The registry theorem at the scenario session: the triangle 3 is hovered and re-seeded with
the colour 0. -/
theorem setTriangleColor_registry_witness :
    ∃ s', setTriangleColor scenarioGeometry scenarioState = some s' ∧
      UMap.find s'.mStartingTriangles 3 = some scenarioGeometry.activeColorIndex ∧
      (∀ t', t' ≠ 3 →
        UMap.find s'.mStartingTriangles t' = UMap.find scenarioState.mStartingTriangles t') ∧
      (UMap.find scenarioState.mStartingTriangles 3 = none →
        s'.mStartingTriangles.length = scenarioState.mStartingTriangles.length + 1) ∧
      (∀ c0, UMap.find scenarioState.mStartingTriangles 3 = some c0 →
        s'.mStartingTriangles.length = scenarioState.mStartingTriangles.length) ∧
      ((scenarioState.mStartingTriangles.map Prod.fst).Nodup →
        (s'.mStartingTriangles.map Prod.fst).Nodup) :=
  setTriangleColor_registry scenarioGeometry scenarioState 3 rfl
    (fun _ => ⟨by decide, by decide, by decide⟩)

/-! ## A further seed discards the preview -/

/-- C12: a left mouse-down on a hovered triangle while the seed registry is not empty (in
override mode the triangle is a triangle of the mesh and the buffers have three entries per
triangle) returns, and afterwards the override buffer equals the backup buffer and both spread
values are 0. -/
theorem mouseDown_restores_preview (g : Geometry) (s : State) (t : Nat)
    (hh : s.mHoveredTriangleId = some t) (hseeds : s.mStartingTriangles ≠ [])
    (hbuf : s.colorOverride = true → t < g.triangleCount ∧
      s.mBackupColorBuffer.length = 3 * g.triangleCount ∧
      s.overrideColorBuffer.length = 3 * g.triangleCount) :
    ∃ s', onModelViewMouseDown (some g) s true = some s' ∧
      s'.overrideColorBuffer = s'.mBackupColorBuffer ∧
      s'.mBucketSpread = 0 ∧ s'.mBucketSpreadLatest = 0 := by
  obtain ⟨s1, hs1, -⟩ := setTriangleColor_seeds g s t hh hbuf
  have hempty : s.mStartingTriangles.isEmpty = false := by
    cases hs : s.mStartingTriangles with
    | nil => exact absurd hs hseeds
    | cons _ _ => rfl
  refine ⟨{ s1 with
    overrideColorBuffer := s1.mBackupColorBuffer
    mBucketSpread := 0
    mBucketSpreadLatest := 0 }, ?_, rfl, rfl, rfl⟩
  unfold onModelViewMouseDown
  simp [hh, hs1, hempty]

/-- The mouse-down theorem at the scenario session, whose override buffer shows a preview. -/
theorem mouseDown_restores_preview_witness :
    ∃ s', onModelViewMouseDown (some scenarioGeometry) scenarioState true = some s' ∧
      s'.overrideColorBuffer = s'.mBackupColorBuffer ∧
      s'.mBucketSpread = 0 ∧ s'.mBucketSpreadLatest = 0 :=
  mouseDown_restores_preview scenarioGeometry scenarioState 3 rfl (by decide)
    (fun _ => ⟨by decide, by decide, by decide⟩)

/-! ## The end of a session -/

theorem cleared_reset (s : State) : Cleared (reset s) :=
  ⟨rfl, rfl, rfl, rfl, rfl, rfl, rfl⟩

theorem drawToSidePane_buttons (g : Geometry) (s : State) (ui : SidePaneInput)
    (hsdf : g.sdfComputed = true) (hg : GeometryOK g) (inv : SessionInv g s)
    (hpick : ∀ c, ui.pickedColor = some c → c < g.paletteSize)
    (hseeds : s.mStartingTriangles ≠ []) :
    ∃ s2, refill (drawColorPalette g ui.pickedColor) s ui.spread = some s2 ∧
      drawToSidePane g s ui = some (drawColorPalette g ui.pickedColor,
        if ui.cancel then reset (if ui.apply then applyPressed s2 else s2)
        else if ui.apply then applyPressed s2 else s2) := by
  obtain ⟨hg1, ht1, hp1, -⟩ := drawColorPalette_ok g ui.pickedColor hg hpick
  obtain ⟨s2, hs2, -⟩ := refill_inv (drawColorPalette g ui.pickedColor) s ui.spread hg1
    (sessionInv_congr g _ s ht1 hp1 inv)
  have hempty : s.mStartingTriangles.isEmpty = false := by
    cases hs : s.mStartingTriangles with
    | nil => exact absurd hs hseeds
    | cons _ _ => rfl
  refine ⟨s2, hs2, ?_⟩
  unfold drawToSidePane
  simp only [hsdf, Bool.not_true, Bool.false_eq_true, if_false, hempty, hs2]

/-- C14: `onToolDeselect` and `onNewGeometryLoaded` leave, from any state, the tool cleared: no
seed, empty backup and override buffers, override mode off, no hovered triangle, both spread
values 0.  In a session (SDF values computed, registry not empty, so that the buttons are drawn)
a frame in which Apply or Cancel is pressed returns and leaves the tool cleared as well. -/
theorem session_end_clears (g : Geometry) (s : State) (ui : SidePaneInput) :
    Cleared (onToolDeselect s) ∧ Cleared (onNewGeometryLoaded s) ∧
    (g.sdfComputed = true → GeometryOK g → SessionInv g s →
      (∀ c, ui.pickedColor = some c → c < g.paletteSize) → s.mStartingTriangles ≠ [] →
      (ui.apply = true ∨ ui.cancel = true) →
      ∃ gs', drawToSidePane g s ui = some gs' ∧ Cleared gs'.2) := by
  refine ⟨cleared_reset s, cleared_reset s, ?_⟩
  intro hsdf hg inv hpick hseeds hbutton
  obtain ⟨s2, -, hdraw⟩ := drawToSidePane_buttons g s ui hsdf hg inv hpick hseeds
  refine ⟨_, hdraw, ?_⟩
  cases hc : ui.cancel with
  | true => exact cleared_reset _
  | false =>
    have ha : ui.apply = true := by
      rcases hbutton with h | h
      · exact h
      · rw [hc] at h; exact absurd h (by simp)
    simp only [ha, if_true, Bool.false_eq_true, if_false]
    exact cleared_reset _

/-- The session-end theorem at the scenario session with Apply pressed. -/
theorem session_end_clears_witness :
    Cleared (onToolDeselect scenarioState) ∧ Cleared (onNewGeometryLoaded scenarioState) ∧
    ∃ gs', drawToSidePane scenarioGeometry scenarioState
        { SidePaneInput.idle with apply := true } = some gs' ∧ Cleared gs'.2 :=
  have h := session_end_clears scenarioGeometry scenarioState
    { SidePaneInput.idle with apply := true }
  ⟨h.1, h.2.1, h.2.2 rfl scenarioGeometry_ok scenarioState_inv
    (fun c hc => absurd hc (by simp [SidePaneInput.idle])) (by decide) (Or.inl rfl)⟩

/-! ## Colours without samples -/

theorem overlapState_rawClaims :
    rawClaims overlapGeometry overlapState.mBucketSpread
      (seedsByColor overlapGeometry overlapState.mStartingTriangles) =
      [(0, [0, 1, 1, 2]), (1, [3, 1, 2])] := by
  decide!

/-- C16 (counterexample): on the scenario mesh without computed SDF values, hovering the
triangle 0 and pressing the left button places the seed `0 -> 0` and sets up the override buffer
(12 entries, override mode on). -/
theorem mouseDown_without_sdf :
    noSdfGeometry.sdfComputed = false ∧
    (run (noSdfGeometry, State.initial) [.mouseMove (some 0), .mouseDown true]).map
        (fun r => r.2.mStartingTriangles) = some [(0, 0)] ∧
    (run (noSdfGeometry, State.initial) [.mouseMove (some 0), .mouseDown true]).map
        (fun r => r.2.colorOverride) = some true ∧
    (run (noSdfGeometry, State.initial) [.mouseMove (some 0), .mouseDown true]).map
        (fun r => r.2.overrideColorBuffer.length) = some 12 := by
  refine ⟨rfl, ?_, ?_, ?_⟩ <;> decide!

/-- C16 (amended): while the SDF values are not computed, `drawToSidePane` returns and leaves
the whole tool state as it was, whatever the seeds and the spread: no growth pass,
`mCurrentColoring` unchanged, no command executed; the geometry changes at most by the computation
of the SDF values.  A mouse-down does not read whether the SDF values exist: it does the same
with and without them. -/
theorem drawToSidePane_without_sdf (g : Geometry) (s : State) (ui : SidePaneInput)
    (hsdf : g.sdfComputed = false) :
    (∃ g', drawToSidePane g s ui = some (g', s) ∧
      (g' = g ∨ g' = { g with sdfComputed := true })) ∧
    (∀ isLeftDown, onModelViewMouseDown (some g) s isLeftDown =
      onModelViewMouseDown (some { g with sdfComputed := true }) s isLeftDown) := by
  constructor
  · unfold drawToSidePane
    cases hc : ui.computeSdf with
    | true => exact ⟨_, by simp [hsdf], Or.inr rfl⟩
    | false => exact ⟨_, by simp [hsdf], Or.inl rfl⟩
  · intro isLeftDown
    rfl

/-- The side-pane theorem at the scenario session on the mesh without SDF values, with the
spread dragged and Apply pressed. -/
theorem drawToSidePane_without_sdf_witness :
    (∃ g', drawToSidePane noSdfGeometry scenarioState
        { SidePaneInput.idle with spread := some 1, apply := true } = some (g', scenarioState) ∧
      (g' = noSdfGeometry ∨ g' = { noSdfGeometry with sdfComputed := true })) ∧
    (∀ isLeftDown, onModelViewMouseDown (some noSdfGeometry) scenarioState isLeftDown =
      onModelViewMouseDown (some { noSdfGeometry with sdfComputed := true }) scenarioState
        isLeftDown) :=
  drawToSidePane_without_sdf noSdfGeometry scenarioState
    { SidePaneInput.idle with spread := some 1, apply := true } rfl

/-! ## Lemmas on the backup buffer -/

theorem paintMesh_spec (g : Geometry) :
    ∃ b, (List.range g.triangleCount).foldlM
        (fun b i => paintTriangle b i (g.getColor (g.getTriangleColor i)))
        (List.replicate (g.triangleCount * 3) ⟨0, 0, 0, 0⟩) = some b ∧
      b.length = 3 * g.triangleCount ∧
      ∀ t, t < g.triangleCount → ∀ k, k < 3 →
        b[3 * t + k]? = some (g.getColor (g.getTriangleColor t)) := by
  obtain ⟨b, hb, hlen, hcl, -⟩ := paintPairs_spec g.getColor
    ((List.range g.triangleCount).map (fun i => (g.getTriangleColor i, i)))
    (List.replicate (g.triangleCount * 3) ⟨0, 0, 0, 0⟩) g.triangleCount
    (by simp [Nat.mul_comm])
    (by
      intro p hp
      simp only [List.mem_map, List.mem_range] at hp
      obtain ⟨i, hi, rfl⟩ := hp
      exact hi)
    (by
      intro c c' t h h'
      simp only [List.mem_map, List.mem_range, Prod.mk.injEq] at h h'
      obtain ⟨i, -, rfl, rfl⟩ := h
      obtain ⟨i', -, rfl, hi'⟩ := h'
      rw [hi'])
  rw [List.foldlM_map] at hb
  refine ⟨b, hb, hlen, ?_⟩
  intro t ht k hk
  exact hcl (g.getTriangleColor t) t
    (List.mem_map.2 ⟨t, List.mem_range.2 ht, rfl⟩) k hk

theorem setupOverride_single (g : Geometry) (s : State) (t c : Nat)
    (hseeds : s.mStartingTriangles = [(t, c)]) (ht : t < g.triangleCount) :
    ∃ b, setupOverride g s = some { s with
        mBackupColorBuffer := b
        overrideColorBuffer := b
        colorOverride := true } ∧
      ∀ t', t' < g.triangleCount → ∀ k, k < 3 →
        b[3 * t' + k]? = some (g.getColor (if t' = t then c else g.getTriangleColor t')) := by
  obtain ⟨b1, hb1, hlen1, hget1⟩ := paintMesh_spec g
  obtain ⟨b, hb, -, hget⟩ := paintTriangle_spec b1 t (g.getColor c) g.triangleCount hlen1 ht
  refine ⟨b, ?_, ?_⟩
  · unfold setupOverride
    simp only [hb1, hseeds, List.foldlM_cons, List.foldlM_nil, hb]
    rfl
  · intro t' ht' k hk
    rw [hget]
    by_cases e : t' = t
    · subst e
      rw [if_pos (by omega), if_pos rfl]
    · rw [if_neg (by omega), if_neg e]
      exact hget1 t' ht' k hk

theorem seedOrMeshColor_single (g : Geometry) (t c t' : Nat) :
    seedOrMeshColor g [(t, c)] t' = if t' = t then c else g.getTriangleColor t' := by
  unfold seedOrMeshColor
  by_cases e : t' = t
  · subst e
    simp [UMap.find]
  · have e' : ¬ t = t' := fun h => e h.symm
    simp [UMap.find, e, e']

theorem setTriangleColor_backup (g : Geometry) (s s1 : State) (t : Nat)
    (hh : s.mHoveredTriangleId = some t) (ht : t < g.triangleCount)
    (hseeds : s.mStartingTriangles ≠ []) (hov : s.colorOverride = true)
    (hlen : s.mBackupColorBuffer.length = 3 * g.triangleCount)
    (hlen' : s.overrideColorBuffer.length = 3 * g.triangleCount)
    (binv : BackupInv g s) (h : setTriangleColor g s = some s1) : BackupInv g s1 := by
  obtain ⟨b1, hb1, -, -⟩ := paintTriangle_spec s.overrideColorBuffer t
    (g.getColor g.activeColorIndex) g.triangleCount hlen' ht
  obtain ⟨b2, hb2, -, hget2⟩ := paintTriangle_spec s.mBackupColorBuffer t
    (g.getColor g.activeColorIndex) g.triangleCount hlen ht
  unfold setTriangleColor at h
  simp only [hh, hov, if_true, hb1, hb2] at h
  by_cases hsame : UMap.find s.mStartingTriangles t = some g.activeColorIndex
  · rw [if_pos hsame] at h
    injection h with h
    rw [← h]
    exact binv
  · rw [if_neg hsame] at h
    injection h with h
    rw [← h]
    intro _ t' ht' k hk
    show b2[3 * t' + k]? = some (g.getColor (seedOrMeshColor g _ t'))
    have hfind : ∀ t'', UMap.find
        (match UMap.find s.mStartingTriangles t with
          | none => UMap.insert s.mStartingTriangles t g.activeColorIndex
          | some _ => UMap.modify s.mStartingTriangles t (fun _ => g.activeColorIndex)) t'' =
        if t'' = t then some g.activeColorIndex else UMap.find s.mStartingTriangles t'' := by
      intro t''
      cases hf : UMap.find s.mStartingTriangles t with
      | none =>
        simp only []
        rw [UMap.find_insert_of_none _ _ _ _ hf]
        by_cases e : t'' = t
        · rw [if_pos e.symm, if_pos e]
        · rw [if_neg (fun e' => e e'.symm), if_neg e]
      | some c1 =>
        simp only []
        rw [UMap.find_modify]
        by_cases e : t'' = t
        · rw [if_pos e, if_pos e, e, hf]
          rfl
        · rw [if_neg e, if_neg e]
    rw [hget2]
    unfold seedOrMeshColor
    simp only []
    rw [hfind t']
    by_cases e : t' = t
    · subst e
      rw [if_pos (by omega), if_pos rfl]
    · rw [if_neg (by omega), if_neg e]
      exact binv hseeds t' ht' k hk

theorem onModelViewMouseDown_backup (g : Geometry) (s s' : State) (isLeftDown : Bool)
    (inv : SessionInv g s) (binv : BackupInv g s)
    (h : onModelViewMouseDown (some g) s isLeftDown = some s') : BackupInv g s' := by
  unfold onModelViewMouseDown at h
  cases isLeftDown with
  | false =>
    simp only [Bool.not_false, if_true] at h
    injection h with h
    rw [← h]; exact binv
  | true =>
    cases hh : s.mHoveredTriangleId with
    | none =>
      simp only [hh, Bool.not_true, Bool.false_eq_true, if_false, Option.isNone_none,
        if_true] at h
      injection h with h
      rw [← h]; exact binv
    | some t =>
      have ht := inv.hovered t hh
      simp only [hh, Bool.not_true, Bool.false_eq_true, if_false, Option.isNone_some] at h
      by_cases hseeds : s.mStartingTriangles = []
      · obtain ⟨-, -, hov⟩ := inv.idle hseeds
        have hset := setTriangleColor_idle g s t hh hseeds hov
        obtain ⟨b, hsetup, hget⟩ := setupOverride_single g
          { s with mStartingTriangles := [(t, g.activeColorIndex)] } t g.activeColorIndex rfl ht
        rw [hh] at hset
        simp only [hset, hseeds, List.isEmpty_nil, List.isEmpty_cons, Bool.not_false,
          Bool.and_self, if_true] at h
        rw [hh] at hsetup
        rw [hsetup] at h
        injection h with h
        rw [← h]
        intro _ t' ht' k hk
        show b[3 * t' + k]? = some (g.getColor (seedOrMeshColor g [(t, g.activeColorIndex)] t'))
        rw [seedOrMeshColor_single]
        exact hget t' ht' k hk
      · obtain ⟨hov, hlen, hlen'⟩ := inv.active hseeds
        have hempty : s.mStartingTriangles.isEmpty = false := by
          cases hs : s.mStartingTriangles with
          | nil => exact absurd hs hseeds
          | cons _ _ => rfl
        cases hset : setTriangleColor g s with
        | none =>
          rw [hset] at h
          simp at h
        | some s1 =>
          have b1 := setTriangleColor_backup g s s1 t hh ht hseeds hov hlen hlen' binv hset
          simp only [hset, hempty, Bool.false_and, Bool.false_eq_true, if_false] at h
          injection h with h
          rw [← h]
          exact b1

theorem spreadColors_frame (g : Geometry) (s s' : State) (h : spreadColors g s = some s') :
    s'.mBackupColorBuffer = s.mBackupColorBuffer ∧
      s'.mStartingTriangles = s.mStartingTriangles := by
  unfold spreadColors at h
  split at h
  · simp at h
  · simp only [] at h
    split at h
    · simp at h
    · split at h
      · simp at h
      · injection h with h
        rw [← h]
        exact ⟨rfl, rfl⟩

theorem refill_frame (g : Geometry) (s s2 : State) (spread : Option ℚ)
    (h : refill g s spread = some s2) :
    s2.mBackupColorBuffer = s.mBackupColorBuffer ∧
      s2.mStartingTriangles = s.mStartingTriangles := by
  unfold refill at h
  cases spread with
  | none =>
    simp only [] at h
    split_ifs at h
    · exact spreadColors_frame g s s2 h
    · injection h with h
      rw [← h]
      exact ⟨rfl, rfl⟩
  | some v =>
    simp only [] at h
    split_ifs at h
    · have := spreadColors_frame g _ s2 h
      exact this
    · injection h with h
      rw [← h]
      exact ⟨rfl, rfl⟩

theorem drawColorPalette_colors (g : Geometry) (pickedColor : Option Nat) :
    (drawColorPalette g pickedColor).getColor = g.getColor ∧
      (drawColorPalette g pickedColor).getTriangleColor = g.getTriangleColor := by
  cases pickedColor <;> exact ⟨rfl, rfl⟩

theorem drawToSidePane_cases (g : Geometry) (s : State) (ui : SidePaneInput)
    (gs' : Geometry × State) (h : drawToSidePane g s ui = some gs') :
    (gs'.1.getColor = g.getColor ∧ gs'.1.getTriangleColor = g.getTriangleColor) ∧
      (gs'.2.mStartingTriangles = [] ∨
        (gs'.2.mStartingTriangles = s.mStartingTriangles ∧
          gs'.2.mBackupColorBuffer = s.mBackupColorBuffer)) := by
  unfold drawToSidePane at h
  cases hsdf : g.sdfComputed with
  | false =>
    simp only [hsdf, Bool.not_false, if_true] at h
    split_ifs at h <;>
      · injection h with h
        rw [← h]
        exact ⟨⟨rfl, rfl⟩, Or.inr ⟨rfl, rfl⟩⟩
  | true =>
    simp only [hsdf, Bool.not_true, Bool.false_eq_true, if_false] at h
    cases hempty : s.mStartingTriangles.isEmpty with
    | true =>
      simp only [hempty, if_true] at h
      injection h with h
      rw [← h]
      exact ⟨drawColorPalette_colors g ui.pickedColor, Or.inr ⟨rfl, rfl⟩⟩
    | false =>
      simp only [hempty, Bool.false_eq_true, if_false] at h
      cases hre : refill (drawColorPalette g ui.pickedColor) s ui.spread with
      | none => rw [hre] at h; simp at h
      | some s2 =>
        rw [hre] at h
        simp only [] at h
        injection h with h
        rw [← h]
        refine ⟨drawColorPalette_colors g ui.pickedColor, ?_⟩
        obtain ⟨hb, hs⟩ := refill_frame _ s s2 ui.spread hre
        cases ui.cancel <;> cases ui.apply
        · exact Or.inr ⟨hs, hb⟩
        · exact Or.inl rfl
        · exact Or.inl rfl
        · exact Or.inl rfl

theorem backupInv_congr (g g' : Geometry) (s s' : State)
    (hc : g'.getColor = g.getColor) (ht : g'.getTriangleColor = g.getTriangleColor)
    (hn : g'.triangleCount = g.triangleCount)
    (hs : s'.mStartingTriangles = s.mStartingTriangles)
    (hb : s'.mBackupColorBuffer = s.mBackupColorBuffer) (binv : BackupInv g s) :
    BackupInv g' s' := by
  unfold BackupInv seedOrMeshColor at binv ⊢
  rw [hc, ht, hn, hs, hb]
  exact binv

theorem backupInv_of_idle (g : Geometry) (s : State) (h : s.mStartingTriangles = []) :
    BackupInv g s :=
  fun hne => absurd h hne

theorem step_backup (gs gs' : Geometry × State) (e : Event) (hg : GeometryOK gs.1)
    (inv : SessionInv gs.1 gs.2) (binv : BackupInv gs.1 gs.2) (he : EventOK gs.1 e)
    (h : step gs e = some gs') :
    BackupInv gs'.1 gs'.2 ∧ gs'.1.getColor = gs.1.getColor ∧
      gs'.1.getTriangleColor = gs.1.getTriangleColor := by
  obtain ⟨-, -, -, hcount, -, -⟩ := step_inv gs e hg inv he
  obtain ⟨g, s⟩ := gs
  have hn : gs'.1.triangleCount = g.triangleCount := by
    obtain ⟨gs1, h1, -, -, hc1, -⟩ := step_inv (g, s) e hg inv he
    rw [h] at h1
    injection h1 with h1
    rw [h1]
    exact hc1
  cases e with
  | mouseMove hit =>
    simp only [step] at h
    injection h with h
    rw [← h]
    exact ⟨backupInv_congr g g s _ rfl rfl rfl rfl rfl binv, rfl, rfl⟩
  | mouseDown isLeftDown =>
    simp only [step, Option.map_eq_some'] at h
    obtain ⟨s', hs', rfl⟩ := h
    exact ⟨onModelViewMouseDown_backup g s s' isLeftDown inv binv hs', rfl, rfl⟩
  | mouseDrag hit isLeftDown =>
    simp only [step, Option.map_eq_some', onModelViewMouseDrag] at h
    obtain ⟨s', hs', rfl⟩ := h
    exact ⟨onModelViewMouseDown_backup g _ s' isLeftDown
      (onModelViewMouseMove_inv g s hit inv he)
      (backupInv_congr g g s _ rfl rfl rfl rfl rfl binv) hs', rfl, rfl⟩
  | sidePane ui =>
    simp only [step] at h
    obtain ⟨⟨hc, ht⟩, hcases⟩ := drawToSidePane_cases g s ui gs' h
    refine ⟨?_, hc, ht⟩
    rcases hcases with h0 | ⟨hs, hb⟩
    · exact backupInv_of_idle _ _ h0
    · exact backupInv_congr g gs'.1 s gs'.2 hc ht hn hs hb binv
  | toolDeselect =>
    simp only [step] at h
    injection h with h
    rw [← h]
    exact ⟨backupInv_of_idle _ _ rfl, rfl, rfl⟩
  | newGeometryLoaded =>
    simp only [step] at h
    injection h with h
    rw [← h]
    exact ⟨backupInv_of_idle _ _ rfl, rfl, rfl⟩

theorem run_session (events : List Event) (gs : Geometry × State) (hg : GeometryOK gs.1)
    (inv : SessionInv gs.1 gs.2) (binv : BackupInv gs.1 gs.2)
    (hev : ∀ e ∈ events, EventOK gs.1 e) :
    ∃ gs', run gs events = some gs' ∧ SessionInv gs'.1 gs'.2 ∧ BackupInv gs'.1 gs'.2 ∧
      gs'.1.triangleCount = gs.1.triangleCount ∧ gs'.1.getColor = gs.1.getColor ∧
      gs'.1.getTriangleColor = gs.1.getTriangleColor := by
  induction events generalizing gs with
  | nil => exact ⟨gs, rfl, inv, binv, rfl, rfl, rfl⟩
  | cons e rest ih =>
    obtain ⟨gs1, h1, hg1, inv1, ht1, hp1, -⟩ := step_inv gs e hg inv (hev e (by simp))
    obtain ⟨binv1, hc1, hm1⟩ := step_backup gs gs1 e hg inv binv (hev e (by simp)) h1
    obtain ⟨gs2, h2, inv2, binv2, ht2, hc2, hm2⟩ := ih gs1 hg1 inv1 binv1
      (fun e' he' => eventOK_congr gs.1 gs1.1 e' ht1 hp1 (hev e' (List.mem_cons_of_mem _ he')))
    refine ⟨gs2, ?_, inv2, binv2, ht2.trans ht1, hc2.trans hc1, hm2.trans hm1⟩
    unfold run at h2 ⊢
    rw [List.foldlM_cons, h1]
    exact h2

/-! ## The buffers of a session -/

/-- C13: from the reset state, every sequence of events of the mesh (hovering and mouse-downs on
triangles of the mesh, spread changes, colour picks of the palette, Apply, Cancel, tool changes)
returns a state in which, if the seed registry is not empty, override mode is on, the backup and
the override buffer have three entries per triangle and the three backup entries of every
triangle are the palette colour of its seed colour, or of the committed mesh colour when it has
no seed; and if the registry is empty, both buffers are empty and override mode is off. -/
theorem session_buffers (g : Geometry) (events : List Event) (hg : GeometryOK g)
    (hev : ∀ e ∈ events, EventOK g e) :
    ∃ gs', run (g, State.initial) events = some gs' ∧
      (gs'.2.mStartingTriangles ≠ [] →
        gs'.2.colorOverride = true ∧
        gs'.2.mBackupColorBuffer.length = 3 * g.triangleCount ∧
        gs'.2.overrideColorBuffer.length = 3 * g.triangleCount ∧
        ∀ t, t < g.triangleCount → ∀ k, k < 3 →
          gs'.2.mBackupColorBuffer[3 * t + k]? =
            some (g.getColor
              (match UMap.find gs'.2.mStartingTriangles t with
                | some c => c
                | none => g.getTriangleColor t))) ∧
      (gs'.2.mStartingTriangles = [] →
        gs'.2.mBackupColorBuffer = [] ∧ gs'.2.overrideColorBuffer = [] ∧
        gs'.2.colorOverride = false) := by
  obtain ⟨gs', hrun, inv, binv, ht, hc, hm⟩ := run_session events (g, State.initial) hg
    (initial_inv g) (backupInv_of_idle g State.initial rfl) hev
  refine ⟨gs', hrun, ?_, inv.idle⟩
  intro hne
  obtain ⟨hov, hl, hl'⟩ := inv.active hne
  refine ⟨hov, by rw [hl, ht], by rw [hl', ht], ?_⟩
  intro t htc k hk
  have := binv hne t (by rw [ht]; exact htc) k hk
  unfold seedOrMeshColor at this
  rw [hc, hm] at this
  exact this

/-! ## Growth with spread 0 -/

theorem floodStep_fixed (neighbours : Nat → List Nat) (accepts : Nat → Bool) (t : Nat)
    (h : ∀ t' ∈ neighbours t, t' ≠ t → accepts t' = false) :
    floodStep neighbours accepts [t] = [t] := by
  have hfilter : ([t].flatMap neighbours).filter
      (fun x => accepts x && !(List.contains [t] x)) = [] := by
    rw [List.filter_eq_nil_iff]
    intro x hx
    simp only [List.flatMap_cons, List.flatMap_nil, List.append_nil] at hx
    by_cases e : x = t
    · simp [e]
    · simp [h x hx e]
  unfold floodStep
  rw [hfilter]
  rfl

theorem bucketGrowth_single (neighbours : Nat → List Nat) (n : Nat) (accepts : Nat → Bool)
    (t : Nat) (h : ∀ t' ∈ neighbours t, t' ≠ t → accepts t' = false) :
    bucketGrowth neighbours n [t] accepts = [t] :=
  Function.iterate_fixed (floodStep_fixed neighbours accepts t h) n

theorem sdfStopping_exact (bandWidth : ℚ → ℚ) (getSdfValue : Nat → ℚ) (v : ℚ) (t' : Nat)
    (hband : bandWidth 0 = 0) (hne : getSdfValue t' ≠ v) :
    sdfStopping bandWidth getSdfValue [v] 0 t' = false := by
  simp only [sdfStopping, List.any_cons, List.any_nil, Bool.or_false, hband,
    decide_eq_false_iff_not, not_le]
  exact abs_pos.2 (sub_ne_zero.2 hne)

/-- C17 (counterexample): on two adjacent triangles with the same SDF value 0.5, with spread 0
and the single seed `0 -> colour 0`, the growth of the colour 0 is `[0, 1]`: the band of width 0
admits the neighbour, whose SDF value matches exactly.  The seed set is `[0]`. -/
theorem growth_reaches_equal_sdf :
    (growColors flatGeometry 0 (seedsByColor flatGeometry [(0, 0)])).2 = [(0, [0, 1])] ∧
    ownedBy [(0, 0)] 0 = [0] := by
  constructor <;> decide!

/-- C17 (amended): when the bucket fill of the geometry is the growth service of the
specification (flood fill bounded by the stopping predicate, band width 0 at spread 0), every
colour has at most one seed and no neighbour of a seed triangle has exactly the SDF value of the
seed, the raw colouring that the growth loop of `spreadColors` builds with spread 0 has, for
every colour with a seed, exactly the seed list of that colour. -/
theorem growth_at_spread_zero (g : Geometry) (neighbours : Nat → List Nat) (bandWidth : ℚ → ℚ)
    (seeds : UMap Nat)
    (hbucket : ∀ st vals spread, g.bucket st vals spread =
      bucketGrowth neighbours g.triangleCount st (sdfStopping bandWidth g.getSdfValue vals spread))
    (hband : bandWidth 0 = 0)
    (hone : ∀ c, (ownedBy seeds c).length ≤ 1)
    (hneq : ∀ p ∈ seeds, ∀ t' ∈ neighbours p.1, t' ≠ p.1 →
      g.getSdfValue t' ≠ g.getSdfValue p.1) :
    (growColors g 0 (seedsByColor g seeds)).2 =
      (seedsByColor g seeds).filter (fun e => !e.2.isEmpty) := by
  rw [growColors_eq g 0 (seedsByColor g seeds)
    (by rw [seedsByColor_keys]; exact List.nodup_range _)]
  show rawClaims g 0 (seedsByColor g seeds) = _
  unfold rawClaims
  conv_rhs => rw [← List.map_id ((seedsByColor g seeds).filter (fun e => !e.2.isEmpty))]
  apply List.map_congr_left
  intro e he
  obtain ⟨c, ts⟩ := e
  rw [List.mem_filter] at he
  obtain ⟨hmem, hne⟩ := he
  obtain ⟨-, hts⟩ := seedsByColor_mem g seeds c ts hmem
  have hlen := hone c
  rw [← hts] at hlen
  cases ts with
  | nil => simp at hne
  | cons t rest =>
    cases rest with
    | cons _ _ => simp at hlen
    | nil =>
      have hseed : (t, c) ∈ seeds := by
        rw [← mem_ownedBy, ← hts]
        simp
      simp only [id, List.map_cons, List.map_nil, Prod.mk.injEq, true_and]
      rw [hbucket]
      apply bucketGrowth_single
      intro t' ht' hne'
      exact sdfStopping_exact bandWidth g.getSdfValue _ t' hband (hneq (t, c) hseed t' ht' hne')

/-- The spread-0 theorem on two adjacent triangles with the SDF values 0.1 and 0.2 and one seed
of each of the two colours. -/
theorem growth_at_spread_zero_witness :
    (growColors slopeGeometry 0 (seedsByColor slopeGeometry [(0, 0), (1, 1)])).2 =
      (seedsByColor slopeGeometry [(0, 0), (1, 1)]).filter (fun e => !e.2.isEmpty) :=
  growth_at_spread_zero slopeGeometry pairNeighbours (fun x => x) [(0, 0), (1, 1)]
    (fun _ _ _ => rfl) rfl
    (by
      intro c
      simp only [ownedBy_cons, ownedBy_nil]
      split_ifs <;> simp_all)
    (by
      intro p hp t' ht' hne
      simp only [List.mem_cons, List.mem_singleton, List.not_mem_nil, or_false] at hp
      rcases hp with rfl | rfl
      · simp only [pairNeighbours, if_true, List.mem_singleton] at ht'
        subst ht'
        simp only [slopeGeometry, pairGeometry]
        norm_num
      · simp only [pairNeighbours, if_true, List.mem_singleton] at ht'
        simp at ht'
        subst ht'
        simp only [slopeGeometry, pairGeometry]
        norm_num)

/-! ## Seeds after a growth pass -/

theorem sampleDistance_nonneg (g : Geometry) (lk : UMap (List ℚ)) (c t : Nat) :
    0 ≤ sampleDistance g lk c t := by
  unfold sampleDistance
  cases UMap.find lk c with
  | none => exact le_refl _
  | some values =>
    simp only []
    cases findClosestSDFValue (g.getSdfValue t) values with
    | none => exact le_refl _
    | some close => exact abs_nonneg _

theorem sampleDistance_of_sample (g : Geometry) (lk : UMap (List ℚ)) (c t : Nat)
    (values : List ℚ) (hf : UMap.find lk c = some values) (hs : values.Sorted (· ≤ ·))
    (hmem : g.getSdfValue t ∈ values) : sampleDistance g lk c t = 0 := by
  obtain ⟨v, hv, -, hnear⟩ := findClosestSDFValue_least (g.getSdfValue t) values
    (List.ne_nil_of_mem hmem) hs
  unfold sampleDistance
  simp only [hf, hv]
  have := hnear _ hmem
  rw [sub_self, roundDouble_zero, abs_zero] at this
  exact le_antisymm this (abs_nonneg _)

theorem claims_rawClaims_of_mem (g : Geometry) (spread : ℚ) (tbc : UMap (List Nat)) (c t : Nat)
    (ts : List Nat) (hmem : (c, ts) ∈ tbc) (hne : ts ≠ [])
    (ht : t ∈ g.bucket ts (ts.map g.getSdfValue) spread) :
    Claims (rawClaims g spread tbc) c t := by
  refine ⟨g.bucket ts (ts.map g.getSdfValue) spread, ?_, ht⟩
  simp only [rawClaims, List.mem_map, List.mem_filter]
  refine ⟨(c, ts), ⟨hmem, ?_⟩, rfl⟩
  cases ts with
  | nil => exact absurd rfl hne
  | cons _ _ => rfl

/-- C20 (counterexample), in two parts.  Equal SDF values: the triangles 0 and 1 of
`twinGeometry` have the same SDF value and are seeded with the colours 0 and 1; the growth of
either colour contains its own seed and reaches the other triangle; after `spreadColors` the
colour 0 has no triangle, its seed triangle 0 belongs to the colour 1, which is visited later and
wins the tie.  Non-ascending samples: on `unsortedSeedGeometry` the colour 0 is seeded at the
triangles 0 and 1 (samples 0.875, 0.125 in this order) and the colour 1 at the triangle 2
(sample 0.5), and the growth of the colour 1 reaches the triangle 0; the search over the
unsorted samples gives the colour 0 the distance 0.75 to its own seed triangle 0, the colour 1
has 0.375, and after `spreadColors` the seed triangle 0 belongs to the colour 1. -/
theorem spreadColors_hands_seed_over :
    ((growColors twinGeometry twinState.mBucketSpread
        (seedsByColor twinGeometry twinState.mStartingTriangles)).2 =
      [(0, [0, 1]), (1, [1, 0])] ∧
    (growColors twinGeometry twinState.mBucketSpread
        (seedsByColor twinGeometry twinState.mStartingTriangles)).1 =
      [(0, [1 / 2]), (1, [1 / 2])] ∧
    (spreadColors twinGeometry twinState).map (fun s => s.mCurrentColoring) =
      some [(0, []), (1, [0, 1])]) ∧
    ((growColors unsortedSeedGeometry unsortedSeedState.mBucketSpread
        (seedsByColor unsortedSeedGeometry unsortedSeedState.mStartingTriangles)).2 =
      [(0, [0, 1, 0]), (1, [2, 0])] ∧
    (growColors unsortedSeedGeometry unsortedSeedState.mBucketSpread
        (seedsByColor unsortedSeedGeometry unsortedSeedState.mStartingTriangles)).1 =
      [(0, [7 / 8, 1 / 8]), (1, [1 / 2])] ∧
    sampleDistance unsortedSeedGeometry [(0, [7 / 8, 1 / 8]), (1, [1 / 2])] 0 0 = 3 / 4 ∧
    sampleDistance unsortedSeedGeometry [(0, [7 / 8, 1 / 8]), (1, [1 / 2])] 1 0 = 3 / 8 ∧
    (spreadColors unsortedSeedGeometry unsortedSeedState).map (fun s => s.mCurrentColoring) =
      some [(0, [1]), (1, [0, 2])]) := by
  refine ⟨⟨?_, ?_, ?_⟩, ?_, ?_, ?_, ?_, ?_⟩ <;> decide!

/-- C20 (amended): when the seed colours are palette ids and the growth of every colour contains
the colour's own seed triangles, `spreadColors` returns and every seed triangle is in the final
list of its own seed colour, provided that wherever another colour also claims a seed triangle,
the samples of the seed's own colour are stored in ascending order and the other colour does not
have the computed distance 0 to the seed triangle (a sample equal to its SDF value). -/
theorem spreadColors_keeps_seeds (g : Geometry) (s : State)
    (hseeds : ∀ p ∈ s.mStartingTriangles, p.2 < g.paletteSize)
    (hrender : s.colorOverride = true →
      s.mBackupColorBuffer.length = 3 * g.triangleCount ∧ BucketInRange g ∧
      ∀ p ∈ s.mStartingTriangles, p.1 < g.triangleCount)
    (hown : ∀ p ∈ s.mStartingTriangles,
      p.1 ∈ g.bucket (ownedBy s.mStartingTriangles p.2)
        ((ownedBy s.mStartingTriangles p.2).map g.getSdfValue) s.mBucketSpread)
    (hcontested : ∀ p ∈ s.mStartingTriangles, ∀ c', c' ≠ p.2 →
      Claims (rawClaims g s.mBucketSpread (seedsByColor g s.mStartingTriangles)) c' p.1 →
      ((ownedBy s.mStartingTriangles p.2).map g.getSdfValue).Sorted (· ≤ ·) ∧
      sampleDistance g (sampleTable g (seedsByColor g s.mStartingTriangles)) c' p.1 ≠ 0) :
    ∃ s', spreadColors g s = some s' ∧
      ∀ p ∈ s.mStartingTriangles, Claims s'.mCurrentColoring p.2 p.1 := by
  obtain ⟨coloring, buffer, hsp, hpost, -⟩ := spreadColors_spec g s hseeds hrender
  have hhyp := grown_hyp g s.mBucketSpread s.mStartingTriangles
  obtain ⟨m, final, inv, hpost', -, -, hownr⟩ := postprocess_owner g _ _
    (fun c t hc => ⟨(hhyp c t hc).1, (hhyp c t hc).2.1⟩)
  have hfinal : final = coloring := by
    rw [hpost] at hpost'
    injection hpost' with h
    exact h.symm
  subst hfinal
  refine ⟨_, hsp, ?_⟩
  intro p hp
  obtain ⟨t, c⟩ := p
  show Claims final c t
  have hc : c < g.paletteSize := hseeds (t, c) hp
  have hnd : ((seedsByColor g s.mStartingTriangles).map Prod.fst).Nodup := by
    rw [seedsByColor_keys]; exact List.nodup_range _
  have htown : t ∈ ownedBy s.mStartingTriangles c := (mem_ownedBy _ c t).2 hp
  have hne : ownedBy s.mStartingTriangles c ≠ [] := List.ne_nil_of_mem htown
  have hentry : (c, ownedBy s.mStartingTriangles c) ∈ seedsByColor g s.mStartingTriangles :=
    (mem_tabulated g.paletteSize _ c _).2 ⟨hc, rfl⟩
  have hclaim : Claims (rawClaims g s.mBucketSpread (seedsByColor g s.mStartingTriangles)) c t :=
    claims_rawClaims_of_mem g _ _ c t _ hentry hne (hown (t, c) hp)
  obtain ⟨o, ho⟩ := inv.claimed_owned c t ((mem_pairsOf _ c t).2 hclaim)
  by_cases hoc : o = c
  · rw [hownr, ← hoc]
    exact ho
  · obtain ⟨hsorted, hnotie⟩ :=
      hcontested (t, c) hp o hoc ((mem_pairsOf _ o t).1 (inv.owner_claims t o ho))
    have hdist : sampleDistance g (sampleTable g (seedsByColor g s.mStartingTriangles)) c t = 0 :=
      sampleDistance_of_sample g _ c t _ (sampleTable_find g _ c _ hnd hentry hne) hsorted
        (List.mem_map_of_mem g.getSdfValue htown)
    have hle := inv.owner_closest t o ho c ((mem_pairsOf _ c t).2 hclaim)
    rw [hdist] at hle
    exact absurd (le_antisymm hle (sampleDistance_nonneg g _ o t)) hnotie

theorem scenarioEvents_ok : ∀ e ∈ seedEvents ++ [spreadFrame], EventOK scenarioGeometry e := by
  intro e he
  simp only [seedEvents, spreadFrame, List.cons_append, List.nil_append, List.mem_cons,
    List.mem_singleton, List.not_mem_nil, or_false] at he
  rcases he with rfl | rfl | rfl | rfl | rfl | rfl <;>
    simp [EventOK, SidePaneInput.idle, scenarioGeometry]

/-- The buffer theorem at the scenario: two seeds and a spread change. -/
theorem session_buffers_witness :
    ∃ gs', run (scenarioGeometry, State.initial) (seedEvents ++ [spreadFrame]) = some gs' ∧
      (gs'.2.mStartingTriangles ≠ [] →
        gs'.2.colorOverride = true ∧
        gs'.2.mBackupColorBuffer.length = 3 * scenarioGeometry.triangleCount ∧
        gs'.2.overrideColorBuffer.length = 3 * scenarioGeometry.triangleCount ∧
        ∀ t, t < scenarioGeometry.triangleCount → ∀ k, k < 3 →
          gs'.2.mBackupColorBuffer[3 * t + k]? =
            some (scenarioGeometry.getColor
              (match UMap.find gs'.2.mStartingTriangles t with
                | some c => c
                | none => scenarioGeometry.getTriangleColor t))) ∧
      (gs'.2.mStartingTriangles = [] →
        gs'.2.mBackupColorBuffer = [] ∧ gs'.2.overrideColorBuffer = [] ∧
        gs'.2.colorOverride = false) :=
  session_buffers scenarioGeometry (seedEvents ++ [spreadFrame]) scenarioGeometry_ok
    scenarioEvents_ok

theorem scenarioState_rawClaims :
    rawClaims scenarioGeometry scenarioState.mBucketSpread
      (seedsByColor scenarioGeometry scenarioState.mStartingTriangles) =
      [(0, [0, 1]), (1, [3, 2])] := by
  decide!

theorem overlapGeometry_bucket : BucketInRange overlapGeometry := by
  intro st vals spread hst t ht
  simp only [overlapGeometry, List.mem_append, List.mem_cons, List.mem_singleton,
    List.not_mem_nil, or_false] at ht hst ⊢
  rcases ht with h | rfl | rfl
  · exact hst t h
  · decide
  · decide

/-- The seed theorem at a session with two seeds of the colour 0 (samples 0.125, 0.25, in
ascending order) and one seed of the colour 1 (sample 0.875) whose growth reaches the seed
triangle 1 of the colour 0 with the distance 0.625: every seed keeps its colour. -/
theorem spreadColors_keeps_seeds_witness :
    Claims (rawClaims overlapGeometry overlapState.mBucketSpread
      (seedsByColor overlapGeometry overlapState.mStartingTriangles)) 1 1 ∧
    sampleDistance overlapGeometry
      (sampleTable overlapGeometry (seedsByColor overlapGeometry overlapState.mStartingTriangles))
      1 1 = 5 / 8 ∧
    (spreadColors overlapGeometry overlapState).map (fun s => s.mCurrentColoring) =
      some [(0, [0, 1]), (1, [2, 3])] ∧
    ∃ s', spreadColors overlapGeometry overlapState = some s' ∧
      ∀ p ∈ overlapState.mStartingTriangles, Claims s'.mCurrentColoring p.2 p.1 :=
  ⟨by rw [overlapState_rawClaims]; exact ⟨[3, 1, 2], by simp, by simp⟩, by decide!, by decide!,
    spreadColors_keeps_seeds overlapGeometry overlapState (by decide)
      (fun _ => ⟨by decide, overlapGeometry_bucket, by decide⟩)
      (by decide)
      (by
        intro p hp c' hc' hclaim
        rw [overlapState_rawClaims] at hclaim
        obtain ⟨ts, hmem, ht⟩ := hclaim
        have d01 : sampleDistance overlapGeometry (sampleTable overlapGeometry
            (seedsByColor overlapGeometry overlapState.mStartingTriangles)) 1 1 = 5 / 8 := by
          decide!
        have hsorted : ((ownedBy overlapState.mStartingTriangles 0).map
            overlapGeometry.getSdfValue).Sorted (· ≤ ·) := by
          show [(1 / 8 : ℚ), 1 / 4].Sorted (· ≤ ·)
          simp only [List.sorted_cons, List.mem_singleton, forall_eq, List.not_mem_nil,
            false_implies, implies_true, List.sorted_nil, and_true]
          norm_num
        simp only [overlapState, List.mem_cons, List.mem_singleton, List.not_mem_nil,
          or_false] at hp
        simp only [List.mem_cons, Prod.mk.injEq, List.mem_singleton, List.not_mem_nil,
          or_false] at hmem
        rcases hp with rfl | rfl | rfl <;> rcases hmem with ⟨rfl, rfl⟩ | ⟨rfl, rfl⟩ <;>
          first
            | exact absurd rfl hc'
            | (exfalso; simp at ht; done)
            | exact ⟨hsorted, by rw [d01]; norm_num⟩)⟩

/-! ## The strokes of the brush -/

theorem Brush.paint_cases (maxPaints : Nat) (b : Brush) (hmgr : b.hasCommandManager = true) :
    (Brush.paint maxPaints b).hasCommandManager = true ∧
    (((Brush.paint maxPaints b).executed = b.executed ∧
        (Brush.paint maxPaints b).mGroupCommands = b.mGroupCommands) ∨
      (∃ c, (Brush.paint maxPaints b).executed = b.executed ++ [c] ∧
        c.groupWithPrevious = b.mGroupCommands ∧
        (Brush.paint maxPaints b).mGroupCommands = true)) := by
  unfold Brush.paint
  by_cases h : b.mPaintsSinceDraw ≥ maxPaints
  · rw [if_pos h]
    exact ⟨hmgr, Or.inl ⟨rfl, rfl⟩⟩
  · rw [if_neg h]
    refine ⟨hmgr, Or.inr ⟨⟨b.mLastRay, { b.mBrushSettings with color := b.activeColorIndex },
      b.mGroupCommands⟩, ?_, rfl, rfl⟩⟩
    simp [hmgr]

theorem Brush.step_cases (maxPaints : Nat) (b : Brush) (e : BrushEvent)
    (hmgr : b.hasCommandManager = true) (he : e.inStroke = true) :
    (Brush.step maxPaints b e).hasCommandManager = true ∧
    (((Brush.step maxPaints b e).executed = b.executed ∧
        (Brush.step maxPaints b e).mGroupCommands = b.mGroupCommands) ∨
      (∃ c, (Brush.step maxPaints b e).executed = b.executed ++ [c] ∧
        c.groupWithPrevious = b.mGroupCommands ∧
        (Brush.step maxPaints b e).mGroupCommands = true)) := by
  cases e with
  | mouseDown isLeft ray =>
    cases isLeft with
    | false => exact ⟨hmgr, Or.inl ⟨rfl, rfl⟩⟩
    | true => exact Brush.paint_cases maxPaints { b with mLastRay := ray } hmgr
  | mouseUp isLeft =>
    cases isLeft with
    | false => exact ⟨hmgr, Or.inl ⟨rfl, rfl⟩⟩
    | true => simp [BrushEvent.inStroke] at he
  | mouseDrag isLeftDown ray =>
    cases isLeftDown with
    | false => exact ⟨hmgr, Or.inl ⟨rfl, rfl⟩⟩
    | true => exact Brush.paint_cases maxPaints { b with mLastRay := ray } hmgr
  | mouseMove ray => exact ⟨hmgr, Or.inl ⟨rfl, rfl⟩⟩
  | sidePane ui => exact ⟨hmgr, Or.inl ⟨rfl, rfl⟩⟩

theorem Brush.run_flags (maxPaints : Nat) (events : List BrushEvent) (b : Brush)
    (hmgr : b.hasCommandManager = true) (hev : ∀ e ∈ events, e.inStroke = true) :
    ∃ new, (Brush.run maxPaints b events).executed = b.executed ++ new ∧
      new.map (fun c => c.groupWithPrevious) =
        (List.range new.length).map (fun i => b.mGroupCommands || decide (0 < i)) ∧
      (Brush.run maxPaints b events).mGroupCommands =
        (b.mGroupCommands || decide (0 < new.length)) := by
  induction events generalizing b with
  | nil => exact ⟨[], by simp [Brush.run], by simp, by simp [Brush.run]⟩
  | cons e rest ih =>
    obtain ⟨hmgr1, hcase⟩ := Brush.step_cases maxPaints b e hmgr (hev e (by simp))
    obtain ⟨new1, hex1, hflags1, hgroup1⟩ := ih (Brush.step maxPaints b e) hmgr1
      (fun e' he' => hev e' (List.mem_cons_of_mem _ he'))
    have hrun : Brush.run maxPaints b (e :: rest) =
        Brush.run maxPaints (Brush.step maxPaints b e) rest := rfl
    rw [hrun]
    rcases hcase with ⟨hex, hgroup⟩ | ⟨c, hex, hc, hgroup⟩
    · refine ⟨new1, by rw [hex1, hex], ?_, by rw [hgroup1, hgroup]⟩
      rw [hflags1, hgroup]
    · refine ⟨c :: new1, by rw [hex1, hex]; simp, ?_, ?_⟩
      · rw [List.map_cons, hflags1, hgroup, hc, List.length_cons, List.range_succ_eq_map,
          List.map_cons, List.map_map]
        simp only [Bool.true_or, Nat.lt_irrefl, decide_False, Bool.or_false, List.cons.injEq,
          true_and]
        apply List.map_congr_left
        intro i _
        simp
      · rw [hgroup1, hgroup]
        simp

/-- C21: from a brush with `mGroupCommands = false` and a command manager, every sequence of
events without a release of the left button (presses, drags, moves, side-pane draws), followed by
the release of the left button, executes commands of which the first has
`groupWithPrevious = false` and every later one `groupWithPrevious = true`, whatever
`MAX_PAINTS_WITHOUT_DRAW` and the number of paints since the last draw are, that is whichever
`paint()` calls the throttle skips; after the release `mGroupCommands` is false. -/
theorem brush_stroke_grouping (maxPaints : Nat) (b : Brush) (events : List BrushEvent)
    (hgroup : b.mGroupCommands = false) (hmgr : b.hasCommandManager = true)
    (hev : ∀ e ∈ events, e.inStroke = true) :
    ∃ new, (Brush.run maxPaints b (events ++ [.mouseUp true])).executed = b.executed ++ new ∧
      new.map (fun c => c.groupWithPrevious) =
        (List.range new.length).map (fun i => decide (0 < i)) ∧
      (Brush.run maxPaints b (events ++ [.mouseUp true])).mGroupCommands = false := by
  obtain ⟨new, hex, hflags, -⟩ := Brush.run_flags maxPaints events b hmgr hev
  have hrun : Brush.run maxPaints b (events ++ [.mouseUp true]) =
      Brush.stopPaint (Brush.run maxPaints b events) := by
    simp [Brush.run, Brush.step, Brush.onModelViewMouseUp]
  refine ⟨new, ?_, ?_, ?_⟩
  · rw [hrun]
    exact hex
  · rw [hflags, hgroup]
    simp
  · rw [hrun]
    rfl

/-- The stroke theorem at a stroke whose first and fourth paint are throttled. -/
theorem brush_stroke_grouping_witness :
    ∃ new, (Brush.run 2 throttledBrush (throttledStroke ++ [.mouseUp true])).executed =
        throttledBrush.executed ++ new ∧
      new.map (fun c => c.groupWithPrevious) =
        (List.range new.length).map (fun i => decide (0 < i)) ∧
      (Brush.run 2 throttledBrush (throttledStroke ++ [.mouseUp true])).mGroupCommands = false :=
  brush_stroke_grouping 2 throttledBrush throttledStroke rfl rfl (by decide)

/-! ## The colour of a triangle of the mesh -/

/-- The first assertion compares in the direction `size < position + 5`: it would fail at the
index 0 of a geometry with generated buffers and two or more triangles.  No operation of this
version of the class adds a triangle (see `after_one_triangle`), so no object gets there. -/
theorem vertexBufferAssertion_fails (geo : geometry.Geometry)
    (newColor : geometry.PeprColor)
    (hgen : geo.mVertexBuffer.length = 3 * geo.mTriangles.length)
    (htwo : 2 ≤ geo.mTriangles.length) :
    geo.vertexBufferAssertion 0 = false ∧ geo.setTriangleColorChecked 0 newColor = none := by
  have h : geo.vertexBufferAssertion 0 = false := by
    simp only [geometry.Geometry.vertexBufferAssertion, decide_eq_false_iff_not, not_lt]
    norm_num
    omega
  exact ⟨h, by simp [geometry.Geometry.setTriangleColorChecked, h]⟩

end pepr3d
